import Mathlib

/-!
dropEst: merge of cell barcodes against a catalog of real barcodes.

A shallow embedding of `Estimation/Merge/RealBarcodesMergeStrategy.cpp`.

* `std::string` is `List Char`; `std::vector` is `List`; `std::map` is an association list
  in iteration (key) order.
* `size_t` is `Nat` below `2 ^ 64`, `long` is `Int`; the places where the source converts
  between them or subtracts sizes use `to_size_t` and `to_long`.
* A `double` is `Double`: a rational number, `nan` or `inf`; the rounded quotient of two
  counts is a parameter (`DoubleDivision`).
* A thrown exception or an access past the end of a vector is a `Failure`.
* Log lines and calls that mutate the container or its statistics are recorded, in order,
  in a list of `Event`s.
* The container, `merge_force`, `Tools::reverse_complement`, the catalog file and `std::sort`
  are not part of the translated file; they are taken as parameters (`Collaborators`).
  `Tools::edit_distance` is the Levenshtein distance.
* `std::sort` is any `StdSort`: a rearrangement that is ascending in the key. The instance
  `libstdcxx_sort` follows the implementation of libstdc++, `insertion_sort` is a stable sort.
* `intersect_fraction_spec` is the intersection fraction in the words of the spec, next to
  the value that `get_umigs_intersect_fraction` computes.
-/

namespace Estimation

/-- The contents of a `std::string`. -/
abbrev Str := List Char

/-- Ways in which the C++ code fails to return. -/
inductive Failure
  | runtime_error
  | out_of_range
  | out_of_bounds
deriving DecidableEq

/-! ## Machine integers -/

/-- Conversion of an integer to `size_t` (64 bits, wraps). -/
def to_size_t (z : Int) : Nat := (z % 2 ^ 64).toNat

/-- Conversion of a `size_t` to `long` (64 bits, two's complement). -/
def to_long (n : Nat) : Int :=
  if n % 2 ^ 64 < 2 ^ 63 then ((n % 2 ^ 64 : Nat) : Int) else ((n % 2 ^ 64 : Nat) : Int) - 2 ^ 64

/-- The constant `std::numeric_limits<long>::max()`. -/
def LONG_MAX : Int := 2 ^ 63 - 1

/-! ## Strings -/

/-- The call `s.substr(pos, count)`: throws `std::out_of_range` when `pos > s.size()`. -/
def substr (s : Str) (pos count : Nat) : Except Failure Str :=
  if pos > s.length then .error .out_of_range else .ok ((s.drop pos).take count)

/-- The call `s.substr(pos)`: the rest of the string from `pos`. -/
def substr_from (s : Str) (pos : Nat) : Except Failure Str :=
  if pos > s.length then .error .out_of_range else .ok (s.drop pos)

/-- The call `s.find(c)`: index of the first occurrence, `none` for `npos`. -/
def find_char (c : Char) : Str → Option Nat
  | [] => none
  | x :: xs => if x = c then some 0 else (find_char c xs).map (· + 1)

/-- The call `a.compare(b)`, reduced to its sign. -/
def str_compare : Str → Str → Ordering
  | [], [] => .eq
  | [], _ :: _ => .lt
  | _ :: _, [] => .gt
  | a :: as, b :: bs =>
    if a.toNat < b.toNat then .lt
    else if b.toNat < a.toNat then .gt
    else str_compare as bs

/-- Modelled from the spec: `Tools::edit_distance` is not in the translated file; the spec
describes it as the Levenshtein distance with unit costs. -/
def edit_distance (a b : Str) : Nat := levenshtein Levenshtein.defaultCost a b

/-! ## Data model -/

/-- The pair `Tools::IndexedValue`. -/
structure IndexedValue where
  index : Nat
  value : Int
deriving DecidableEq

/-- The comparator `IndexedValue::value_less` compares the `value` fields. -/
def IndexedValue.key (v : IndexedValue) : Int := v.value

abbrev names_t := List Str
abbrev ids_t := List Nat
abbrev i_counter_t := List IndexedValue
/-- Molecule identifiers of one gene with their counts, in key order. -/
abbrev umis_t := List (Str × Nat)
/-- Genes of one cell with their molecule identifiers, in key order. -/
abbrev genes_t := List (Str × umis_t)
/-- The map from a cell id to the ids reassigned to it. -/
abbrev ISIHM := List (Nat × List Nat)
/-- The tuple `(index1, index2, summed distance)` of `get_real_neighbour_cbs`. -/
abbrev tuple_t := Nat × Nat × Int

/-- The statistics that `get_real_neighbour_cbs` reports. -/
inductive StatType
  | MERGE_EDIT_DISTANCE_BY_CELL
  | MERGE_REJECTION_BY_CELL
deriving DecidableEq

/-- Observable effects, in the order the code performs them. -/
inductive Event
  | log_trace_tags (tag_index merges_count : Nat)
  | log_info_merges (merges_count : Nat)
  | log_debug_neighbours (base_cb : Str)
  | log_debug_add_filtered (value : Int) (index : Nat)
  | log_warn_bad_format (line : Str)
  | log_warn_empty_list
  | stats_add_str (stat : StatType) (cb base_cb : Str) (ed : Int)
  | stats_merge (targets : ids_t) (barcodes : names_t)
  | exclude_cell (cell : Nat)
  | merge_force (src target : Nat)
  | update_cells_genes_counts (min_genes : Int) (logs : Bool)
deriving DecidableEq

/-- Log lines, as opposed to calls on the container. -/
def Event.is_log : Event → Bool
  | .log_trace_tags _ _ => true
  | .log_info_merges _ => true
  | .log_debug_neighbours _ => true
  | .log_debug_add_filtered _ _ => true
  | .log_warn_bad_format _ => true
  | .log_warn_empty_list => true
  | _ => false

/-- The algorithm `std::sort` with a comparator `key a < key b`: the result is some
permutation of the input that is ascending in the key; the order of equal keys is not
fixed by the standard. -/
structure StdSort where
  sort : {α : Type} → (α → Int) → List α → List α
  perm : ∀ {α : Type} (key : α → Int) (l : List α), (sort key l).Perm l
  sorted : ∀ {α : Type} (key : α → Int) (l : List α),
    (sort key l).Pairwise (fun a b => key a ≤ key b)

/-- The arithmetic of `n / (double) d` for two counts with `d ≠ 0`: the conversions and the
division round, so the result is only known to be a finite double that is not negative and
that is at most 1 when `n ≤ d`. -/
structure DoubleDivision where
  div : Nat → Nat → ℚ
  nonneg : ∀ n d, 0 ≤ div n d
  le_one : ∀ n d, n ≤ d → div n d ≤ 1

/-- Code that `RealBarcodesMergeStrategy.cpp` calls and that lives elsewhere: the container
`CellsDataContainer` (with state `C`), `AbstractMergeStrategy::merge_force`,
`Tools::reverse_complement` and the catalog file; and the platform: `std::sort` and the
division of doubles. -/
structure Collaborators (C : Type) where
  cell_barcodes : C → names_t
  cell_ids_by_cb : C → List (Str × Nat)
  cell_genes : C → List genes_t
  cells_genes_counts_sorted : C → i_counter_t
  exclude_cell : C → Nat → C
  update_cells_genes_counts : C → Int → Bool → C
  merge_force : C → Nat → Nat → ids_t → ISIHM → C × ids_t × ISIHM
  reverse_complement : Str → Str
  file_lines : Str → Option (List Str)
  std : StdSort
  fp : DoubleDivision

/-- The values of type `double` that the code handles: a quotient of two counts, or the
configured threshold. A finite double is a rational number; `0 / 0` is `nan` and `n / 0`
with `n > 0` is `inf`. -/
inductive Double
  | nan
  | inf
  | num (q : ℚ)
deriving DecidableEq

/-- The comparison `a < b` of two doubles: false whenever one side is `nan`. -/
def Double.lt : Double → Double → Bool
  | .num a, .num b => decide (a < b)
  | .num _, .inf => true
  | _, _ => false

/-- The configuration held by a `RealBarcodesMergeStrategy`; `MAX_REAL_MERGE_EDIT_DISTANCE`
is the static constant of the class, whose value is in the header. -/
structure RealBarcodesMergeStrategy where
  _barcodes_filename : Str
  _barcode2_length : Nat
  min_genes_before_merge : Int
  min_genes_after_merge : Int
  max_merge_edit_distance : Int
  _min_merge_fraction : Double
  MAX_REAL_MERGE_EDIT_DISTANCE : Int

/-- The expression `n / (double) d` for two counts. -/
def Double.div_counts (fp : DoubleDivision) (n d : Nat) : Double :=
  if d = 0 then (if n = 0 then .nan else .inf) else .num (fp.div n d)

instance {ε α : Type} [DecidableEq ε] [DecidableEq α] : DecidableEq (Except ε α) :=
  fun a b =>
    match a, b with
    | .ok x, .ok y => if h : x = y then isTrue (by rw [h]) else isFalse (by intro h1; cases h1; exact h rfl)
    | .error x, .error y =>
      if h : x = y then isTrue (by rw [h]) else isFalse (by intro h1; cases h1; exact h rfl)
    | .ok _, .error _ => isFalse (by intro h; cases h)
    | .error _, .ok _ => isFalse (by intro h; cases h)

/-- Read access `v[i]` to a vector; past the end is undefined behaviour. -/
def vec_at {α : Type} (v : List α) (i : Nat) : Except Failure α :=
  match v[i]? with
  | some a => .ok a
  | none => .error .out_of_bounds

/-- The lookup `m.find(key)` in a map. -/
def map_find (m : List (Str × Nat)) (key : Str) : Option Nat :=
  (m.find? (fun kv => decide (kv.1 = key))).map Prod.snd

namespace RealBarcodesMergeStrategy

variable {C : Type}

/-! ## get_barcodes_list -/

/-- The `while (std::getline(cb_f, line))` loop of `get_barcodes_list`. -/
def get_barcodes_list_loop (reverse_complement : Str → Str) :
    List Str → names_t → names_t → List Event →
    Except Failure (names_t × names_t × List Event)
  | [], barcodes1, barcodes2, events => .ok (barcodes1, barcodes2, events)
  | line :: rest, barcodes1, barcodes2, events =>
    match find_char ' ' line with
    | none =>
      get_barcodes_list_loop reverse_complement rest barcodes1 barcodes2
        (events ++ [Event.log_warn_bad_format line])
    | some space_ind =>
      match substr line 0 space_ind, substr_from line (space_ind + 1) with
      | .ok field1, .ok field2 =>
        get_barcodes_list_loop reverse_complement rest
          (barcodes1 ++ [reverse_complement field1])
          (barcodes2 ++ [reverse_complement field2]) events
      | .error e, _ => .error e
      | _, .error e => .error e

/-- The function `get_barcodes_list`: `barcodes1` and `barcodes2` are the vectors passed by
reference, the result holds their final contents and the log lines written. -/
def get_barcodes_list (col : Collaborators C) (barcodes_filename : Str)
    (barcodes1 barcodes2 : names_t) : Except Failure (names_t × names_t × List Event) :=
  match col.file_lines barcodes_filename with
  | none => .error .runtime_error
  | some lines =>
    match get_barcodes_list_loop col.reverse_complement lines barcodes1 barcodes2 [] with
    | .error e => .error e
    | .ok (b1, b2, events) =>
      if b1.length = 0 then .ok (b1, b2, events ++ [Event.log_warn_empty_list])
      else .ok (b1, b2, events)

/-! ## fill_distances_to_cb -/

/-- One `for (auto const cb: cbs)` loop of `fill_distances_to_cb`, with its counter `i`. -/
def fill_distances_loop (cb_part : Str) : names_t → Nat → i_counter_t → i_counter_t
  | [], _, dists => dists
  | cb :: rest, i, dists =>
    fill_distances_loop cb_part rest (i + 1)
      (dists ++ [IndexedValue.mk i (edit_distance cb_part cb : Nat)])

/-- The function `fill_distances_to_cb`; the result is the final `(dists1, dists2)`. -/
def fill_distances_to_cb (std : StdSort) (cb_part1 cb_part2 : Str) (cbs1 cbs2 : names_t)
    (dists1 dists2 : i_counter_t) : i_counter_t × i_counter_t :=
  let dists1 := fill_distances_loop cb_part1 cbs1 0 dists1
  let dists2 := fill_distances_loop cb_part2 cbs2 0 dists2
  (std.sort IndexedValue.key dists1, std.sort IndexedValue.key dists2)

/-! ## get_real_neighbour_cbs -/

/-- The inner `for (ind2 ...)` loop: stops at the first sum above the bound. -/
def collect_inner (max_ed : Int) (cur_dist1 : IndexedValue) : i_counter_t → List tuple_t
  | [] => []
  | cur_dist2 :: rest =>
    let cur_ed := cur_dist1.value + cur_dist2.value
    if cur_ed > max_ed then []
    else (cur_dist1.index, cur_dist2.index, cur_ed) :: collect_inner max_ed cur_dist1 rest

/-- The outer `for (ind1 ...)` loop; `dist2_0` is `dists2[0]`. -/
def collect_outer (max_ed : Int) (dist2_0 : IndexedValue) (dists2 : i_counter_t) :
    i_counter_t → List tuple_t
  | [] => []
  | cur_dist1 :: rest =>
    if cur_dist1.value + dist2_0.value > max_ed then []
    else collect_inner max_ed cur_dist1 dists2 ++ collect_outer max_ed dist2_0 dists2 rest

/-- The tuples `real_cell_inds` before sorting. -/
def collect_real_cell_inds (max_ed : Int) (dists1 dists2 : i_counter_t) :
    Except Failure (List tuple_t) :=
  match dists1, dists2 with
  | [], _ => .ok []
  | _ :: _, [] => .error .out_of_bounds
  | _ :: _, dist2_0 :: _ => .ok (collect_outer max_ed dist2_0 dists2 dists1)

/-- The scan `for (auto const & inds: real_cell_inds)` with its state `prev_dist`,
`neighbour_cbs` and the statistics events emitted so far. -/
def scan_real_cell_inds (cell_ids_by_cb : List (Str × Nat)) (cbs1 cbs2 : names_t)
    (base_cb : Str) : List tuple_t → Int → ids_t → List Event →
    Except Failure (ids_t × List Event)
  | [], _, neighbour_cbs, events => .ok (neighbour_cbs, events)
  | inds :: rest, prev_dist, neighbour_cbs, events =>
    let cur_ed := inds.2.2
    if cur_ed > prev_dist ∧ ¬ neighbour_cbs = [] then .ok (neighbour_cbs, events)
    else
      match vec_at cbs1 inds.1, vec_at cbs2 inds.2.1 with
      | .ok cb1, .ok cb2 =>
        let current_cb := cb1 ++ cb2
        match map_find cell_ids_by_cb current_cb with
        | some cell_id =>
          scan_real_cell_inds cell_ids_by_cb cbs1 cbs2 base_cb rest cur_ed
            (neighbour_cbs ++ [cell_id])
            (events ++ [Event.stats_add_str .MERGE_EDIT_DISTANCE_BY_CELL current_cb base_cb cur_ed])
        | none =>
          scan_real_cell_inds cell_ids_by_cb cbs1 cbs2 base_cb rest cur_ed neighbour_cbs
            (events ++ [Event.stats_add_str .MERGE_REJECTION_BY_CELL current_cb base_cb cur_ed])
      | .error e, _ => .error e
      | _, .error e => .error e

/-- The id of the observed cell whose barcode is `cbs1[inds.1] + cbs2[inds.2.1]`, if there
is one. -/
def tuple_cell (cell_ids_by_cb : List (Str × Nat)) (cbs1 cbs2 : names_t) (inds : tuple_t) :
    Option Nat :=
  match cbs1[inds.1]?, cbs2[inds.2.1]? with
  | some cb1, some cb2 => map_find cell_ids_by_cb (cb1 ++ cb2)
  | _, _ => none

/-- The entries `d1` of the first and `d2` of the second distance list are within the bound
and their catalog fragments, put together, are the barcode of the observed cell `id`. -/
def reconstructs (max_ed : Int) (cell_ids_by_cb : List (Str × Nat)) (cbs1 cbs2 : names_t)
    (d1 d2 : IndexedValue) (id : Nat) : Prop :=
  d1.value + d2.value ≤ max_ed ∧
    tuple_cell cell_ids_by_cb cbs1 cbs2 (d1.index, d2.index, d1.value + d2.value) = some id

/-- The function `get_real_neighbour_cbs`: the neighbour ids and the statistics events. -/
def get_real_neighbour_cbs (self : RealBarcodesMergeStrategy) (col : Collaborators C)
    (container : C) (cbs1 cbs2 : names_t) (base_cb : Str) (dists1 dists2 : i_counter_t) :
    Except Failure (ids_t × List Event) :=
  match collect_real_cell_inds self.MAX_REAL_MERGE_EDIT_DISTANCE dists1 dists2 with
  | .error e => .error e
  | .ok real_cell_inds =>
    scan_real_cell_inds (col.cell_ids_by_cb container) cbs1 cbs2 base_cb
      (col.std.sort (fun t => t.2.2) real_cell_inds) LONG_MAX [] []

/-! ## get_umigs_intersect_fraction -/

/-- The inner `while` loop over the molecule identifiers of a shared gene, for a fixed
position `umi1` of the first cursor: `k` continues with the first cursor advanced. -/
def umis_step (umi1 : Str × Nat) (k : umis_t → Nat → Nat) : umis_t → Nat → Nat
  | [], intersect_size => intersect_size
  | umi2 :: rest2, intersect_size =>
    match str_compare umi1.1 umi2.1 with
    | .lt => k (umi2 :: rest2) intersect_size
    | .gt => umis_step umi1 k rest2 intersect_size
    | .eq => k rest2 (intersect_size + 1)

/-- The inner `while (umi1_it != end && umi2_it != end)` loop: the two arguments are the
parts of the two maps from the cursors on, the result is the new `intersect_size`. -/
def umis_loop : umis_t → umis_t → Nat → Nat
  | [], _, intersect_size => intersect_size
  | umi1 :: rest1, umis2, intersect_size => umis_step umi1 (umis_loop rest1) umis2 intersect_size

/-- The three counters of `get_umigs_intersect_fraction`. -/
structure UmigCounts where
  intersect_size : Nat
  cell1_umigs : Nat
  cell2_umigs : Nat
deriving DecidableEq

/-- The outer `while` loop for a fixed position `gene1` of the first cursor: `k` continues
with the first cursor advanced. -/
def genes_step (gene1 : Str × umis_t) (k : genes_t → UmigCounts → UmigCounts) :
    genes_t → UmigCounts → UmigCounts
  | [], counts => counts
  | gene2 :: rest2, counts =>
    match str_compare gene1.1 gene2.1 with
    | .lt => k (gene2 :: rest2) { counts with cell1_umigs := counts.cell1_umigs + gene1.2.length }
    | .gt => genes_step gene1 k rest2
        { counts with cell2_umigs := counts.cell2_umigs + gene2.2.length }
    | .eq => k rest2
        { intersect_size := umis_loop gene1.2 gene2.2 counts.intersect_size
          cell1_umigs := counts.cell1_umigs + gene1.2.length
          cell2_umigs := counts.cell2_umigs + gene2.2.length }

/-- The outer `while (gene1_it != cell1.end() && gene2_it != cell2.end())` loop. -/
def genes_loop : genes_t → genes_t → UmigCounts → UmigCounts
  | [], _, counts => counts
  | gene1 :: rest1, cell2, counts => genes_step gene1 (genes_loop rest1) cell2 counts

/-- The counters at the `return` of `get_umigs_intersect_fraction`. -/
def umigs_counts (cell1 cell2 : genes_t) : UmigCounts :=
  genes_loop cell1 cell2 { intersect_size := 0, cell1_umigs := 0, cell2_umigs := 0 }

/-- The divisor `std::min(cell1_umigs, cell2_umigs)`. -/
def UmigCounts.divisor (c : UmigCounts) : Nat := min c.cell1_umigs c.cell2_umigs

/-- The function `get_umigs_intersect_fraction`. -/
def get_umigs_intersect_fraction (col : Collaborators C) (container : C)
    (cell1_ind cell2_ind : Nat) : Except Failure Double :=
  match vec_at (col.cell_genes container) cell1_ind,
        vec_at (col.cell_genes container) cell2_ind with
  | .ok cell1, .ok cell2 =>
    let counts := umigs_counts cell1 cell2
    .ok (Double.div_counts col.fp counts.intersect_size counts.divisor)
  | .error e, _ => .error e
  | _, .error e => .error e

/-! ## get_best_merge_target -/

/-- The loop `for (size_t neighbour_cell_ind: neighbour_cells)` with its state
`(max_umigs_intersection_frac, best_neighbour_cell_ind)`; `frac` is the fraction with the
base cell. -/
def best_neighbour_loop (frac : Nat → Except Failure Double) :
    ids_t → Double × Nat → Except Failure (Double × Nat)
  | [], state => .ok state
  | neighbour_cell_ind :: rest, (max_frac, best) =>
    match frac neighbour_cell_ind with
    | .error e => .error e
    | .ok current_frac =>
      if Double.lt max_frac current_frac then
        best_neighbour_loop frac rest (current_frac, neighbour_cell_ind)
      else best_neighbour_loop frac rest (max_frac, best)

/-- The state `(max_umigs_intersection_frac, best_neighbour_cell_ind)` after the loop of
`get_best_merge_target`. -/
def best_neighbour (col : Collaborators C) (container : C) (base_cell_ind : Nat)
    (neighbour_cells : ids_t) : Except Failure (Double × Nat) :=
  match neighbour_cells with
  | [] => .error .out_of_bounds
  | first :: _ =>
    best_neighbour_loop (get_umigs_intersect_fraction col container base_cell_ind)
      neighbour_cells (Double.num 0, first)

/-- The function `get_best_merge_target`. -/
def get_best_merge_target (self : RealBarcodesMergeStrategy) (col : Collaborators C)
    (container : C) (base_cell_ind : Nat) (neighbour_cells : ids_t) : Except Failure Int :=
  match best_neighbour col container base_cell_ind neighbour_cells with
  | .error e => .error e
  | .ok (max_umigs_intersection_frac, best_neighbour_cell_ind) =>
    if Double.lt max_umigs_intersection_frac self._min_merge_fraction then
      .ok (to_long base_cell_ind)
    else .ok (to_long best_neighbour_cell_ind)

/-! ## get_real_cb -/

/-- The two fragments `(cb_part1, cb_part2)` that `get_real_cb` cuts out of the barcode. -/
def split_barcode (self : RealBarcodesMergeStrategy) (base_cb : Str) :
    Except Failure (Str × Str) :=
  match substr base_cb 0 (to_size_t ((base_cb.length : Int) - (self._barcode2_length : Int))),
        substr_from base_cb
          (to_size_t ((base_cb.length : Int) - (self._barcode2_length : Int) + 1)) with
  | .ok cb_part1, .ok cb_part2 => .ok (cb_part1, cb_part2)
  | .error e, _ => .error e
  | _, .error e => .error e

/-- The test `dists1[0].value == 0 && dists2[0].value == 0`; the right operand is read only
when the left one holds. -/
def exact_match (dists1 dists2 : i_counter_t) : Except Failure Bool :=
  match vec_at dists1 0 with
  | .error e => .error e
  | .ok d1 =>
    if d1.value = 0 then
      match vec_at dists2 0 with
      | .error e => .error e
      | .ok d2 => .ok (decide (d2.value = 0))
    else .ok false

/-- The function `get_real_cb`: the returned `long` and the events (log line of the
neighbour search, statistics) it caused. -/
def get_real_cb (self : RealBarcodesMergeStrategy) (col : Collaborators C) (container : C)
    (base_cell_ind : Nat) (cbs1 cbs2 : names_t) : Except Failure (Int × List Event) :=
  match vec_at (col.cell_barcodes container) base_cell_ind with
  | .error e => .error e
  | .ok base_cb =>
    match split_barcode self base_cb with
    | .error e => .error e
    | .ok (cb_part1, cb_part2) =>
      let dists := fill_distances_to_cb col.std cb_part1 cb_part2 cbs1 cbs2 [] []
      match exact_match dists.1 dists.2 with
      | .error e => .error e
      | .ok true => .ok (to_long base_cell_ind, [])
      | .ok false =>
        match get_real_neighbour_cbs self col container cbs1 cbs2 base_cb dists.1 dists.2 with
        | .error e => .error e
        | .ok (neighbour_cells, events) =>
          if neighbour_cells = [] then
            .ok (-1, Event.log_debug_neighbours base_cb :: events)
          else
            match get_best_merge_target self col container base_cell_ind neighbour_cells with
            | .error e => .error e
            | .ok target => .ok (target, Event.log_debug_neighbours base_cb :: events)

/-! ## merge -/

/-- The local state of `merge` while it walks the cells. -/
structure MergeState (C : Type) where
  container : C
  is_cell_real : List Bool
  cb_reassigned_to_it : ISIHM
  cb_reassign_targets : ids_t
  tag_index : Nat
  merges_count : Nat
  events : List Event
deriving DecidableEq

/-- The log line written every 1000 cells, after `++tag_index`. -/
def trace_events (tag_index merges_count : Nat) : List Event :=
  if tag_index % 1000 = 0 then [Event.log_trace_tags tag_index merges_count] else []

/-- The body of the first loop of `merge` for the cell `genes_count`. -/
def merge_cell (self : RealBarcodesMergeStrategy) (col : Collaborators C) (cbs1 cbs2 : names_t)
    (st : MergeState C) (genes_count : IndexedValue) : Except Failure (MergeState C) :=
  let tag_index := st.tag_index + 1
  let events := st.events ++ trace_events tag_index st.merges_count
  match get_real_cb self col st.container genes_count.index cbs1 cbs2 with
  | .error e => .error e
  | .ok (real_cell_ind, cb_events) =>
    if to_size_t real_cell_ind = genes_count.index then
      if genes_count.index < st.is_cell_real.length then
        .ok { st with
              is_cell_real := st.is_cell_real.set genes_count.index true
              tag_index := tag_index
              events := events ++ cb_events }
      else .error .out_of_bounds
    else if real_cell_ind < 0 then
      .ok { st with
            container := col.exclude_cell st.container genes_count.index
            tag_index := tag_index
            events := events ++ cb_events ++ [Event.exclude_cell genes_count.index] }
    else
      let merged := col.merge_force st.container genes_count.index (to_size_t real_cell_ind)
        st.cb_reassign_targets st.cb_reassigned_to_it
      .ok { container := merged.1
            is_cell_real := st.is_cell_real
            cb_reassigned_to_it := merged.2.2
            cb_reassign_targets := merged.2.1
            tag_index := tag_index
            merges_count := st.merges_count + 1
            events := events ++ cb_events ++
              [Event.merge_force genes_count.index (to_size_t real_cell_ind)] }

/-- The first loop of `merge` over the cells still to be visited. The range of the loop is
the list of cells at loop entry. -/
def merge_cells (self : RealBarcodesMergeStrategy) (col : Collaborators C) (cbs1 cbs2 : names_t) :
    List IndexedValue → MergeState C → Except Failure (MergeState C)
  | [], st => .ok st
  | genes_count :: rest, st =>
    match merge_cell self col cbs1 cbs2 st genes_count with
    | .error e => .error e
    | .ok st1 => merge_cells self col cbs1 cbs2 rest st1

/-- The second loop of `merge`: the ids marked real are appended to `filtered_cells`. -/
def collect_filtered (is_cell_real : List Bool) :
    List IndexedValue → ids_t → List Event → Except Failure (ids_t × List Event)
  | [], filtered_cells, events => .ok (filtered_cells, events)
  | gene_count :: rest, filtered_cells, events =>
    match vec_at is_cell_real gene_count.index with
    | .error e => .error e
    | .ok false => collect_filtered is_cell_real rest filtered_cells events
    | .ok true =>
      collect_filtered is_cell_real rest (filtered_cells ++ [gene_count.index])
        (events ++ [Event.log_debug_add_filtered gene_count.value gene_count.index])

/-- What `merge` leaves behind: the container, `filtered_cells` and the events. -/
structure MergeResult (C : Type) where
  container : C
  filtered_cells : ids_t
  events : List Event
deriving DecidableEq

/-- The function `merge`. The argument `umig_cells_counts` is not used by the body. -/
def merge {U : Type} (self : RealBarcodesMergeStrategy) (col : Collaborators C) (container : C)
    (_umig_cells_counts : U) (filtered_cells : ids_t) :
    Except Failure (MergeResult C) :=
  match get_barcodes_list col self._barcodes_filename [] [] with
  | .error e => .error e
  | .ok (cbs1, cbs2, list_events) =>
    if cbs1.length = 0 then
      .ok { container := container, filtered_cells := filtered_cells, events := list_events }
    else
      let size := (col.cell_barcodes container).length
      let st0 : MergeState C :=
        { container := container
          is_cell_real := List.replicate size false
          cb_reassigned_to_it := []
          cb_reassign_targets := List.range size
          tag_index := 0
          merges_count := 0
          events := list_events }
      match merge_cells self col cbs1 cbs2 (col.cells_genes_counts_sorted container).reverse st0 with
      | .error e => .error e
      | .ok st =>
        let events := st.events ++ [Event.log_info_merges st.merges_count]
        let container1 := col.update_cells_genes_counts st.container self.min_genes_after_merge false
        let events := events ++ [Event.update_cells_genes_counts self.min_genes_after_merge false]
        match collect_filtered st.is_cell_real (col.cells_genes_counts_sorted container1).reverse
            filtered_cells events with
        | .error e => .error e
        | .ok (filtered, events) =>
          .ok { container := container1
                filtered_cells := filtered
                events := events ++
                  [Event.stats_merge st.cb_reassign_targets (col.cell_barcodes container1)] }

end RealBarcodesMergeStrategy

/-! ## A concrete instance, to run the definitions -/

/-- The order `key a ≤ key b` that a sort by `key` produces. -/
def key_le {α : Type} (key : α → Int) (a b : α) : Prop := key a ≤ key b

instance {α : Type} (key : α → Int) : DecidableRel (key_le key) :=
  fun a b => inferInstanceAs (Decidable (key a ≤ key b))

instance {α : Type} (key : α → Int) : IsTotal α (key_le key) :=
  ⟨fun a b => le_total (key a) (key b)⟩

instance {α : Type} (key : α → Int) : IsTrans α (key_le key) :=
  ⟨fun _ _ _ h1 h2 => le_trans h1 h2⟩

/-- Insertion sort, one admissible behaviour of `std::sort`. -/
def insertion_sort : StdSort where
  sort := fun key l => l.insertionSort (key_le key)
  perm := fun key l => List.perm_insertionSort (key_le key) l
  sorted := fun key l => List.sorted_insertionSort (key_le key) l

/-- The division without rounding error. -/
def exact_division : DoubleDivision where
  div := fun n d => (n : ℚ) / (d : ℚ)
  nonneg := fun n d => div_nonneg (Nat.cast_nonneg n) (Nat.cast_nonneg d)
  le_one := fun n d h => by
    rcases Nat.eq_zero_or_pos d with hd | hd
    · subst hd; simp
    · exact (div_le_one (by exact_mod_cast hd)).mpr (by exact_mod_cast h)

/-- A small container: barcodes and genes by cell id, the cells that were excluded and the
merges that were made. -/
structure SimpleContainer where
  barcodes : names_t
  genes : List genes_t
  counts_sorted : i_counter_t
  excluded : List Nat
  merged : List (Nat × Nat)
deriving DecidableEq

/-- The complement of a nucleotide. -/
def complement (c : Char) : Char :=
  if c = 'A' then 'T' else if c = 'T' then 'A' else if c = 'C' then 'G'
  else if c = 'G' then 'C' else c

/-- Collaborators over `SimpleContainer`, reading the catalog `lines` from any file name. -/
def simple_collaborators (lines : Option (List Str)) : Collaborators SimpleContainer where
  cell_barcodes := fun c => c.barcodes
  cell_ids_by_cb := fun c => c.barcodes.zip (List.range c.barcodes.length)
  cell_genes := fun c => c.genes
  cells_genes_counts_sorted := fun c => c.counts_sorted
  exclude_cell := fun c i => { c with excluded := c.excluded ++ [i] }
  update_cells_genes_counts := fun c _ _ =>
    let kept := c.counts_sorted.filter
      (fun v => decide (v.index ∉ c.excluded ∧ v.index ∉ c.merged.map Prod.fst))
    { c with counts_sorted := kept }
  merge_force := fun c src target targets reassigned =>
    ({ c with merged := c.merged ++ [(src, target)] },
      (targets.set src target).map (fun t => if t = src then target else t), reassigned)
  reverse_complement := fun s => (s.map complement).reverse
  file_lines := fun _ => lines
  std := insertion_sort
  fp := exact_division

open RealBarcodesMergeStrategy

/-! ## Concrete inputs -/

/-- A configuration: second fragment of length 3, bound 2, threshold 1/5. -/
def example_strategy : RealBarcodesMergeStrategy where
  _barcodes_filename := "barcodes.txt".toList
  _barcode2_length := 3
  min_genes_before_merge := 0
  min_genes_after_merge := 0
  max_merge_edit_distance := 2
  _min_merge_fraction := .num (1 / 5)
  MAX_REAL_MERGE_EDIT_DISTANCE := 2

/-- Three observed cells, listed by ascending gene count. -/
def example_container : SimpleContainer where
  barcodes := ["AAAAGG".toList, "ACTAGG".toList, "CCCCCC".toList]
  genes :=
    [[("g1".toList, [("u1".toList, 1), ("u2".toList, 1)])],
     [("g1".toList, [("u1".toList, 1)])],
     [("g2".toList, [("u1".toList, 1)])]]
  counts_sorted := [⟨2, 1⟩, ⟨1, 1⟩, ⟨0, 1⟩]
  excluded := []
  merged := []

/-- A catalog file of three lines, the second without a separator. -/
def example_lines : List Str := ["TTT CC".toList, "bad".toList, "TGT CC".toList]

/-- The two catalog lists that `example_lines` parses to. -/
def example_cbs1 : names_t := ["AAA".toList, "ACA".toList]

/-- The second catalog list of `example_lines`. -/
def example_cbs2 : names_t := ["GG".toList, "GG".toList]

/-- Four observed cells; the last is the catalog barcode `ACA` + `AGG`. -/
def example_container4 : SimpleContainer where
  barcodes := ["AAAAGG".toList, "ACTAGG".toList, "CCCCCC".toList, "ACAAGG".toList]
  genes :=
    [[("g1".toList, [("u1".toList, 1), ("u2".toList, 1)])],
     [("g1".toList, [("u1".toList, 1)])],
     [("g2".toList, [("u1".toList, 1)])],
     [("g1".toList, [("u1".toList, 1), ("u3".toList, 1)])]]
  counts_sorted := [⟨2, 1⟩, ⟨1, 1⟩, ⟨0, 1⟩, ⟨3, 1⟩]
  excluded := []
  merged := []

/-- A catalog whose second fragments have the configured length 3. -/
def example_cbs2_long : names_t := ["AGG".toList, "TGG".toList]

/-- The state of `merge` before the first cell of `example_container`. -/
def example_state : MergeState SimpleContainer where
  container := example_container
  is_cell_real := [false, false, false]
  cb_reassigned_to_it := []
  cb_reassign_targets := [0, 1, 2]
  tag_index := 0
  merges_count := 0
  events := []

/-- The number of molecule identifiers of a cell, summed over all of its genes. -/
def total_umigs (cell : genes_t) : Nat := (cell.map (fun gene => gene.2.length)).sum

/-- The comparison `a <= b` of two doubles: false whenever one side is `nan`. -/
def Double.le : Double → Double → Bool
  | .num a, .num b => decide (a ≤ b)
  | .num _, .inf => true
  | .inf, .inf => true
  | _, _ => false

/-- A cell with one molecule in gene `a` and one in gene `z`. -/
def example_cell_az : genes_t :=
  [("a".toList, [("u1".toList, 1)]), ("z".toList, [("u2".toList, 1)])]

/-- A cell with three molecules in gene `b`. -/
def example_cell_b : genes_t :=
  [("b".toList, [("u1".toList, 1), ("u2".toList, 1), ("u3".toList, 1)])]

/-- Three cells with one molecule each: cell 0 in gene `b`, cell 1 in gene `a`, cell 2 in
gene `b` under another identifier. -/
def example_container_disjoint : SimpleContainer where
  barcodes := ["AAAAGG".toList, "ACTAGG".toList, "CCCCCC".toList]
  genes :=
    [[("b".toList, [("u1".toList, 1)])],
     [("a".toList, [("u1".toList, 1)])],
     [("b".toList, [("u2".toList, 1)])]]
  counts_sorted := [⟨2, 1⟩, ⟨1, 1⟩, ⟨0, 1⟩]
  excluded := []
  merged := []
/-- The text of a catalog line before its first space. -/
def field_before_space (line : Str) : Str := line.takeWhile (fun c => decide (c ≠ ' '))

/-- The text of a catalog line after its first space. -/
def field_after_space (line : Str) : Str := (line.dropWhile (fun c => decide (c ≠ ' '))).drop 1

/-- The line contains a space. -/
def has_space (line : Str) : Bool := decide (' ' ∈ line)
/-- The full cross product of the two distance lists, in the order of the double loop, each
pair of entries with its two catalog indices and its summed distance. -/
def cross_product : i_counter_t → i_counter_t → List tuple_t
  | [], _ => []
  | d1 :: rest, dists2 =>
    dists2.map (fun d2 => (d1.index, d2.index, d1.value + d2.value)) ++ cross_product rest dists2
/-- One entry `(i, edit_distance(cb_part, cbs[i]))` for every catalog index `i`, in index
order. -/
def catalog_distances (cb_part : Str) (cbs : names_t) : i_counter_t :=
  (List.range cbs.length).map
    (fun i => IndexedValue.mk i (edit_distance cb_part (cbs.getD i []) : Nat))

/-- The keys of a map are strictly ascending in `compare`, as `std::map` keeps them. -/
def keys_ordered {β : Type} (m : List (Str × β)) : Prop :=
  m.Pairwise (fun a b => str_compare a.1 b.1 = .lt)

/-- The gene map of a cell and each of its molecule-identifier maps are ordered by key. -/
def cell_ordered (cell : genes_t) : Prop :=
  keys_ordered cell ∧ ∀ gene ∈ cell, keys_ordered gene.2

/-- The (gene, molecule identifier) pairs of a cell. -/
def umi_pairs : genes_t → List (Str × Str)
  | [] => []
  | gene :: rest => gene.2.map (fun umi => (gene.1, umi.1)) ++ umi_pairs rest

/-- The number of (gene, molecule identifier) pairs of `cell1` that are also in `cell2`. -/
def shared_pairs (cell1 cell2 : genes_t) : Nat :=
  (umi_pairs cell1).countP (fun p => decide (p ∈ umi_pairs cell2))
/-! ## dropestr: ValueCounts -/

/-- The ids that the inverse mapping holds under `target`. -/
def isihm_get : ISIHM → Nat → List Nat
  | [], _ => []
  | (key, ids) :: rest, target => if key = target then ids else isihm_get rest target

/-- The inverse mapping with the entry of `target` replaced by `ids`. -/
def isihm_set (m : ISIHM) (target : Nat) (ids : List Nat) : ISIHM :=
  (target, ids) :: m.filter (fun entry => !decide (entry.1 = target))

/-- Modelled from the spec: the tracker operation `redirect(source, target)` that
`merge_force` performs on `cb_reassign_targets` and `cb_reassigned_to_it`; the code of
`AbstractMergeStrategy::merge_force` is not in the translated file. After the call the
tracked target of `source` is `target`, every id tracked to `source` is retargeted to
`target`, and the inverse-mapping entries of `source` are moved under `target`. -/
def redirect (cb_reassign_targets : ids_t) (cb_reassigned_to_it : ISIHM)
    (source target : Nat) : ids_t × ISIHM :=
  let dependents := isihm_get cb_reassigned_to_it source
  let targets := (source :: dependents).foldl (fun ts id => ts.set id target)
    cb_reassign_targets
  let moved := isihm_get cb_reassigned_to_it target ++ source :: dependents
  (targets, isihm_set (isihm_set cb_reassigned_to_it source []) target moved)

/-- The tracker after the redirects `rs`, from the state in which `merge` creates it: the
identity mapping over `size` cell ids and an empty inverse mapping. -/
def run_redirects (size : Nat) (rs : List (Nat × Nat)) : ids_t × ISIHM :=
  rs.foldl (fun st r => redirect st.1 st.2 r.1 r.2) (List.range size, [])

/-- The three outcomes of a cell in the first loop of `merge`. -/
inductive Classification
  | Real
  | Excluded
  | Merged (target : Nat)
deriving DecidableEq

/-- The branch that the body of the first loop of `merge` takes for the cell
`genes_count` on the container `container`. -/
def classify {C : Type} (self : RealBarcodesMergeStrategy) (col : Collaborators C)
    (cbs1 cbs2 : names_t) (container : C) (genes_count : IndexedValue) :
    Except Failure Classification :=
  match get_real_cb self col container genes_count.index cbs1 cbs2 with
  | .error e => .error e
  | .ok (real_cell_ind, _) =>
    if to_size_t real_cell_ind = genes_count.index then .ok .Real
    else if real_cell_ind < 0 then .ok .Excluded
    else .ok (.Merged (to_size_t real_cell_ind))

/-- The ids visited by the first loop of `merge` with their outcomes, in visiting order. -/
def pass_classes {C : Type} (self : RealBarcodesMergeStrategy) (col : Collaborators C)
    (cbs1 cbs2 : names_t) : List IndexedValue → MergeState C → List (Nat × Classification)
  | [], _ => []
  | genes_count :: rest, st =>
    match classify self col cbs1 cbs2 st.container genes_count,
          merge_cell self col cbs1 cbs2 st genes_count with
    | .ok c, .ok st1 => (genes_count.index, c) :: pass_classes self col cbs1 cbs2 rest st1
    | _, _ => []

/-- The local state of `merge` when it enters the first loop. -/
def initial_state {C : Type} (col : Collaborators C) (container : C)
    (list_events : List Event) : MergeState C where
  container := container
  is_cell_real := List.replicate (col.cell_barcodes container).length false
  cb_reassigned_to_it := []
  cb_reassign_targets := List.range (col.cell_barcodes container).length
  tag_index := 0
  merges_count := 0
  events := list_events
/-- The state of `merge` after the first loop over `example_container` with the catalog of
`example_lines`. -/
def example_final_state : MergeState SimpleContainer :=
  match merge_cells example_strategy (simple_collaborators (some example_lines))
      example_cbs1 example_cbs2 example_container.counts_sorted.reverse
      (initial_state (simple_collaborators (some example_lines)) example_container
        [Event.log_warn_bad_format "bad".toList]) with
  | .ok st => st
  | .error _ =>
    initial_state (simple_collaborators (some example_lines)) example_container []
/-- The configuration `example_strategy` with the threshold 0. -/
def example_strategy_zero : RealBarcodesMergeStrategy where
  _barcodes_filename := "barcodes.txt".toList
  _barcode2_length := 3
  min_genes_before_merge := 0
  min_genes_after_merge := 0
  max_merge_edit_distance := 2
  _min_merge_fraction := .num 0
  MAX_REAL_MERGE_EDIT_DISTANCE := 2

/-- The barcodes of `example_container4`; cell 1 has one molecule in gene `b` and cell 3,
the catalog barcode `ACA` + `AGG`, has one molecule in gene `a`. -/
def example_container_nan : SimpleContainer where
  barcodes := ["AAAAGG".toList, "ACTAGG".toList, "CCCCCC".toList, "ACAAGG".toList]
  genes :=
    [[("g1".toList, [("u1".toList, 1), ("u2".toList, 1)])],
     [("b".toList, [("u1".toList, 1)])],
     [("g2".toList, [("u1".toList, 1)])],
     [("a".toList, [("u1".toList, 1)])]]
  counts_sorted := [⟨2, 1⟩, ⟨1, 1⟩, ⟨0, 1⟩, ⟨3, 1⟩]
  excluded := []
  merged := []

/-- The state after the body of the first loop of `merge` has run for cell 1 of
`example_container4` with the catalog `example_cbs1`, `example_cbs2_long`. -/
def example_redirect_state : MergeState SimpleContainer :=
  match merge_cell example_strategy (simple_collaborators none) example_cbs1 example_cbs2_long
      (initial_state (simple_collaborators none) example_container4 []) ⟨1, 1⟩ with
  | .ok st => st
  | .error _ => initial_state (simple_collaborators none) example_container4 []

/-- The intersection fraction of two cells in the words of the spec: the number of shared
(gene, molecule identifier) pairs divided by the smaller of the two cells' total molecule
counts, every gene of a cell counting towards its total. -/
def intersect_fraction_spec (cell1 cell2 : genes_t) : ℚ :=
  (shared_pairs cell1 cell2 : ℚ) / ((min (total_umigs cell1) (total_umigs cell2) : Nat) : ℚ)

/-- A cell with one molecule in gene `a` and eight in gene `z`. -/
def example_cell_base : genes_t :=
  [("a".toList, [("u1".toList, 1)]),
   ("z".toList, [("u2".toList, 1), ("u3".toList, 1), ("u4".toList, 1), ("u5".toList, 1),
     ("u6".toList, 1), ("u7".toList, 1), ("u8".toList, 1), ("u9".toList, 1)])]

/-- A cell with one molecule in gene `a` and eight in gene `b`; it shares one molecule with
`example_cell_base`. -/
def example_cell_one_shared : genes_t :=
  [("a".toList, [("u1".toList, 1)]),
   ("b".toList, [("v1".toList, 1), ("v2".toList, 1), ("v3".toList, 1), ("v4".toList, 1),
     ("v5".toList, 1), ("v6".toList, 1), ("v7".toList, 1), ("v8".toList, 1)])]

/-- A cell with one molecule in gene `a` and two in gene `z`; all three are molecules of
`example_cell_base`. -/
def example_cell_all_shared : genes_t :=
  [("a".toList, [("u1".toList, 1)]),
   ("z".toList, [("u2".toList, 1), ("u3".toList, 1)])]

/-- The barcodes of `example_container4`; cell 1 is `example_cell_base`, cell 3 (the catalog
barcode `ACA` + `AGG`) is `example_cell_one_shared`, cell 0 is `example_cell_all_shared`. -/
def example_container_trailing : SimpleContainer where
  barcodes := ["AAAAGG".toList, "ACTAGG".toList, "CCCCCC".toList, "ACAAGG".toList]
  genes :=
    [example_cell_all_shared, example_cell_base,
     [("g2".toList, [("u1".toList, 1)])], example_cell_one_shared]
  counts_sorted := [⟨2, 1⟩, ⟨0, 2⟩, ⟨1, 2⟩, ⟨3, 2⟩]
  excluded := []
  merged := []

/-! ## The algorithm `std::sort` of libstdc++

The introsort of GCC's `bits/stl_algo.h` and the heap functions of `bits/stl_heap.h`, on a
vector whose elements are pairs of a position and a key. -/

namespace libstdcxx

/-- The element `*(first + i)` of the vector under sort; the elements are pairs of the
position in the input and the key. -/
def cell_at (v : List (Nat × Int)) (i : Nat) : Nat × Int := v.getD i (0, 0)

/-- The comparator call `comp(a, b)`: `key a < key b`. -/
def comp (x y : Nat × Int) : Bool := decide (x.2 < y.2)

/-- The call `std::iter_swap(a, b)`. -/
def iter_swap (v : List (Nat × Int)) (i j : Nat) : List (Nat × Int) :=
  (v.set i (cell_at v j)).set j (cell_at v i)

/-- The position of the highest set bit of `n`, by repeated halving. -/
def lg_loop : Nat → Nat → Nat
  | 0, _ => 0
  | fuel + 1, n => if n ≤ 1 then 0 else lg_loop fuel (n / 2) + 1

/-- The function `std::__lg` on the length of the vector. -/
def lg (n : Nat) : Nat := lg_loop n n

/-- The function `std::__move_median_to_first(result, a, b, c, comp)`. -/
def move_median_to_first (v : List (Nat × Int)) (result a b c : Nat) : List (Nat × Int) :=
  if comp (cell_at v a) (cell_at v b) then
    if comp (cell_at v b) (cell_at v c) then iter_swap v result b
    else if comp (cell_at v a) (cell_at v c) then iter_swap v result c
    else iter_swap v result a
  else if comp (cell_at v a) (cell_at v c) then iter_swap v result a
  else if comp (cell_at v b) (cell_at v c) then iter_swap v result c
  else iter_swap v result b

/-- The loop `while (comp(first, pivot)) ++first;`. -/
def skip_less (v : List (Nat × Int)) (pivot : Nat) : Nat → Nat → Nat
  | 0, first => first
  | fuel + 1, first =>
    if comp (cell_at v first) (cell_at v pivot) then skip_less v pivot fuel (first + 1)
    else first

/-- The loop `while (comp(pivot, last)) --last;`. -/
def skip_greater (v : List (Nat × Int)) (pivot : Nat) : Nat → Nat
  | 0 => 0
  | last + 1 =>
    if comp (cell_at v pivot) (cell_at v (last + 1)) then skip_greater v pivot last
    else last + 1

/-- The function `std::__unguarded_partition(first, last, pivot, comp)`. -/
def unguarded_partition (pivot : Nat) :
    Nat → List (Nat × Int) → Nat → Nat → List (Nat × Int) × Nat
  | 0, v, first, _ => (v, first)
  | fuel + 1, v, first, last =>
    let first := skip_less v pivot v.length first
    let last := skip_greater v pivot (last - 1)
    if first < last then unguarded_partition pivot fuel (iter_swap v first last) (first + 1) last
    else (v, first)

/-- The function `std::__unguarded_partition_pivot(first, last, comp)`. -/
def unguarded_partition_pivot (v : List (Nat × Int)) (first last : Nat) :
    List (Nat × Int) × Nat :=
  let mid := first + (last - first) / 2
  let v := move_median_to_first v first (first + 1) mid (last - 1)
  unguarded_partition first v.length v (first + 1) last

/-- The function `std::__push_heap(first, holeIndex, topIndex, value, comp)`. -/
def push_heap (first topIndex : Nat) (value : Nat × Int) :
    Nat → List (Nat × Int) → Nat → List (Nat × Int)
  | 0, v, holeIndex => v.set (first + holeIndex) value
  | fuel + 1, v, holeIndex =>
    let parent := (holeIndex - 1) / 2
    if holeIndex > topIndex ∧ comp (cell_at v (first + parent)) value = true then
      push_heap first topIndex value fuel
        (v.set (first + holeIndex) (cell_at v (first + parent))) parent
    else v.set (first + holeIndex) value

/-- The `while` loop of `std::__adjust_heap`; the state is the vector, `holeIndex` and
`secondChild`. -/
def adjust_heap_loop (first len : Nat) :
    Nat → List (Nat × Int) → Nat → Nat → List (Nat × Int) × Nat × Nat
  | 0, v, holeIndex, secondChild => (v, holeIndex, secondChild)
  | fuel + 1, v, holeIndex, secondChild =>
    if secondChild < (len - 1) / 2 then
      let secondChild := 2 * (secondChild + 1)
      let secondChild :=
        if comp (cell_at v (first + secondChild)) (cell_at v (first + (secondChild - 1)))
        then secondChild - 1 else secondChild
      adjust_heap_loop first len fuel (v.set (first + holeIndex) (cell_at v (first + secondChild)))
        secondChild secondChild
    else (v, holeIndex, secondChild)

/-- The function `std::__adjust_heap(first, holeIndex, len, value, comp)`. -/
def adjust_heap (v : List (Nat × Int)) (first holeIndex len : Nat) (value : Nat × Int) :
    List (Nat × Int) :=
  let looped := adjust_heap_loop first len len v holeIndex holeIndex
  let v := looped.1
  let hole := looped.2.1
  let secondChild := looped.2.2
  if len % 2 = 0 ∧ secondChild = (len - 2) / 2 then
    let secondChild := 2 * (secondChild + 1)
    push_heap first holeIndex value len
      (v.set (first + hole) (cell_at v (first + (secondChild - 1)))) (secondChild - 1)
  else push_heap first holeIndex value len v hole

/-- The loop of `std::__make_heap` from `parent` down to 0. -/
def make_heap_loop (first len : Nat) : Nat → List (Nat × Int) → List (Nat × Int)
  | 0, v => adjust_heap v first 0 len (cell_at v first)
  | parent + 1, v =>
    make_heap_loop first len parent
      (adjust_heap v first (parent + 1) len (cell_at v (first + (parent + 1))))

/-- The function `std::__make_heap(first, last, comp)`. -/
def make_heap (v : List (Nat × Int)) (first last : Nat) : List (Nat × Int) :=
  if last - first < 2 then v
  else make_heap_loop first (last - first) ((last - first - 2) / 2) v

/-- The function `std::__pop_heap(first, last, result, comp)`. -/
def pop_heap (v : List (Nat × Int)) (first last result : Nat) : List (Nat × Int) :=
  adjust_heap (v.set result (cell_at v first)) first 0 (last - first) (cell_at v result)

/-- The function `std::__sort_heap(first, last, comp)`. -/
def sort_heap (first : Nat) : Nat → List (Nat × Int) → Nat → List (Nat × Int)
  | 0, v, _ => v
  | fuel + 1, v, last =>
    if last - first > 1 then sort_heap first fuel (pop_heap v first (last - 1) (last - 1)) (last - 1)
    else v

/-- The call `std::__partial_sort(first, last, last, comp)` of `__introsort_loop`: a heap
is made of the whole range and sorted. -/
def heap_sort_range (v : List (Nat × Int)) (first last : Nat) : List (Nat × Int) :=
  sort_heap first (last - first) (make_heap v first last) last

/-- The function `std::__introsort_loop(first, last, depth_limit, comp)`; the threshold
`_S_threshold` is 16. -/
def introsort_loop : Nat → List (Nat × Int) → Nat → Nat → List (Nat × Int)
  | 0, v, first, last => if last - first > 16 then heap_sort_range v first last else v
  | depth_limit + 1, v, first, last =>
    if last - first > 16 then
      let cut := unguarded_partition_pivot v first last
      introsort_loop depth_limit (introsort_loop depth_limit cut.1 cut.2 last) first cut.2
    else v

/-- The function `std::__unguarded_linear_insert(last, comp)` for the value `val = *last`. -/
def unguarded_linear_insert (val : Nat × Int) : Nat → List (Nat × Int) → List (Nat × Int)
  | 0, v => v.set 0 val
  | next + 1, v =>
    if comp val (cell_at v next) then
      unguarded_linear_insert val next (v.set (next + 1) (cell_at v next))
    else v.set (next + 1) val

/-- The loop of `std::__insertion_sort(first, last, comp)` with `first` the begin of the
vector, from the iterator `i`. -/
def insertion_sort_loop (last : Nat) : Nat → List (Nat × Int) → Nat → List (Nat × Int)
  | 0, v, _ => v
  | fuel + 1, v, i =>
    if i < last then
      if comp (cell_at v i) (cell_at v 0) then
        insertion_sort_loop last fuel ((cell_at v i :: v.take i) ++ v.drop (i + 1)) (i + 1)
      else insertion_sort_loop last fuel (unguarded_linear_insert (cell_at v i) i v) (i + 1)
    else v

/-- The loop of `std::__unguarded_insertion_sort(first, last, comp)` from the iterator `i`. -/
def unguarded_insertion_sort_loop (last : Nat) :
    Nat → List (Nat × Int) → Nat → List (Nat × Int)
  | 0, v, _ => v
  | fuel + 1, v, i =>
    if i < last then
      unguarded_insertion_sort_loop last fuel (unguarded_linear_insert (cell_at v i) i v) (i + 1)
    else v

/-- The function `std::__final_insertion_sort(first, last, comp)` on the whole vector. -/
def final_insertion_sort (v : List (Nat × Int)) : List (Nat × Int) :=
  if v.length > 16 then
    unguarded_insertion_sort_loop v.length v.length (insertion_sort_loop 16 16 v 1) 16
  else insertion_sort_loop v.length v.length v 1

/-- The function `std::__sort(first, last, comp)` of libstdc++ on the whole vector. -/
def std_sort_run (v : List (Nat × Int)) : List (Nat × Int) :=
  if v.length = 0 then v
  else final_insertion_sort (introsort_loop (lg v.length * 2) v 0 v.length)

end libstdcxx

/-- The elements of `l` in the order of the positions `order` when that is an ascending
rearrangement of `l`, as the standard requires of the result of `std::sort`; insertion
sort otherwise. -/
def arrange {α : Type} (key : α → Int) (l : List α) (order : List Nat) : List α :=
  if order.insertionSort (fun a b => a ≤ b) = List.range l.length
      ∧ (order.filterMap (fun i => l[i]?)).Pairwise (key_le key) then
    order.filterMap (fun i => l[i]?)
  else l.insertionSort (key_le key)

/-- The behaviour of `std::sort` in libstdc++: the elements in the order in which
`libstdcxx.std_sort_run` leaves their positions. -/
def libstdcxx_sort : StdSort where
  sort := fun key l => arrange key l (((libstdcxx.std_sort_run (l.map key).enum)).map Prod.fst)
  perm := fun {α} key l => by
    have hrange : ∀ (t : List α), (List.range t.length).filterMap (fun i => t[i]?) = t := by
      intro t
      induction t with
      | nil => rfl
      | cons a t ih =>
        rw [List.length_cons, List.range_succ_eq_map, List.filterMap_cons]
        simp only [List.getElem?_cons_zero, List.filterMap_map]
        congr 1
        have e : ((fun i => (a :: t)[i]?) ∘ Nat.succ) = (fun i => t[i]?) := by
          funext i
          simp
        rw [e]
        exact ih
    show (arrange key l _).Perm l
    unfold arrange
    split
    · rename_i h
      have hp : (((libstdcxx.std_sort_run (l.map key).enum)).map Prod.fst).Perm
          (List.range l.length) := by
        rw [← h.1]
        exact (List.perm_insertionSort _ _).symm
      have := hp.filterMap (fun i => l[i]?)
      rw [hrange l] at this
      exact this
    · exact List.perm_insertionSort (key_le key) l
  sorted := fun key l => by
    show (arrange key l _).Pairwise (key_le key)
    unfold arrange
    split
    · rename_i h
      exact h.2
    · exact List.sorted_insertionSort (key_le key) l

/-- Seventeen catalog fragments, each one letter away from `AAAAAA`. -/
def example_catalog17 : names_t :=
  ["CAAAAA".toList, "GAAAAA".toList, "TAAAAA".toList, "ACAAAA".toList, "AGAAAA".toList,
   "ATAAAA".toList, "AACAAA".toList, "AAGAAA".toList, "AATAAA".toList, "AAACAA".toList,
   "AAAGAA".toList, "AAATAA".toList, "AAAACA".toList, "AAAAGA".toList, "AAAATA".toList,
   "AAAAAC".toList, "AAAAAG".toList]

/-- The container `example_container_trailing` with the barcode `ACA` + `TGG` for cell 0,
so that the neighbour search for cell 1 returns cell 3 and then cell 0. -/
def example_container_tie : SimpleContainer where
  barcodes := ["ACATGG".toList, "ACTAGG".toList, "CCCCCC".toList, "ACAAGG".toList]
  genes :=
    [example_cell_all_shared, example_cell_base,
     [("g2".toList, [("u1".toList, 1)])], example_cell_one_shared]
  counts_sorted := [⟨2, 1⟩, ⟨0, 2⟩, ⟨1, 2⟩, ⟨3, 2⟩]
  excluded := []
  merged := []

/-! ## Lemmas -/

theorem levenshtein_self_eq_zero (xs : Str) : levenshtein Levenshtein.defaultCost xs xs = 0 := by
  induction xs with
  | nil => simp
  | cons x xs ih =>
    rw [levenshtein_cons_cons, ih]
    simp [Levenshtein.defaultCost]

theorem edit_distance_self (xs : Str) : edit_distance xs xs = 0 :=
  levenshtein_self_eq_zero xs

theorem StdSort.head_min (std : StdSort) {α : Type} (key : α → Int) (l : List α) (a : α)
    (ha : a ∈ l) (hmin : ∀ b ∈ l, key a ≤ key b) :
    ∃ d rest, std.sort key l = d :: rest ∧ key d = key a := by
  have hperm := std.perm key l
  have hsorted := std.sorted key l
  have ha2 : a ∈ std.sort key l := hperm.symm.subset ha
  cases hs : std.sort key l with
  | nil => rw [hs] at ha2; simp at ha2
  | cons d rest =>
    refine ⟨d, rest, rfl, ?_⟩
    rw [hs] at ha2 hsorted hperm
    have hd : d ∈ l := hperm.subset (List.mem_cons_self d rest)
    have h1 := hmin d hd
    rcases List.mem_cons.mp ha2 with h | h
    · rw [h]
    · have h2 := (List.pairwise_cons.mp hsorted).1 a h
      omega

namespace RealBarcodesMergeStrategy

variable {C : Type}

theorem fill_distances_loop_eq (cb_part : Str) (cbs : names_t) (i : Nat) (dists : i_counter_t) :
    fill_distances_loop cb_part cbs i dists =
      dists ++ (List.enumFrom i cbs).map
        (fun p => IndexedValue.mk p.1 (edit_distance cb_part p.2 : Nat)) := by
  induction cbs generalizing i dists with
  | nil => simp [fill_distances_loop]
  | cons cb rest ih => simp [fill_distances_loop, ih, List.enumFrom]

theorem fill_distances_loop_nonneg (cb_part : Str) (cbs : names_t) (d : IndexedValue)
    (hd : d ∈ fill_distances_loop cb_part cbs 0 []) : 0 ≤ d.value := by
  rw [fill_distances_loop_eq] at hd
  simp at hd
  obtain ⟨a, b, _, rfl⟩ := hd
  simp

theorem fill_distances_loop_zero (cb_part : Str) (cbs : names_t) (h : cb_part ∈ cbs) :
    ∃ d ∈ fill_distances_loop cb_part cbs 0 [], d.value = 0 := by
  rw [fill_distances_loop_eq]
  obtain ⟨n, hn, hget⟩ := List.getElem_of_mem h
  refine ⟨IndexedValue.mk n (edit_distance cb_part cb_part : Nat), ?_, by simp [edit_distance_self]⟩
  simp only [List.nil_append, List.mem_map]
  refine ⟨(n, cb_part), ?_, rfl⟩
  rw [List.mem_iff_getElem]
  refine ⟨n, by simpa using hn, ?_⟩
  simp [hget]

theorem sorted_distances_head_zero (std : StdSort) (cb_part : Str) (cbs : names_t)
    (h : cb_part ∈ cbs) :
    ∃ d rest, std.sort IndexedValue.key (fill_distances_loop cb_part cbs 0 []) = d :: rest
      ∧ d.value = 0 := by
  obtain ⟨a, ha, ha0⟩ := fill_distances_loop_zero cb_part cbs h
  obtain ⟨d, rest, hs, hk⟩ := std.head_min IndexedValue.key _ a ha (by
    intro b hb
    have := fill_distances_loop_nonneg cb_part cbs b hb
    simp only [IndexedValue.key]; omega)
  exact ⟨d, rest, hs, by simpa [IndexedValue.key, ha0] using hk⟩

theorem exact_match_of_mem (std : StdSort) (cb_part1 cb_part2 : Str) (cbs1 cbs2 : names_t)
    (h1 : cb_part1 ∈ cbs1) (h2 : cb_part2 ∈ cbs2) :
    exact_match (fill_distances_to_cb std cb_part1 cb_part2 cbs1 cbs2 [] []).1
      (fill_distances_to_cb std cb_part1 cb_part2 cbs1 cbs2 [] []).2 = .ok true := by
  obtain ⟨d1, r1, hs1, hv1⟩ := sorted_distances_head_zero std cb_part1 cbs1 h1
  obtain ⟨d2, r2, hs2, hv2⟩ := sorted_distances_head_zero std cb_part2 cbs2 h2
  simp [exact_match, fill_distances_to_cb, hs1, hs2, vec_at, hv1, hv2]

theorem to_size_t_to_long (n : Nat) (h : n < 2 ^ 63) : to_size_t (to_long n) = n := by
  unfold to_size_t to_long
  have h1 : n % 2 ^ 64 = n := Nat.mod_eq_of_lt (by omega)
  rw [h1, if_pos h]
  omega

theorem to_long_of_lt (n : Nat) (h : n < 2 ^ 63) : to_long n = (n : Int) := by
  unfold to_long
  have h1 : n % 2 ^ 64 = n := Nat.mod_eq_of_lt (by omega)
  rw [h1, if_pos h]

/-- C1: a cell whose first fragment is an entry of the first catalog list and whose second
fragment is an entry of the second one (the fragments are those that `get_real_cb` cuts out
of the barcode; the cell id fits a `long` and indexes `is_cell_real`). Then `get_real_cb`
returns the cell's own id and causes no event, so the neighbour search, which logs and
reports statistics, is not run; the loop body of `merge` sets the cell's mark in
`is_cell_real` and leaves the container, the reassignment targets and the merge counter as
they are: the cell is neither excluded nor redirected. -/
theorem exact_match_is_real (self : RealBarcodesMergeStrategy) (col : Collaborators C)
    (st : MergeState C) (genes_count : IndexedValue) (cbs1 cbs2 : names_t)
    (base_cb cb_part1 cb_part2 : Str)
    (hcb : vec_at (col.cell_barcodes st.container) genes_count.index = .ok base_cb)
    (hsplit : split_barcode self base_cb = .ok (cb_part1, cb_part2))
    (h1 : cb_part1 ∈ cbs1) (h2 : cb_part2 ∈ cbs2)
    (hlong : genes_count.index < 2 ^ 63)
    (hreal : genes_count.index < st.is_cell_real.length) :
    get_real_cb self col st.container genes_count.index cbs1 cbs2
        = .ok ((genes_count.index : Int), [])
      ∧ merge_cell self col cbs1 cbs2 st genes_count
        = .ok { st with
                is_cell_real := st.is_cell_real.set genes_count.index true
                tag_index := st.tag_index + 1
                events := st.events ++ trace_events (st.tag_index + 1) st.merges_count } := by
  have hget : get_real_cb self col st.container genes_count.index cbs1 cbs2
      = .ok ((genes_count.index : Int), []) := by
    simp only [get_real_cb, hcb, hsplit,
      exact_match_of_mem col.std cb_part1 cb_part2 cbs1 cbs2 h1 h2, to_long_of_lt _ hlong]
  refine ⟨hget, ?_⟩
  have hconv : to_size_t (genes_count.index : Int) = genes_count.index := by
    rw [← to_long_of_lt _ hlong]; exact to_size_t_to_long _ hlong
  simp [merge_cell, hget, hconv, hreal]

theorem exact_match_is_real_witness :
    get_real_cb example_strategy (simple_collaborators none) example_state.container 0
        example_cbs1 example_cbs2 = .ok (((0 : Nat) : Int), [])
      ∧ merge_cell example_strategy (simple_collaborators none) example_cbs1 example_cbs2
          example_state ⟨0, 1⟩
        = .ok { example_state with
                is_cell_real := example_state.is_cell_real.set 0 true
                tag_index := example_state.tag_index + 1
                events := example_state.events ++
                  trace_events (example_state.tag_index + 1) example_state.merges_count } :=
  exact_match_is_real example_strategy (simple_collaborators none) example_state ⟨0, 1⟩
    example_cbs1 example_cbs2 "AAAAGG".toList "AAA".toList "GG".toList
    (by decide) (by decide) (by decide) (by decide) (by decide) (by decide)

theorem to_size_t_neg_one : to_size_t (-1) = 2 ^ 64 - 1 := by decide

/-- C2: a cell that is not an exact match and for which `get_real_neighbour_cbs` returns no
candidate: `get_real_cb` returns -1, and `merge` calls `exclude_cell` on it, leaves the
real-cell marks as they are and makes no redirect (targets and merge counter unchanged). -/
theorem no_neighbour_is_excluded (self : RealBarcodesMergeStrategy) (col : Collaborators C)
    (st : MergeState C) (genes_count : IndexedValue) (cbs1 cbs2 : names_t)
    (base_cb cb_part1 cb_part2 : Str) (events : List Event)
    (hcb : vec_at (col.cell_barcodes st.container) genes_count.index = .ok base_cb)
    (hsplit : split_barcode self base_cb = .ok (cb_part1, cb_part2))
    (hexact : exact_match (fill_distances_to_cb col.std cb_part1 cb_part2 cbs1 cbs2 [] []).1
      (fill_distances_to_cb col.std cb_part1 cb_part2 cbs1 cbs2 [] []).2 = .ok false)
    (hnone : get_real_neighbour_cbs self col st.container cbs1 cbs2 base_cb
      (fill_distances_to_cb col.std cb_part1 cb_part2 cbs1 cbs2 [] []).1
      (fill_distances_to_cb col.std cb_part1 cb_part2 cbs1 cbs2 [] []).2 = .ok ([], events))
    (hlong : genes_count.index < 2 ^ 63) :
    get_real_cb self col st.container genes_count.index cbs1 cbs2
        = .ok (-1, Event.log_debug_neighbours base_cb :: events)
      ∧ merge_cell self col cbs1 cbs2 st genes_count
        = .ok { st with
                container := col.exclude_cell st.container genes_count.index
                tag_index := st.tag_index + 1
                events := st.events ++ trace_events (st.tag_index + 1) st.merges_count ++
                  (Event.log_debug_neighbours base_cb :: events) ++
                  [Event.exclude_cell genes_count.index] } := by
  have hget : get_real_cb self col st.container genes_count.index cbs1 cbs2
      = .ok (-1, Event.log_debug_neighbours base_cb :: events) := by
    simp only [get_real_cb, hcb, hsplit, hexact, hnone, if_true]
  refine ⟨hget, ?_⟩
  have hne : ¬ (to_size_t (-1) = genes_count.index) := by
    rw [to_size_t_neg_one]; omega
  simp only [merge_cell, hget, if_neg hne]
  simp

theorem no_neighbour_is_excluded_witness :
    get_real_cb example_strategy (simple_collaborators none) example_state.container 2
        example_cbs1 example_cbs2
        = .ok (-1, Event.log_debug_neighbours "CCCCCC".toList :: [])
      ∧ merge_cell example_strategy (simple_collaborators none) example_cbs1 example_cbs2
          example_state ⟨2, 1⟩
        = .ok { example_state with
                container := (simple_collaborators none).exclude_cell example_state.container 2
                tag_index := example_state.tag_index + 1
                events := example_state.events ++
                  trace_events (example_state.tag_index + 1) example_state.merges_count ++
                  (Event.log_debug_neighbours "CCCCCC".toList :: []) ++
                  [Event.exclude_cell 2] } :=
  no_neighbour_is_excluded example_strategy (simple_collaborators none) example_state ⟨2, 1⟩
    example_cbs1 example_cbs2 "CCCCCC".toList "CCC".toList "CC".toList []
    (by decide) (by decide) (by decide) (by decide) (by decide)

theorem vec_at_of_lt {α : Type} (v : List α) (i : Nat) (h : i < v.length) :
    vec_at v i = .ok (v.get ⟨i, h⟩) := by
  simp [vec_at, List.getElem?_eq_getElem h]

theorem mem_collect_inner (max_ed : Int) (d1 : IndexedValue) (dists2 : i_counter_t)
    (hs2 : dists2.Pairwise (fun a b => a.value ≤ b.value)) (t : tuple_t) :
    t ∈ collect_inner max_ed d1 dists2 ↔
      ∃ d2 ∈ dists2, d1.value + d2.value ≤ max_ed ∧
        t = (d1.index, d2.index, d1.value + d2.value) := by
  induction dists2 with
  | nil => simp [collect_inner]
  | cons d2 rest ih =>
    have hrest := (List.pairwise_cons.mp hs2).2
    have hhead := (List.pairwise_cons.mp hs2).1
    simp only [collect_inner]
    by_cases hgt : d1.value + d2.value > max_ed
    · simp only [if_pos hgt, List.not_mem_nil, false_iff]
      rintro ⟨d, hd, hle, _⟩
      rcases List.mem_cons.mp hd with h | h
      · subst h; omega
      · have := hhead d h; omega
    · simp only [if_neg hgt, List.mem_cons, ih hrest]
      constructor
      · rintro (h | ⟨d, hd, hle, ht⟩)
        · exact ⟨d2, Or.inl rfl, by omega, h⟩
        · exact ⟨d, Or.inr hd, hle, ht⟩
      · rintro ⟨d, hd, hle, ht⟩
        rcases hd with h | h
        · subst h; exact Or.inl ht
        · exact Or.inr ⟨d, h, hle, ht⟩

theorem mem_collect_outer (max_ed : Int) (dist2_0 : IndexedValue) (dists1 dists2 : i_counter_t)
    (hs1 : dists1.Pairwise (fun a b => a.value ≤ b.value))
    (hs2 : dists2.Pairwise (fun a b => a.value ≤ b.value))
    (hmin : ∀ d ∈ dists2, dist2_0.value ≤ d.value) (t : tuple_t) :
    t ∈ collect_outer max_ed dist2_0 dists2 dists1 ↔
      ∃ d1 ∈ dists1, ∃ d2 ∈ dists2, d1.value + d2.value ≤ max_ed ∧
        t = (d1.index, d2.index, d1.value + d2.value) := by
  induction dists1 with
  | nil => simp [collect_outer]
  | cons d1 rest ih =>
    have hrest := (List.pairwise_cons.mp hs1).2
    have hhead := (List.pairwise_cons.mp hs1).1
    simp only [collect_outer]
    by_cases hgt : d1.value + dist2_0.value > max_ed
    · simp only [if_pos hgt, List.not_mem_nil, false_iff]
      rintro ⟨e1, he1, e2, he2, hle, _⟩
      have h2 := hmin e2 he2
      rcases List.mem_cons.mp he1 with h | h
      · subst h; omega
      · have := hhead e1 h; omega
    · simp only [if_neg hgt, List.mem_append, mem_collect_inner max_ed d1 dists2 hs2, ih hrest]
      constructor
      · rintro (⟨e2, he2, hle, ht⟩ | ⟨e1, he1, e2, he2, hle, ht⟩)
        · exact ⟨d1, List.mem_cons_self _ _, e2, he2, hle, ht⟩
        · exact ⟨e1, List.mem_cons_of_mem _ he1, e2, he2, hle, ht⟩
      · rintro ⟨e1, he1, e2, he2, hle, ht⟩
        rcases List.mem_cons.mp he1 with h | h
        · subst h; exact Or.inl ⟨e2, he2, hle, ht⟩
        · exact Or.inr ⟨e1, h, e2, he2, hle, ht⟩

/-- The pruned double loop collects exactly the pairs within the bound. -/
theorem mem_collect_real_cell_inds (max_ed : Int) (dists1 dists2 : i_counter_t)
    (hs1 : dists1.Pairwise (fun a b => a.value ≤ b.value))
    (hs2 : dists2.Pairwise (fun a b => a.value ≤ b.value))
    (hne : dists1 ≠ [] → dists2 ≠ []) :
    ∃ inds, collect_real_cell_inds max_ed dists1 dists2 = .ok inds ∧
      ∀ t, t ∈ inds ↔ ∃ d1 ∈ dists1, ∃ d2 ∈ dists2, d1.value + d2.value ≤ max_ed ∧
        t = (d1.index, d2.index, d1.value + d2.value) := by
  cases dists1 with
  | nil => exact ⟨[], rfl, by simp⟩
  | cons a as =>
    cases dists2 with
    | nil => exact absurd rfl (hne (by simp))
    | cons b bs =>
      refine ⟨_, rfl, fun t => ?_⟩
      apply mem_collect_outer max_ed b (a :: as) (b :: bs) hs1 hs2
      intro d hd
      rcases List.mem_cons.mp hd with h | h
      · rw [h]
      · exact (List.pairwise_cons.mp hs2).1 d h

/-- One step of the scan on a tuple whose indices are inside the catalog lists. -/
theorem scan_real_cell_inds_cons (m : List (Str × Nat)) (cbs1 cbs2 : names_t) (base_cb : Str)
    (t : tuple_t) (rest : List tuple_t) (prev : Int) (acc : ids_t) (ev : List Event)
    (h1 : t.1 < cbs1.length) (h2 : t.2.1 < cbs2.length) :
    scan_real_cell_inds m cbs1 cbs2 base_cb (t :: rest) prev acc ev =
      if t.2.2 > prev ∧ ¬ acc = [] then .ok (acc, ev)
      else
        match tuple_cell m cbs1 cbs2 t with
        | some cell_id =>
          scan_real_cell_inds m cbs1 cbs2 base_cb rest t.2.2 (acc ++ [cell_id])
            (ev ++ [Event.stats_add_str .MERGE_EDIT_DISTANCE_BY_CELL
              (cbs1.get ⟨t.1, h1⟩ ++ cbs2.get ⟨t.2.1, h2⟩) base_cb t.2.2])
        | none =>
          scan_real_cell_inds m cbs1 cbs2 base_cb rest t.2.2 acc
            (ev ++ [Event.stats_add_str .MERGE_REJECTION_BY_CELL
              (cbs1.get ⟨t.1, h1⟩ ++ cbs2.get ⟨t.2.1, h2⟩) base_cb t.2.2]) := by
  simp only [scan_real_cell_inds, vec_at_of_lt cbs1 t.1 h1, vec_at_of_lt cbs2 t.2.1 h2,
    tuple_cell, List.getElem?_eq_getElem h1, List.getElem?_eq_getElem h2, List.get_eq_getElem]

/-- The scan once a neighbour has been accepted at distance `prev`: it adds the cells of
the remaining tuples at distance `prev` and stops at the first larger distance. -/
theorem scan_real_cell_inds_accepted (m : List (Str × Nat)) (cbs1 cbs2 : names_t) (base_cb : Str)
    (l : List tuple_t) (prev : Int) (acc : ids_t) (ev : List Event)
    (hacc : acc ≠ [])
    (hsorted : l.Pairwise (fun a b => a.2.2 ≤ b.2.2))
    (hprev : ∀ t ∈ l, prev ≤ t.2.2)
    (hvalid : ∀ t ∈ l, t.1 < cbs1.length ∧ t.2.1 < cbs2.length) :
    ∃ ids events, scan_real_cell_inds m cbs1 cbs2 base_cb l prev acc ev = .ok (acc ++ ids, events)
      ∧ ∀ id, id ∈ ids ↔ ∃ t ∈ l, t.2.2 = prev ∧ tuple_cell m cbs1 cbs2 t = some id := by
  induction l generalizing acc ev with
  | nil => exact ⟨[], ev, by simp [scan_real_cell_inds], by simp⟩
  | cons t rest ih =>
    have hv := hvalid t (List.mem_cons_self _ _)
    have hsr := (List.pairwise_cons.mp hsorted).2
    have hsh := (List.pairwise_cons.mp hsorted).1
    have hpt := hprev t (List.mem_cons_self _ _)
    have hpr : ∀ t ∈ rest, prev ≤ t.2.2 := fun x hx => hprev x (List.mem_cons_of_mem _ hx)
    have hvr : ∀ t ∈ rest, t.1 < cbs1.length ∧ t.2.1 < cbs2.length :=
      fun x hx => hvalid x (List.mem_cons_of_mem _ hx)
    rw [scan_real_cell_inds_cons m cbs1 cbs2 base_cb t rest prev acc ev hv.1 hv.2]
    by_cases hgt : t.2.2 > prev
    · rw [if_pos ⟨hgt, hacc⟩]
      refine ⟨[], ev, by simp, ?_⟩
      intro id
      simp only [List.not_mem_nil, false_iff]
      rintro ⟨x, hx, hxe, _⟩
      rcases List.mem_cons.mp hx with h | h
      · subst h; omega
      · have := hsh x h; omega
    · have heq : t.2.2 = prev := by omega
      rw [if_neg (fun h => hgt h.1)]
      subst heq
      cases hc : tuple_cell m cbs1 cbs2 t with
      | none =>
        simp only []
        obtain ⟨ids, events, hscan, hids⟩ := ih acc _ hacc hsr hpr hvr
        refine ⟨ids, events, hscan, fun id => ?_⟩
        rw [hids id]
        constructor
        · rintro ⟨x, hx, h⟩
          exact ⟨x, List.mem_cons_of_mem _ hx, h⟩
        · rintro ⟨x, hx, hxe, hxc⟩
          rcases List.mem_cons.mp hx with h | h
          · subst h; rw [hc] at hxc; cases hxc
          · exact ⟨x, h, hxe, hxc⟩
      | some cid =>
        simp only []
        obtain ⟨ids, events, hscan, hids⟩ :=
          ih (acc ++ [cid]) _ (by simp) hsr hpr hvr
        refine ⟨cid :: ids, events, by rw [hscan]; simp, fun id => ?_⟩
        rw [List.mem_cons, hids id]
        constructor
        · rintro (h | ⟨x, hx, h⟩)
          · exact ⟨t, List.mem_cons_self _ _, rfl, by rw [hc, h]⟩
          · exact ⟨x, List.mem_cons_of_mem _ hx, h⟩
        · rintro ⟨x, hx, hxe, hxc⟩
          rcases List.mem_cons.mp hx with h | h
          · subst h; rw [hc] at hxc; exact Or.inl (Option.some.inj hxc).symm
          · exact Or.inr ⟨x, h, hxe, hxc⟩

/-- The scan before any neighbour has been accepted: the result holds the cells of the
tuples at the smallest distance at which some tuple reconstructs an observed cell. -/
theorem scan_real_cell_inds_fresh (m : List (Str × Nat)) (cbs1 cbs2 : names_t) (base_cb : Str)
    (l : List tuple_t) (prev : Int) (ev : List Event)
    (hsorted : l.Pairwise (fun a b => a.2.2 ≤ b.2.2))
    (hvalid : ∀ t ∈ l, t.1 < cbs1.length ∧ t.2.1 < cbs2.length) :
    ∃ ids events, scan_real_cell_inds m cbs1 cbs2 base_cb l prev [] ev = .ok (ids, events)
      ∧ ∀ id, id ∈ ids ↔ ∃ t ∈ l, tuple_cell m cbs1 cbs2 t = some id ∧
          ∀ u ∈ l, (tuple_cell m cbs1 cbs2 u).isSome → t.2.2 ≤ u.2.2 := by
  induction l generalizing prev ev with
  | nil => exact ⟨[], ev, by simp [scan_real_cell_inds], by simp⟩
  | cons t rest ih =>
    have hv := hvalid t (List.mem_cons_self _ _)
    have hsr := (List.pairwise_cons.mp hsorted).2
    have hsh := (List.pairwise_cons.mp hsorted).1
    have hvr : ∀ t ∈ rest, t.1 < cbs1.length ∧ t.2.1 < cbs2.length :=
      fun x hx => hvalid x (List.mem_cons_of_mem _ hx)
    rw [scan_real_cell_inds_cons m cbs1 cbs2 base_cb t rest prev [] ev hv.1 hv.2]
    rw [if_neg (fun h => h.2 rfl)]
    cases hc : tuple_cell m cbs1 cbs2 t with
    | none =>
      simp only []
      obtain ⟨ids, events, hscan, hids⟩ := ih t.2.2 _ hsr hvr
      refine ⟨ids, events, hscan, fun id => ?_⟩
      rw [hids id]
      constructor
      · rintro ⟨x, hx, hxc, hmin⟩
        refine ⟨x, List.mem_cons_of_mem _ hx, hxc, fun u hu hsome => ?_⟩
        rcases List.mem_cons.mp hu with h | h
        · subst h; rw [hc] at hsome; cases hsome
        · exact hmin u h hsome
      · rintro ⟨x, hx, hxc, hmin⟩
        rcases List.mem_cons.mp hx with h | h
        · subst h; rw [hc] at hxc; cases hxc
        · exact ⟨x, h, hxc, fun u hu hsome => hmin u (List.mem_cons_of_mem _ hu) hsome⟩
    | some cid =>
      simp only []
      obtain ⟨ids, events, hscan, hids⟩ :=
        scan_real_cell_inds_accepted m cbs1 cbs2 base_cb rest t.2.2 ([] ++ [cid]) 
          (ev ++ [Event.stats_add_str .MERGE_EDIT_DISTANCE_BY_CELL
              (cbs1.get ⟨t.1, hv.1⟩ ++ cbs2.get ⟨t.2.1, hv.2⟩) base_cb t.2.2])
          (by simp) hsr hsh hvr
      refine ⟨cid :: ids, events, by rw [hscan]; simp, fun id => ?_⟩
      rw [List.mem_cons, hids id]
      constructor
      · rintro (h | ⟨x, hx, hxe, hxc⟩)
        · refine ⟨t, List.mem_cons_self _ _, by rw [hc, h], fun u hu _ => ?_⟩
          rcases List.mem_cons.mp hu with h | h
          · rw [h]
          · exact hsh u h
        · refine ⟨x, List.mem_cons_of_mem _ hx, hxc, fun u hu _ => ?_⟩
          rw [hxe]
          rcases List.mem_cons.mp hu with h | h
          · rw [h]
          · exact hsh u h
      · rintro ⟨x, hx, hxc, hmin⟩
        rcases List.mem_cons.mp hx with h | h
        · subst h; rw [hc] at hxc; exact Or.inl (Option.some.inj hxc).symm
        · refine Or.inr ⟨x, h, ?_, hxc⟩
          have h1 := hmin t (List.mem_cons_self _ _) (by rw [hc]; rfl)
          have h2 := hsh x h
          omega

/-- C3: for distance lists sorted ascending by distance whose indices lie in the catalog
lists (the second list non-empty when the first is), `get_real_neighbour_cbs` returns, and
an id is among the returned ids exactly when it is the observed cell reconstructed by a
pair of entries within `MAX_REAL_MERGE_EDIT_DISTANCE` whose summed distance is the smallest
one at which any such pair reconstructs an observed cell. -/
theorem get_real_neighbour_cbs_minimal (self : RealBarcodesMergeStrategy)
    (col : Collaborators C) (container : C) (cbs1 cbs2 : names_t) (base_cb : Str)
    (dists1 dists2 : i_counter_t)
    (hs1 : dists1.Pairwise (fun a b => a.value ≤ b.value))
    (hs2 : dists2.Pairwise (fun a b => a.value ≤ b.value))
    (hi1 : ∀ d ∈ dists1, d.index < cbs1.length)
    (hi2 : ∀ d ∈ dists2, d.index < cbs2.length)
    (hne : dists1 ≠ [] → dists2 ≠ []) :
    ∃ ids events,
      get_real_neighbour_cbs self col container cbs1 cbs2 base_cb dists1 dists2
        = .ok (ids, events)
      ∧ ∀ id, id ∈ ids ↔
          ∃ d1 ∈ dists1, ∃ d2 ∈ dists2,
            reconstructs self.MAX_REAL_MERGE_EDIT_DISTANCE (col.cell_ids_by_cb container)
              cbs1 cbs2 d1 d2 id
            ∧ ∀ e1 ∈ dists1, ∀ e2 ∈ dists2, ∀ id2,
                reconstructs self.MAX_REAL_MERGE_EDIT_DISTANCE (col.cell_ids_by_cb container)
                  cbs1 cbs2 e1 e2 id2 →
                d1.value + d2.value ≤ e1.value + e2.value := by
  obtain ⟨inds, hinds, hmem⟩ :=
    mem_collect_real_cell_inds self.MAX_REAL_MERGE_EDIT_DISTANCE dists1 dists2 hs1 hs2 hne
  have hperm := col.std.perm (fun t : tuple_t => t.2.2) inds
  have hsorted := col.std.sorted (fun t : tuple_t => t.2.2) inds
  have hmem2 : ∀ t, t ∈ col.std.sort (fun t : tuple_t => t.2.2) inds ↔
      ∃ d1 ∈ dists1, ∃ d2 ∈ dists2, d1.value + d2.value ≤ self.MAX_REAL_MERGE_EDIT_DISTANCE ∧
        t = (d1.index, d2.index, d1.value + d2.value) :=
    fun t => (hperm.mem_iff).trans (hmem t)
  have hvalid : ∀ t ∈ col.std.sort (fun t : tuple_t => t.2.2) inds,
      t.1 < cbs1.length ∧ t.2.1 < cbs2.length := by
    intro t ht
    obtain ⟨d1, hd1, d2, hd2, _, rfl⟩ := (hmem2 t).mp ht
    exact ⟨hi1 d1 hd1, hi2 d2 hd2⟩
  obtain ⟨ids, events, hscan, hids⟩ :=
    scan_real_cell_inds_fresh (col.cell_ids_by_cb container) cbs1 cbs2 base_cb
      (col.std.sort (fun t : tuple_t => t.2.2) inds) LONG_MAX [] hsorted hvalid
  refine ⟨ids, events, by simp only [get_real_neighbour_cbs, hinds, hscan], fun id => ?_⟩
  rw [hids id]
  constructor
  · rintro ⟨t, ht, htc, hmin⟩
    obtain ⟨d1, hd1, d2, hd2, hle, rfl⟩ := (hmem2 t).mp ht
    refine ⟨d1, hd1, d2, hd2, ⟨hle, htc⟩, fun e1 he1 e2 he2 id2 hrec => ?_⟩
    exact hmin (e1.index, e2.index, e1.value + e2.value)
      ((hmem2 _).mpr ⟨e1, he1, e2, he2, hrec.1, rfl⟩) (by rw [hrec.2]; rfl)
  · rintro ⟨d1, hd1, d2, hd2, hrec, hmin⟩
    refine ⟨(d1.index, d2.index, d1.value + d2.value),
      (hmem2 _).mpr ⟨d1, hd1, d2, hd2, hrec.1, rfl⟩, hrec.2, fun u hu hsome => ?_⟩
    obtain ⟨e1, he1, e2, he2, hle, rfl⟩ := (hmem2 u).mp hu
    obtain ⟨id2, hid2⟩ := Option.isSome_iff_exists.mp hsome
    exact hmin e1 he1 e2 he2 id2 ⟨hle, hid2⟩

theorem get_real_neighbour_cbs_minimal_witness :
    ∃ ids events,
      get_real_neighbour_cbs example_strategy (simple_collaborators none) example_container4
          example_cbs1 example_cbs2_long "ACTAGG".toList [⟨1, 1⟩, ⟨0, 2⟩] [⟨0, 1⟩, ⟨1, 1⟩]
        = .ok (ids, events)
      ∧ ∀ id, id ∈ ids ↔
          ∃ d1 ∈ [(⟨1, 1⟩ : IndexedValue), ⟨0, 2⟩], ∃ d2 ∈ [(⟨0, 1⟩ : IndexedValue), ⟨1, 1⟩],
            reconstructs example_strategy.MAX_REAL_MERGE_EDIT_DISTANCE
              ((simple_collaborators none).cell_ids_by_cb example_container4)
              example_cbs1 example_cbs2_long d1 d2 id
            ∧ ∀ e1 ∈ [(⟨1, 1⟩ : IndexedValue), ⟨0, 2⟩],
                ∀ e2 ∈ [(⟨0, 1⟩ : IndexedValue), ⟨1, 1⟩], ∀ id2,
                reconstructs example_strategy.MAX_REAL_MERGE_EDIT_DISTANCE
                  ((simple_collaborators none).cell_ids_by_cb example_container4)
                  example_cbs1 example_cbs2_long e1 e2 id2 →
                d1.value + d2.value ≤ e1.value + e2.value :=
  get_real_neighbour_cbs_minimal example_strategy (simple_collaborators none)
    example_container4 example_cbs1 example_cbs2_long "ACTAGG".toList
    [⟨1, 1⟩, ⟨0, 2⟩] [⟨0, 1⟩, ⟨1, 1⟩]
    (by decide) (by decide) (by decide) (by decide) (by decide)

/-! ### The merge-join of two cells -/

theorem str_compare_swap (a b : Str) : str_compare b a = (str_compare a b).swap := by
  induction a generalizing b with
  | nil => cases b <;> rfl
  | cons x xs ih =>
    cases b with
    | nil => rfl
    | cons y ys =>
      simp only [str_compare]
      by_cases h1 : x.toNat < y.toNat
      · have h2 : ¬ y.toNat < x.toNat := by omega
        simp [h1, h2, Ordering.swap]
      · by_cases h2 : y.toNat < x.toNat
        · simp [h1, h2, Ordering.swap]
        · simp [h1, h2, ih ys]

theorem umis_loop_nil_right (umis1 : umis_t) (n : Nat) : umis_loop umis1 [] n = n := by
  cases umis1 <;> rfl

/-- One iteration of the inner `while` loop, both cursors inside their maps. -/
theorem umis_loop_cons_cons (umi1 umi2 : Str × Nat) (rest1 rest2 : umis_t) (n : Nat) :
    umis_loop (umi1 :: rest1) (umi2 :: rest2) n =
      match str_compare umi1.1 umi2.1 with
      | .lt => umis_loop rest1 (umi2 :: rest2) n
      | .gt => umis_loop (umi1 :: rest1) rest2 n
      | .eq => umis_loop rest1 rest2 (n + 1) := by
  cases h : str_compare umi1.1 umi2.1 <;> simp only [umis_loop, umis_step, h]

theorem genes_loop_nil_right (cell1 : genes_t) (counts : UmigCounts) :
    genes_loop cell1 [] counts = counts := by
  cases cell1 <;> rfl

/-- One iteration of the outer `while` loop, both cursors inside their maps. -/
theorem genes_loop_cons_cons (gene1 gene2 : Str × umis_t) (rest1 rest2 : genes_t)
    (counts : UmigCounts) :
    genes_loop (gene1 :: rest1) (gene2 :: rest2) counts =
      match str_compare gene1.1 gene2.1 with
      | .lt => genes_loop rest1 (gene2 :: rest2)
          { counts with cell1_umigs := counts.cell1_umigs + gene1.2.length }
      | .gt => genes_loop (gene1 :: rest1) rest2
          { counts with cell2_umigs := counts.cell2_umigs + gene2.2.length }
      | .eq => genes_loop rest1 rest2
          { intersect_size := umis_loop gene1.2 gene2.2 counts.intersect_size
            cell1_umigs := counts.cell1_umigs + gene1.2.length
            cell2_umigs := counts.cell2_umigs + gene2.2.length } := by
  cases h : str_compare gene1.1 gene2.1 <;> simp only [genes_loop, genes_step, h]

/-- Induction along the two cursors of a merge-join. -/
theorem merge_join_induction {α β : Type} (P : List α → List β → Prop)
    (hnil_left : ∀ l2, P [] l2) (hnil_right : ∀ l1, P l1 [])
    (hcons : ∀ a l1 b l2, P l1 (b :: l2) → P (a :: l1) l2 → P l1 l2 → P (a :: l1) (b :: l2))
    (l1 : List α) (l2 : List β) : P l1 l2 := by
  induction l1 generalizing l2 with
  | nil => exact hnil_left l2
  | cons a l1 ih1 =>
    induction l2 with
    | nil => exact hnil_right _
    | cons b l2 ih2 => exact hcons a l1 b l2 (ih1 _) ih2 (ih1 _)

theorem umis_loop_swap (umis1 umis2 : umis_t) :
    ∀ n, umis_loop umis2 umis1 n = umis_loop umis1 umis2 n := by
  refine merge_join_induction (fun l1 l2 => ∀ n, umis_loop l2 l1 n = umis_loop l1 l2 n)
    ?_ ?_ ?_ umis1 umis2
  · intro l2 n; rw [umis_loop_nil_right]; rfl
  · intro l1 n; rw [umis_loop_nil_right]; rfl
  · intro a l1 b l2 h1 h2 h3 n
    rw [umis_loop_cons_cons, umis_loop_cons_cons, str_compare_swap a.1 b.1]
    cases str_compare a.1 b.1
    · exact h1 n
    · exact h3 (n + 1)
    · exact h2 n

/-- The counters with the roles of the two cells exchanged. -/
theorem genes_loop_swap (cell1 cell2 : genes_t) :
    ∀ counts : UmigCounts,
      genes_loop cell2 cell1
          { intersect_size := counts.intersect_size
            cell1_umigs := counts.cell2_umigs
            cell2_umigs := counts.cell1_umigs } =
        { intersect_size := (genes_loop cell1 cell2 counts).intersect_size
          cell1_umigs := (genes_loop cell1 cell2 counts).cell2_umigs
          cell2_umigs := (genes_loop cell1 cell2 counts).cell1_umigs } := by
  refine merge_join_induction (fun l1 l2 => ∀ counts : UmigCounts,
      genes_loop l2 l1
          { intersect_size := counts.intersect_size
            cell1_umigs := counts.cell2_umigs
            cell2_umigs := counts.cell1_umigs } =
        { intersect_size := (genes_loop l1 l2 counts).intersect_size
          cell1_umigs := (genes_loop l1 l2 counts).cell2_umigs
          cell2_umigs := (genes_loop l1 l2 counts).cell1_umigs }) ?_ ?_ ?_ cell1 cell2
  · intro l2 counts; rw [genes_loop_nil_right]; rfl
  · intro l1 counts; rw [genes_loop_nil_right]; rfl
  · intro a l1 b l2 h1 h2 h3 counts
    rw [genes_loop_cons_cons, genes_loop_cons_cons, str_compare_swap a.1 b.1]
    cases str_compare a.1 b.1
    · exact h1 { counts with cell1_umigs := counts.cell1_umigs + a.2.length }
    · simp only [Ordering.swap]
      rw [umis_loop_swap a.2 b.2]
      exact h3 { intersect_size := umis_loop a.2 b.2 counts.intersect_size
                 cell1_umigs := counts.cell1_umigs + a.2.length
                 cell2_umigs := counts.cell2_umigs + b.2.length }
    · exact h2 { counts with cell2_umigs := counts.cell2_umigs + b.2.length }

theorem umigs_counts_swap (cell1 cell2 : genes_t) :
    umigs_counts cell2 cell1 =
      { intersect_size := (umigs_counts cell1 cell2).intersect_size
        cell1_umigs := (umigs_counts cell1 cell2).cell2_umigs
        cell2_umigs := (umigs_counts cell1 cell2).cell1_umigs } :=
  genes_loop_swap cell1 cell2 { intersect_size := 0, cell1_umigs := 0, cell2_umigs := 0 }

/-- C4: the intersection fraction is symmetric. For any two cells the merge-join run on
`(B, A)` gives the same intersection count and the same divisor as on `(A, B)`, and
`get_umigs_intersect_fraction` returns the same result for the two orders of its cell
arguments. -/
theorem get_umigs_intersect_fraction_symmetric (col : Collaborators C) (container : C)
    (cell1_ind cell2_ind : Nat) (cellA cellB : genes_t) :
    (umigs_counts cellB cellA).intersect_size = (umigs_counts cellA cellB).intersect_size
      ∧ (umigs_counts cellB cellA).divisor = (umigs_counts cellA cellB).divisor
      ∧ get_umigs_intersect_fraction col container cell2_ind cell1_ind
          = get_umigs_intersect_fraction col container cell1_ind cell2_ind := by
  refine ⟨by rw [umigs_counts_swap], ?_, ?_⟩
  · rw [umigs_counts_swap]
    simp only [UmigCounts.divisor]
    exact Nat.min_comm _ _
  · simp only [get_umigs_intersect_fraction, vec_at]
    cases h1 : (col.cell_genes container)[cell1_ind]? with
    | none => cases h2 : (col.cell_genes container)[cell2_ind]? <;> rfl
    | some c1 =>
      cases h2 : (col.cell_genes container)[cell2_ind]? with
      | none => rfl
      | some c2 =>
        simp only []
        rw [umigs_counts_swap c1 c2]
        simp only [UmigCounts.divisor, Nat.min_comm]

/-- C5: the divisor is not the minimum of the two totals. For the cells `a: {u1}, z: {u2}`
(2 molecules) and `b: {u1, u2, u3}` (3 molecules) the loop ends when the second map is
exhausted, gene `z` is never added to `cell1_umigs`, and the divisor is 1 instead of 2. -/
theorem divisor_misses_trailing_genes :
    umigs_counts example_cell_az example_cell_b
        = { intersect_size := 0, cell1_umigs := 1, cell2_umigs := 3 }
      ∧ (umigs_counts example_cell_az example_cell_b).divisor = 1
      ∧ min (total_umigs example_cell_az) (total_umigs example_cell_b) = 2 := by
  decide

/-! ### The order of doubles -/

theorem double_lt_irrefl (x : Double) : Double.lt x x = false := by
  cases x <;> simp [Double.lt]

theorem double_lt_trans {x y z : Double} (h1 : Double.lt x y = true)
    (h2 : Double.lt y z = true) : Double.lt x z = true := by
  cases x <;> cases y <;> cases z <;> simp [Double.lt] at h1 h2 ⊢
  exact lt_trans h1 h2

theorem double_lt_asymm {x y : Double} (h : Double.lt x y = true) : Double.lt y x = false := by
  cases x <;> cases y <;> simp [Double.lt] at h ⊢
  exact le_of_lt h

/-- From `x ≤ y` (as `¬ y < x`, no `nan` involved) and `y < z`. -/
theorem double_lt_of_not_lt_of_lt {x y z : Double} (hx : x ≠ .nan) (hy : y ≠ .nan)
    (h1 : Double.lt y x = false) (h2 : Double.lt y z = true) : Double.lt x z = true := by
  cases x <;> cases y <;> cases z <;> simp [Double.lt] at h1 h2 hx hy ⊢
  exact lt_of_le_of_lt h1 h2

theorem double_le_of_not_lt {x y : Double} (hx : x ≠ .nan) (hy : y ≠ .nan)
    (h : Double.lt x y = false) : Double.le y x = true := by
  cases x <;> cases y <;> simp [Double.lt, Double.le] at h hx hy ⊢
  exact h

theorem double_le_of_lt {x y : Double} (h : Double.lt x y = true) : Double.le x y = true := by
  cases x <;> cases y <;> simp [Double.lt, Double.le] at h ⊢
  exact le_of_lt h

theorem double_lt_ne_nan_right {x y : Double} (h : Double.lt x y = true) : y ≠ .nan := by
  cases x <;> cases y <;> simp [Double.lt] at h ⊢

/-- A quotient of two counts is `nan`, or it is not below zero. -/
theorem double_div_counts_nonneg (fp : DoubleDivision) (n d : Nat) :
    Double.lt (Double.div_counts fp n d) (.num 0) = false := by
  unfold Double.div_counts
  split
  · split <;> simp [Double.lt]
  · simp only [Double.lt, decide_eq_false_iff_not, not_lt]
    exact fp.nonneg n d

/-- A value that is neither `nan` nor below zero nor above zero is zero. -/
theorem double_eq_zero_of_not_lt {x : Double} (hx : x ≠ .nan)
    (h1 : Double.lt x (.num 0) = false) (h2 : Double.lt (.num 0) x = false) :
    x = .num 0 := by
  cases x <;> simp [Double.lt] at h1 h2 hx ⊢
  exact le_antisymm h2 h1

/-! ### The selection loop of get_best_merge_target -/

/-- The loop of `get_best_merge_target` from a state `(max_frac, best)` over neighbours
with fractions `f`, none of them `nan`: either the state is unchanged and no fraction
exceeds `max_frac`, or the result is the first neighbour with the largest fraction, which
exceeds `max_frac`. -/
theorem best_neighbour_loop_spec (frac : Nat → Except Failure Double) (f : Nat → Double)
    (l : ids_t) (max_frac : Double) (best : Nat)
    (hf : ∀ n ∈ l, frac n = .ok (f n)) (hnan : ∀ n ∈ l, f n ≠ .nan)
    (hmax : max_frac ≠ .nan) :
    ∃ mx b, best_neighbour_loop frac l (max_frac, best) = .ok (mx, b) ∧
      ((mx = max_frac ∧ b = best ∧ ∀ n ∈ l, Double.lt max_frac (f n) = false)
        ∨ (f b = mx ∧ Double.lt max_frac mx = true
            ∧ (∀ n ∈ l, Double.lt mx (f n) = false)
            ∧ ∃ l1 l2, l = l1 ++ b :: l2 ∧ ∀ n ∈ l1, Double.lt (f n) mx = true)) := by
  induction l generalizing max_frac best with
  | nil => exact ⟨max_frac, best, rfl, Or.inl ⟨rfl, rfl, by simp⟩⟩
  | cons n rest ih =>
    have hfn := hf n (List.mem_cons_self _ _)
    have hnn := hnan n (List.mem_cons_self _ _)
    have hfr : ∀ m ∈ rest, frac m = .ok (f m) := fun m hm => hf m (List.mem_cons_of_mem _ hm)
    have hnr : ∀ m ∈ rest, f m ≠ .nan := fun m hm => hnan m (List.mem_cons_of_mem _ hm)
    simp only [best_neighbour_loop, hfn]
    by_cases hlt : Double.lt max_frac (f n) = true
    · rw [if_pos hlt]
      obtain ⟨mx, b, hrun, hcase⟩ := ih (f n) n hfr hnr hnn
      refine ⟨mx, b, hrun, Or.inr ?_⟩
      rcases hcase with ⟨hmx, hb, hall⟩ | ⟨hfb, hgt, hall, l1, l2, hl, hbefore⟩
      · subst hmx; subst hb
        refine ⟨rfl, hlt, ?_, [], rest, rfl, by simp⟩
        intro m hm
        rcases List.mem_cons.mp hm with h | h
        · rw [h]; exact double_lt_irrefl _
        · exact hall m h
      · refine ⟨hfb, double_lt_trans hlt hgt, ?_, n :: l1, l2, by rw [hl]; rfl, ?_⟩
        · intro m hm
          rcases List.mem_cons.mp hm with h | h
          · rw [h]; exact double_lt_asymm hgt
          · exact hall m h
        · intro m hm
          rcases List.mem_cons.mp hm with h | h
          · rw [h]; exact hgt
          · exact hbefore m h
    · have hnlt : Double.lt max_frac (f n) = false := by simpa using hlt
      rw [if_neg hlt]
      obtain ⟨mx, b, hrun, hcase⟩ := ih max_frac best hfr hnr hmax
      refine ⟨mx, b, hrun, ?_⟩
      rcases hcase with ⟨hmx, hb, hall⟩ | ⟨hfb, hgt, hall, l1, l2, hl, hbefore⟩
      · refine Or.inl ⟨hmx, hb, ?_⟩
        intro m hm
        rcases List.mem_cons.mp hm with h | h
        · rw [h]; exact hnlt
        · exact hall m h
      · have hn_lt : Double.lt (f n) mx = true := double_lt_of_not_lt_of_lt hnn hmax hnlt hgt
        refine Or.inr ⟨hfb, hgt, ?_, n :: l1, l2, by rw [hl]; rfl, ?_⟩
        · intro m hm
          rcases List.mem_cons.mp hm with h | h
          · rw [h]; exact double_lt_asymm hn_lt
          · exact hall m h
        · intro m hm
          rcases List.mem_cons.mp hm with h | h
          · rw [h]; exact hn_lt
          · exact hbefore m h

/-- A fraction that `get_umigs_intersect_fraction` returns is not below zero. -/
theorem get_umigs_intersect_fraction_nonneg (col : Collaborators C) (container : C)
    (cell1_ind cell2_ind : Nat) (x : Double)
    (h : get_umigs_intersect_fraction col container cell1_ind cell2_ind = .ok x) :
    Double.lt x (.num 0) = false := by
  simp only [get_umigs_intersect_fraction] at h
  split at h
  · cases h; exact double_div_counts_nonneg _ _ _
  · cases h
  · cases h

/-- The state after the loop of `get_best_merge_target` when every neighbour has a
fraction that is not `nan`. -/
theorem best_neighbour_spec (col : Collaborators C) (container : C) (base_cell_ind : Nat)
    (neighbour_cells : ids_t) (hne : neighbour_cells ≠ [])
    (hnum : ∀ n ∈ neighbour_cells, ∃ x,
      get_umigs_intersect_fraction col container base_cell_ind n = .ok x ∧ x ≠ .nan) :
    ∃ mx best l1 l2,
      best_neighbour col container base_cell_ind neighbour_cells = .ok (mx, best)
      ∧ neighbour_cells = l1 ++ best :: l2
      ∧ get_umigs_intersect_fraction col container base_cell_ind best = .ok mx
      ∧ (∀ n ∈ neighbour_cells, ∃ x,
          get_umigs_intersect_fraction col container base_cell_ind n = .ok x
            ∧ Double.le x mx = true)
      ∧ (∀ n ∈ l1, ∃ x,
          get_umigs_intersect_fraction col container base_cell_ind n = .ok x
            ∧ Double.lt x mx = true) := by
  let frac := get_umigs_intersect_fraction col container base_cell_ind
  let f : Nat → Double := fun n =>
    match frac n with
    | .ok x => x
    | .error _ => .nan
  have hf : ∀ n ∈ neighbour_cells, frac n = .ok (f n) := by
    intro n hn
    obtain ⟨x, hx, _⟩ := hnum n hn
    simp only [f, frac, hx]
  have hnan : ∀ n ∈ neighbour_cells, f n ≠ .nan := by
    intro n hn
    obtain ⟨x, hx, hxn⟩ := hnum n hn
    simp only [f, frac, hx]; exact hxn
  have hnonneg : ∀ n ∈ neighbour_cells, Double.lt (f n) (.num 0) = false := fun n hn =>
    get_umigs_intersect_fraction_nonneg col container base_cell_ind n (f n) (hf n hn)
  cases hl : neighbour_cells with
  | nil => exact absurd hl hne
  | cons first rest =>
    rw [hl] at hf hnan hnonneg
    obtain ⟨mx, b, hrun, hcase⟩ :=
      best_neighbour_loop_spec frac f (first :: rest) (.num 0) first hf hnan (by simp)
    rcases hcase with ⟨hmx, hb, hall⟩ | ⟨hfb, hgt, hall, l1, l2, hl2, hbefore⟩
    · rw [hmx, hb] at hrun
      have hzero : ∀ n ∈ first :: rest, f n = .num 0 := fun n hn =>
        double_eq_zero_of_not_lt (hnan n hn) (hnonneg n hn) (hall n hn)
      refine ⟨.num 0, first, [], rest, hrun, rfl, ?_, ?_, by simp⟩
      · rw [← hzero first (List.mem_cons_self _ _)]; exact hf first (List.mem_cons_self _ _)
      · intro n hn
        exact ⟨f n, hf n hn, by rw [hzero n hn]; simp [Double.le]⟩
    · have hb_mem : b ∈ first :: rest := by rw [hl2]; simp
      refine ⟨mx, b, l1, l2, hrun, hl2, by rw [← hfb]; exact hf b hb_mem, ?_, ?_⟩
      · intro n hn
        exact ⟨f n, hf n hn,
          double_le_of_not_lt (double_lt_ne_nan_right hgt) (hnan n hn) (hall n hn)⟩
      · intro n hn
        exact ⟨f n, hf n (by rw [hl2]; exact List.mem_append_left _ hn), hbefore n hn⟩

/-- The selection among the values that `get_umigs_intersect_fraction` returns: for a
non-empty neighbour list in which every neighbour's returned value is a number (not `nan`),
the candidate selected by the loop of `get_best_merge_target` is a neighbour of the list,
its returned value is the running maximum, every neighbour's returned value is at most
that maximum, and every neighbour that occurs before the selected one has a strictly
smaller returned value. -/
theorem best_neighbour_is_first_maximum (col : Collaborators C) (container : C)
    (base_cell_ind : Nat) (neighbour_cells : ids_t) (hne : neighbour_cells ≠ [])
    (hnum : ∀ n ∈ neighbour_cells, ∃ x,
      get_umigs_intersect_fraction col container base_cell_ind n = .ok x ∧ x ≠ .nan) :
    ∃ mx best l1 l2,
      best_neighbour col container base_cell_ind neighbour_cells = .ok (mx, best)
      ∧ neighbour_cells = l1 ++ best :: l2
      ∧ get_umigs_intersect_fraction col container base_cell_ind best = .ok mx
      ∧ (∀ n ∈ neighbour_cells, ∃ x,
          get_umigs_intersect_fraction col container base_cell_ind n = .ok x
            ∧ Double.le x mx = true)
      ∧ (∀ n ∈ l1, ∃ x,
          get_umigs_intersect_fraction col container base_cell_ind n = .ok x
            ∧ Double.lt x mx = true) :=
  best_neighbour_spec col container base_cell_ind neighbour_cells hne hnum

theorem best_neighbour_is_first_maximum_witness :
    ∃ mx best l1 l2,
      best_neighbour (simple_collaborators none) example_container4 1 [0, 3] = .ok (mx, best)
      ∧ [0, 3] = l1 ++ best :: l2
      ∧ get_umigs_intersect_fraction (simple_collaborators none) example_container4 1 best
          = .ok mx
      ∧ (∀ n ∈ [0, 3], ∃ x,
          get_umigs_intersect_fraction (simple_collaborators none) example_container4 1 n
            = .ok x ∧ Double.le x mx = true)
      ∧ (∀ n ∈ l1, ∃ x,
          get_umigs_intersect_fraction (simple_collaborators none) example_container4 1 n
            = .ok x ∧ Double.lt x mx = true) :=
  best_neighbour_is_first_maximum (simple_collaborators none) example_container4 1 [0, 3]
    (by decide)
    (by
      intro n hn
      simp only [List.mem_cons, List.mem_singleton, List.not_mem_nil, or_false] at hn
      rcases hn with h | h
      · exact ⟨.num (((1 : Nat) : ℚ) / ((1 : Nat) : ℚ)), by rw [h]; rfl, by simp⟩
      · exact ⟨.num (((1 : Nat) : ℚ) / ((1 : Nat) : ℚ)), by rw [h]; rfl, by simp⟩)

/-- The selection when a returned value is `0 / 0`: with base cell 0 (gene `b`) and the
neighbours 1 (gene `a` only) and 2 (gene `b`, another identifier) the selected candidate
is neighbour 1, for which `get_umigs_intersect_fraction` returns `nan`, while it returns 0
for neighbour 2. -/
theorem best_neighbour_with_nan :
    best_neighbour (simple_collaborators none) example_container_disjoint 0 [1, 2]
        = .ok (.num 0, 1)
      ∧ get_umigs_intersect_fraction (simple_collaborators none) example_container_disjoint 0 1
        = .ok .nan
      ∧ get_umigs_intersect_fraction (simple_collaborators none) example_container_disjoint 0 2
        = .ok (.num 0)
      ∧ Double.le (.num 0) .nan = false := by
  refine ⟨?_, ?_, ?_, rfl⟩
  · with_unfolding_all decide
  · with_unfolding_all decide
  · with_unfolding_all decide

/-- The result of `get_real_cb` on the path through the neighbour search. -/
theorem get_real_cb_of_neighbours (self : RealBarcodesMergeStrategy) (col : Collaborators C)
    (container : C) (base_cell_ind : Nat) (cbs1 cbs2 : names_t)
    (base_cb cb_part1 cb_part2 : Str) (neighbour_cells : ids_t) (events : List Event)
    (target : Int)
    (hcb : vec_at (col.cell_barcodes container) base_cell_ind = .ok base_cb)
    (hsplit : split_barcode self base_cb = .ok (cb_part1, cb_part2))
    (hexact : exact_match (fill_distances_to_cb col.std cb_part1 cb_part2 cbs1 cbs2 [] []).1
      (fill_distances_to_cb col.std cb_part1 cb_part2 cbs1 cbs2 [] []).2 = .ok false)
    (hsearch : get_real_neighbour_cbs self col container cbs1 cbs2 base_cb
      (fill_distances_to_cb col.std cb_part1 cb_part2 cbs1 cbs2 [] []).1
      (fill_distances_to_cb col.std cb_part1 cb_part2 cbs1 cbs2 [] []).2
        = .ok (neighbour_cells, events))
    (hne : neighbour_cells ≠ [])
    (htarget : get_best_merge_target self col container base_cell_ind neighbour_cells
      = .ok target) :
    get_real_cb self col container base_cell_ind cbs1 cbs2
      = .ok (target, Event.log_debug_neighbours base_cb :: events) := by
  simp only [get_real_cb, hcb, hsplit, hexact, hsearch, if_neg hne, htarget]

/-- The gate in terms of the values that `get_umigs_intersect_fraction` returns, when each
of them is a number. The variable `max_umigs_intersection_frac` is then their maximum.
If it is below `_min_merge_fraction`, `get_best_merge_target` returns the base cell's own
id, and `merge`, having reached the neighbours through the search, marks the base cell
real without excluding or redirecting it; otherwise `get_best_merge_target` returns the id
of the selected neighbour. -/
theorem merge_target_threshold (self : RealBarcodesMergeStrategy) (col : Collaborators C)
    (container : C) (base_cell_ind : Nat) (neighbour_cells : ids_t)
    (hne : neighbour_cells ≠ [])
    (hnum : ∀ n ∈ neighbour_cells, ∃ x,
      get_umigs_intersect_fraction col container base_cell_ind n = .ok x ∧ x ≠ .nan)
    (hlong : base_cell_ind < 2 ^ 63) :
    ∃ mx best,
      best_neighbour col container base_cell_ind neighbour_cells = .ok (mx, best)
      ∧ best ∈ neighbour_cells
      ∧ get_umigs_intersect_fraction col container base_cell_ind best = .ok mx
      ∧ (∀ n ∈ neighbour_cells, ∃ x,
          get_umigs_intersect_fraction col container base_cell_ind n = .ok x
            ∧ Double.le x mx = true)
      ∧ (Double.lt mx self._min_merge_fraction = true →
          get_best_merge_target self col container base_cell_ind neighbour_cells
            = .ok (base_cell_ind : Int)
          ∧ ∀ (st : MergeState C) (genes_count : IndexedValue) (cbs1 cbs2 : names_t)
              (base_cb cb_part1 cb_part2 : Str) (events : List Event),
              st.container = container → genes_count.index = base_cell_ind →
              genes_count.index < st.is_cell_real.length →
              vec_at (col.cell_barcodes container) base_cell_ind = .ok base_cb →
              split_barcode self base_cb = .ok (cb_part1, cb_part2) →
              exact_match (fill_distances_to_cb col.std cb_part1 cb_part2 cbs1 cbs2 [] []).1
                (fill_distances_to_cb col.std cb_part1 cb_part2 cbs1 cbs2 [] []).2
                  = .ok false →
              get_real_neighbour_cbs self col container cbs1 cbs2 base_cb
                (fill_distances_to_cb col.std cb_part1 cb_part2 cbs1 cbs2 [] []).1
                (fill_distances_to_cb col.std cb_part1 cb_part2 cbs1 cbs2 [] []).2
                  = .ok (neighbour_cells, events) →
              merge_cell self col cbs1 cbs2 st genes_count
                = .ok { st with
                        is_cell_real := st.is_cell_real.set genes_count.index true
                        tag_index := st.tag_index + 1
                        events := st.events ++
                          trace_events (st.tag_index + 1) st.merges_count ++
                          (Event.log_debug_neighbours base_cb :: events) })
      ∧ (Double.lt mx self._min_merge_fraction = false →
          get_best_merge_target self col container base_cell_ind neighbour_cells
            = .ok (to_long best)) := by
  obtain ⟨mx, best, l1, l2, hrun, hl, hbest, hall, _⟩ :=
    best_neighbour_spec col container base_cell_ind neighbour_cells hne hnum
  refine ⟨mx, best, hrun, by rw [hl]; simp, hbest, hall, ?_, ?_⟩
  · intro hlt
    have htarget : get_best_merge_target self col container base_cell_ind neighbour_cells
        = .ok (base_cell_ind : Int) := by
      simp only [get_best_merge_target, hrun, hlt, if_true, to_long_of_lt _ hlong]
    refine ⟨htarget, ?_⟩
    intro st genes_count cbs1 cbs2 base_cb cb_part1 cb_part2 events hst hidx hreal hcb hsplit
      hexact hsearch
    have hget := get_real_cb_of_neighbours self col container base_cell_ind cbs1 cbs2 base_cb
      cb_part1 cb_part2 neighbour_cells events _ hcb hsplit hexact hsearch hne htarget
    have hconv : to_size_t (base_cell_ind : Int) = base_cell_ind := by
      rw [← to_long_of_lt _ hlong]; exact to_size_t_to_long _ hlong
    simp only [merge_cell, hst, hidx, hget, hconv, if_true]
    rw [hidx] at hreal
    simp [hreal]
  · intro hnlt
    simp only [get_best_merge_target, hrun, hnlt]
    simp

theorem merge_target_threshold_witness :
    ∃ mx best,
      best_neighbour (simple_collaborators none) example_container4 1 [0, 3] = .ok (mx, best)
      ∧ best ∈ [0, 3]
      ∧ get_umigs_intersect_fraction (simple_collaborators none) example_container4 1 best
          = .ok mx
      ∧ (∀ n ∈ [0, 3], ∃ x,
          get_umigs_intersect_fraction (simple_collaborators none) example_container4 1 n
            = .ok x ∧ Double.le x mx = true)
      ∧ (Double.lt mx example_strategy._min_merge_fraction = true →
          get_best_merge_target example_strategy (simple_collaborators none)
              example_container4 1 [0, 3] = .ok ((1 : Nat) : Int)
          ∧ ∀ (st : MergeState SimpleContainer) (genes_count : IndexedValue)
              (cbs1 cbs2 : names_t) (base_cb cb_part1 cb_part2 : Str) (events : List Event),
              st.container = example_container4 → genes_count.index = 1 →
              genes_count.index < st.is_cell_real.length →
              vec_at ((simple_collaborators none).cell_barcodes example_container4) 1
                = .ok base_cb →
              split_barcode example_strategy base_cb = .ok (cb_part1, cb_part2) →
              exact_match
                (fill_distances_to_cb (simple_collaborators none).std cb_part1 cb_part2
                  cbs1 cbs2 [] []).1
                (fill_distances_to_cb (simple_collaborators none).std cb_part1 cb_part2
                  cbs1 cbs2 [] []).2 = .ok false →
              get_real_neighbour_cbs example_strategy (simple_collaborators none)
                example_container4 cbs1 cbs2 base_cb
                (fill_distances_to_cb (simple_collaborators none).std cb_part1 cb_part2
                  cbs1 cbs2 [] []).1
                (fill_distances_to_cb (simple_collaborators none).std cb_part1 cb_part2
                  cbs1 cbs2 [] []).2 = .ok ([0, 3], events) →
              merge_cell example_strategy (simple_collaborators none) cbs1 cbs2 st genes_count
                = .ok { st with
                        is_cell_real := st.is_cell_real.set genes_count.index true
                        tag_index := st.tag_index + 1
                        events := st.events ++
                          trace_events (st.tag_index + 1) st.merges_count ++
                          (Event.log_debug_neighbours base_cb :: events) })
      ∧ (Double.lt mx example_strategy._min_merge_fraction = false →
          get_best_merge_target example_strategy (simple_collaborators none)
              example_container4 1 [0, 3] = .ok (to_long best)) :=
  merge_target_threshold example_strategy (simple_collaborators none) example_container4 1
    [0, 3] (by decide)
    (by
      intro n hn
      simp only [List.mem_cons, List.mem_singleton, List.not_mem_nil, or_false] at hn
      rcases hn with h | h
      · exact ⟨.num (((1 : Nat) : ℚ) / ((1 : Nat) : ℚ)), by rw [h]; rfl, by simp⟩
      · exact ⟨.num (((1 : Nat) : ℚ) / ((1 : Nat) : ℚ)), by rw [h]; rfl, by simp⟩)
    (by decide)

/-- The gate when the returned value is `0 / 0`: base cell 0 (gene `b`) has the single
neighbour 1 (gene `a`), for which `get_umigs_intersect_fraction` returns `nan`; the running
maximum stays 0, which is below the threshold 1/5, and `get_best_merge_target` returns the
base cell's id 0. -/
theorem merge_target_with_nan :
    get_umigs_intersect_fraction (simple_collaborators none) example_container_disjoint 0 1
        = .ok .nan
      ∧ Double.lt .nan example_strategy._min_merge_fraction = false
      ∧ best_neighbour (simple_collaborators none) example_container_disjoint 0 [1]
        = .ok (.num 0, 1)
      ∧ get_best_merge_target example_strategy (simple_collaborators none)
          example_container_disjoint 0 [1] = .ok 0 := by
  refine ⟨?_, rfl, ?_, ?_⟩
  · with_unfolding_all decide
  · with_unfolding_all decide
  · with_unfolding_all decide

/-- C8: the split drops a character. With `_barcode2_length = 3` the barcode `ACGTAC` is cut
into `ACG` and `AC`: the character `T` at position `length - _barcode2_length` is in neither
fragment, the second fragment has length 2 and the two lengths add up to 5, not 6. -/
theorem split_barcode_drops_a_character :
    split_barcode example_strategy "ACGTAC".toList = .ok ("ACG".toList, "AC".toList)
      ∧ example_strategy._barcode2_length = 3
      ∧ "ACG".toList.length + "AC".toList.length = 5
      ∧ "ACGTAC".toList.length = 6
      ∧ "ACG".toList ++ "AC".toList ≠ "ACGTAC".toList := by
  decide

/-! ### The catalog file -/

theorem find_char_none (c : Char) (line : Str) : find_char c line = none ↔ c ∉ line := by
  induction line with
  | nil => simp [find_char]
  | cons x xs ih =>
    simp only [find_char]
    by_cases h : x = c
    · simp [h]
    · simp only [if_neg h, Option.map_eq_none', ih, List.mem_cons, not_or]
      exact ⟨fun h1 => ⟨fun h2 => h h2.symm, h1⟩, fun h1 => h1.2⟩

theorem find_char_some (c : Char) (line : Str) (i : Nat) (h : find_char c line = some i) :
    i < line.length
      ∧ line.take i = line.takeWhile (fun x => decide (x ≠ c))
      ∧ line.drop (i + 1) = (line.dropWhile (fun x => decide (x ≠ c))).drop 1 := by
  induction line generalizing i with
  | nil => simp [find_char] at h
  | cons x xs ih =>
    simp only [find_char] at h
    by_cases hx : x = c
    · rw [if_pos hx] at h
      cases h
      simp [hx]
    · rw [if_neg hx] at h
      obtain ⟨j, hj, rfl⟩ := Option.map_eq_some'.mp h
      obtain ⟨h1, h2, h3⟩ := ih j hj
      refine ⟨by simp; omega, ?_, ?_⟩
      · simp [List.takeWhile_cons, hx, h2]
      · simp [List.dropWhile_cons, hx, h3]

/-- The loop of `get_barcodes_list` never fails: a line without a space adds a warning, a
line with a space adds its two canonicalised fields. -/
theorem get_barcodes_list_loop_eq (rc : Str → Str) (lines : List Str)
    (barcodes1 barcodes2 : names_t) (events : List Event) :
    get_barcodes_list_loop rc lines barcodes1 barcodes2 events =
      .ok (barcodes1 ++ (lines.filter has_space).map (fun l => rc (field_before_space l)),
           barcodes2 ++ (lines.filter has_space).map (fun l => rc (field_after_space l)),
           events ++ (lines.filter (fun l => !has_space l)).map Event.log_warn_bad_format) := by
  induction lines generalizing barcodes1 barcodes2 events with
  | nil => simp [get_barcodes_list_loop]
  | cons line rest ih =>
    simp only [get_barcodes_list_loop]
    cases hfind : find_char ' ' line with
    | none =>
      have hno : has_space line = false := by
        simpa [has_space] using (find_char_none ' ' line).mp hfind
      simp [ih, List.filter_cons, hno]
    | some i =>
      have hyes : has_space line = true := by
        by_contra hcon
        have : find_char ' ' line = none :=
          (find_char_none ' ' line).mpr (by simpa [has_space] using hcon)
        rw [this] at hfind; cases hfind
      obtain ⟨h1, h2, h3⟩ := find_char_some ' ' line i hfind
      have hsub1 : substr line 0 i = .ok (field_before_space line) := by
        simp only [substr, field_before_space, ← h2, List.drop_zero]
        simp
      have hsub2 : substr_from line (i + 1) = .ok (field_after_space line) := by
        have : ¬ (i + 1 > line.length) := by omega
        simp only [substr_from, if_neg this, field_after_space, h3]
      simp [hsub1, hsub2, ih, List.filter_cons, hyes]

/-- The result of `get_barcodes_list` on a file that can be opened. -/
theorem get_barcodes_list_eq (col : Collaborators C) (filename : Str) (lines : List Str)
    (barcodes1 barcodes2 : names_t) (hfile : col.file_lines filename = some lines) :
    get_barcodes_list col filename barcodes1 barcodes2 =
      .ok (barcodes1 ++ (lines.filter has_space).map
              (fun l => col.reverse_complement (field_before_space l)),
           barcodes2 ++ (lines.filter has_space).map
              (fun l => col.reverse_complement (field_after_space l)),
           (lines.filter (fun l => !has_space l)).map Event.log_warn_bad_format ++
             if (barcodes1 ++ (lines.filter has_space).map
                  (fun l => col.reverse_complement (field_before_space l))).length = 0
             then [Event.log_warn_empty_list] else []) := by
  simp only [get_barcodes_list, hfile, get_barcodes_list_loop_eq, List.nil_append]
  split <;> simp

/-- The events of `get_barcodes_list` are warnings only. -/
theorem get_barcodes_list_events (col : Collaborators C) (filename : Str)
    (barcodes1 barcodes2 cbs1 cbs2 : names_t) (events : List Event)
    (h : get_barcodes_list col filename barcodes1 barcodes2 = .ok (cbs1, cbs2, events)) :
    ∀ e ∈ events, e = Event.log_warn_empty_list ∨ ∃ line, e = Event.log_warn_bad_format line := by
  cases hfile : col.file_lines filename with
  | none => simp [get_barcodes_list, hfile] at h
  | some lines =>
    rw [get_barcodes_list_eq col filename lines barcodes1 barcodes2 hfile] at h
    injection h with h
    injection h with _ h
    injection h with _ h
    subst h
    intro e he
    rcases List.mem_append.mp he with h1 | h1
    · obtain ⟨line, _, rfl⟩ := List.mem_map.mp h1
      exact Or.inr ⟨line, rfl⟩
    · split at h1
      · exact Or.inl (List.mem_singleton.mp h1)
      · cases h1

/-- C9: loading the catalog from a file that can be opened. `get_barcodes_list` returns;
to the first list it appends, in line order, the canonicalised text before the first space
of every line that contains a space, to the second list the canonicalised text after it;
a line without a space only adds a warning. Starting from empty lists, the two lists have
the same length, the number of lines with a space, and entry `k` of both lists comes from
the `k`-th such line. -/
theorem get_barcodes_list_keeps_lines_with_space (col : Collaborators C) (filename : Str)
    (lines : List Str) (barcodes1 barcodes2 : names_t)
    (hfile : col.file_lines filename = some lines) :
    (∃ events,
      get_barcodes_list col filename barcodes1 barcodes2 =
        .ok (barcodes1 ++ (lines.filter has_space).map
                (fun l => col.reverse_complement (field_before_space l)),
             barcodes2 ++ (lines.filter has_space).map
                (fun l => col.reverse_complement (field_after_space l)),
             events)
      ∧ ∀ e ∈ events,
          e = Event.log_warn_empty_list ∨ ∃ line, e = Event.log_warn_bad_format line)
    ∧ ∃ (cbs1 cbs2 : names_t) (events : List Event),
        get_barcodes_list col filename [] [] = .ok (cbs1, cbs2, events)
        ∧ cbs1.length = (lines.filter has_space).length
        ∧ cbs2.length = cbs1.length
        ∧ ∀ (k : Nat) (line : Str), (lines.filter has_space)[k]? = some line →
            cbs1[k]? = some (col.reverse_complement (field_before_space line))
            ∧ cbs2[k]? = some (col.reverse_complement (field_after_space line)) := by
  constructor
  · refine ⟨_, get_barcodes_list_eq col filename lines barcodes1 barcodes2 hfile, ?_⟩
    exact get_barcodes_list_events col filename barcodes1 barcodes2 _ _ _
      (get_barcodes_list_eq col filename lines barcodes1 barcodes2 hfile)
  · refine ⟨_, _, _, get_barcodes_list_eq col filename lines [] [] hfile, by simp, by simp, ?_⟩
    intro k line hk
    simp [List.getElem?_map, hk]

theorem get_barcodes_list_keeps_lines_with_space_witness :
    (∃ events,
      get_barcodes_list (simple_collaborators (some example_lines)) "barcodes.txt".toList
          [] [] =
        .ok ([] ++ (example_lines.filter has_space).map
                (fun l => (simple_collaborators (some example_lines)).reverse_complement
                  (field_before_space l)),
             [] ++ (example_lines.filter has_space).map
                (fun l => (simple_collaborators (some example_lines)).reverse_complement
                  (field_after_space l)),
             events)
      ∧ ∀ e ∈ events,
          e = Event.log_warn_empty_list ∨ ∃ line, e = Event.log_warn_bad_format line)
    ∧ ∃ (cbs1 cbs2 : names_t) (events : List Event),
        get_barcodes_list (simple_collaborators (some example_lines)) "barcodes.txt".toList
          [] [] = .ok (cbs1, cbs2, events)
        ∧ cbs1.length = (example_lines.filter has_space).length
        ∧ cbs2.length = cbs1.length
        ∧ ∀ (k : Nat) (line : Str), (example_lines.filter has_space)[k]? = some line →
            cbs1[k]? = some ((simple_collaborators (some example_lines)).reverse_complement
              (field_before_space line))
            ∧ cbs2[k]? = some ((simple_collaborators (some example_lines)).reverse_complement
              (field_after_space line)) :=
  get_barcodes_list_keeps_lines_with_space (simple_collaborators (some example_lines))
    "barcodes.txt".toList example_lines [] [] rfl

/-- C10: an empty catalog makes `merge` a no-op. If `get_barcodes_list` returns an empty
first list, `merge` returns with the container it was given and `filtered_cells` as passed
in; the only events are the warnings of `get_barcodes_list`, so no cell was visited and
there was no exclusion, no recount, no redirect and no statistics report. -/
theorem merge_empty_catalog_is_noop {U : Type} (self : RealBarcodesMergeStrategy)
    (col : Collaborators C) (container : C) (umig_cells_counts : U) (filtered_cells : ids_t)
    (cbs1 cbs2 : names_t) (events : List Event)
    (hparse : get_barcodes_list col self._barcodes_filename [] [] = .ok (cbs1, cbs2, events))
    (hzero : cbs1.length = 0) :
    merge self col container umig_cells_counts filtered_cells
        = .ok { container := container, filtered_cells := filtered_cells, events := events }
      ∧ (∀ e ∈ events,
          e = Event.log_warn_empty_list ∨ ∃ line, e = Event.log_warn_bad_format line)
      ∧ ∀ e ∈ events, e.is_log = true := by
  have hev := get_barcodes_list_events col self._barcodes_filename [] [] cbs1 cbs2 events hparse
  refine ⟨by simp only [merge, hparse, hzero, if_true], hev, ?_⟩
  intro e he
  rcases hev e he with h | ⟨line, h⟩ <;> rw [h] <;> rfl

theorem merge_empty_catalog_is_noop_witness :
    merge example_strategy (simple_collaborators (some ["bad".toList, [], "worse".toList]))
        example_container () [7]
        = .ok { container := example_container, filtered_cells := [7],
                events := [Event.log_warn_bad_format "bad".toList, Event.log_warn_bad_format [],
                  Event.log_warn_bad_format "worse".toList, Event.log_warn_empty_list] }
      ∧ (∀ e ∈ [Event.log_warn_bad_format "bad".toList, Event.log_warn_bad_format [],
                  Event.log_warn_bad_format "worse".toList, Event.log_warn_empty_list],
          e = Event.log_warn_empty_list ∨ ∃ line, e = Event.log_warn_bad_format line)
      ∧ ∀ e ∈ [Event.log_warn_bad_format "bad".toList, Event.log_warn_bad_format [],
                  Event.log_warn_bad_format "worse".toList, Event.log_warn_empty_list],
          e.is_log = true :=
  merge_empty_catalog_is_noop example_strategy
    (simple_collaborators (some ["bad".toList, [], "worse".toList])) example_container ()
    [7] [] [] _ (by decide) (by decide)

/-- What the split does for a barcode at least as long as `_barcode2_length ≥ 1`: the first
fragment is the first `length - _barcode2_length` characters, the second fragment starts one
character later and has `_barcode2_length - 1` characters. -/
theorem split_barcode_lengths (self : RealBarcodesMergeStrategy) (base_cb : Str)
    (h1 : 1 ≤ self._barcode2_length) (h2 : self._barcode2_length ≤ base_cb.length)
    (h3 : base_cb.length < 2 ^ 64) :
    split_barcode self base_cb =
        .ok (base_cb.take (base_cb.length - self._barcode2_length),
             base_cb.drop (base_cb.length - self._barcode2_length + 1))
      ∧ (base_cb.take (base_cb.length - self._barcode2_length)).length
          = base_cb.length - self._barcode2_length
      ∧ (base_cb.drop (base_cb.length - self._barcode2_length + 1)).length
          = self._barcode2_length - 1 := by
  have e1 : to_size_t ((base_cb.length : Int) - (self._barcode2_length : Int))
      = base_cb.length - self._barcode2_length := by
    unfold to_size_t; omega
  have e2 : to_size_t ((base_cb.length : Int) - (self._barcode2_length : Int) + 1)
      = base_cb.length - self._barcode2_length + 1 := by
    unfold to_size_t; omega
  have hpos : ¬ (0 > base_cb.length) := by omega
  have hpos2 : ¬ (base_cb.length - self._barcode2_length + 1 > base_cb.length) := by omega
  refine ⟨?_, ?_, ?_⟩
  · simp only [split_barcode, e1, e2, substr, substr_from, if_neg hpos, if_neg hpos2,
      List.drop_zero]
  · simp
  · simp only [List.length_drop]; omega

/-! ### The pruned double loop against the full cross product -/

theorem mem_cross_product (dists1 dists2 : i_counter_t) (t : tuple_t) :
    t ∈ cross_product dists1 dists2 ↔
      ∃ d1 ∈ dists1, ∃ d2 ∈ dists2, t = (d1.index, d2.index, d1.value + d2.value) := by
  induction dists1 with
  | nil => simp [cross_product]
  | cons a rest ih =>
    simp only [cross_product, List.mem_append, List.mem_map, ih, List.mem_cons]
    constructor
    · rintro (⟨d2, hd2, rfl⟩ | ⟨d1, hd1, d2, hd2, rfl⟩)
      · exact ⟨a, Or.inl rfl, d2, hd2, rfl⟩
      · exact ⟨d1, Or.inr hd1, d2, hd2, rfl⟩
    · rintro ⟨d1, hd1 | hd1, d2, hd2, rfl⟩
      · subst hd1; exact Or.inl ⟨d2, hd2, rfl⟩
      · exact Or.inr ⟨d1, hd1, d2, hd2, rfl⟩

theorem collect_inner_eq_filter (max_ed : Int) (d1 : IndexedValue) (dists2 : i_counter_t)
    (hs2 : dists2.Pairwise (fun a b => a.value ≤ b.value)) :
    collect_inner max_ed d1 dists2 =
      (dists2.map (fun d2 => (d1.index, d2.index, d1.value + d2.value))).filter
        (fun t => decide (t.2.2 ≤ max_ed)) := by
  induction dists2 with
  | nil => rfl
  | cons d2 rest ih =>
    have hrest := (List.pairwise_cons.mp hs2).2
    have hhead := (List.pairwise_cons.mp hs2).1
    simp only [collect_inner]
    by_cases hgt : d1.value + d2.value > max_ed
    · rw [if_pos hgt]
      symm
      rw [List.filter_eq_nil_iff]
      intro t ht
      simp only [List.map_cons, List.mem_cons, List.mem_map] at ht
      simp only [decide_eq_true_eq, not_le]
      rcases ht with rfl | ⟨d, hd, rfl⟩
      · exact hgt
      · have := hhead d hd
        show max_ed < d1.value + d.value
        omega
    · rw [if_neg hgt, ih hrest, List.map_cons, List.filter_cons]
      have : decide ((d1.index, d2.index, d1.value + d2.value).2.2 ≤ max_ed) = true := by
        simp only [decide_eq_true_eq]; omega
      rw [if_pos this]

theorem collect_outer_eq_filter (max_ed : Int) (dist2_0 : IndexedValue)
    (dists1 dists2 : i_counter_t)
    (hs1 : dists1.Pairwise (fun a b => a.value ≤ b.value))
    (hs2 : dists2.Pairwise (fun a b => a.value ≤ b.value))
    (hmin : ∀ d ∈ dists2, dist2_0.value ≤ d.value) :
    collect_outer max_ed dist2_0 dists2 dists1 =
      (cross_product dists1 dists2).filter (fun t => decide (t.2.2 ≤ max_ed)) := by
  induction dists1 with
  | nil => rfl
  | cons d1 rest ih =>
    have hrest := (List.pairwise_cons.mp hs1).2
    have hhead := (List.pairwise_cons.mp hs1).1
    simp only [collect_outer]
    by_cases hgt : d1.value + dist2_0.value > max_ed
    · rw [if_pos hgt]
      symm
      rw [List.filter_eq_nil_iff]
      intro t ht
      obtain ⟨e1, he1, e2, he2, rfl⟩ := (mem_cross_product (d1 :: rest) dists2 t).mp ht
      simp only [decide_eq_true_eq, not_le]
      have h2 := hmin e2 he2
      show max_ed < e1.value + e2.value
      rcases List.mem_cons.mp he1 with h | h
      · subst h; omega
      · have := hhead e1 h; omega
    · rw [if_neg hgt, ih hrest, collect_inner_eq_filter max_ed d1 dists2 hs2, cross_product,
        List.filter_append]

/-- C12: pruning is lossless. For two distance lists sorted ascending by distance (the
second one non-empty when the first is, since the loop reads `dists2[0]`), the pruned
double loop of `get_real_neighbour_cbs` returns, and the tuples it collects are, as a list,
the tuples of the full cross product whose summed distance is at most the bound: the same
pairs, each as often as in the cross product (once per pair of positions), in the same
order, each with its summed distance. -/
theorem pruned_loop_is_filtered_cross_product (max_ed : Int) (dists1 dists2 : i_counter_t)
    (hs1 : dists1.Pairwise (fun a b => a.value ≤ b.value))
    (hs2 : dists2.Pairwise (fun a b => a.value ≤ b.value))
    (hne : dists1 ≠ [] → dists2 ≠ []) :
    collect_real_cell_inds max_ed dists1 dists2 =
      .ok ((cross_product dists1 dists2).filter (fun t => decide (t.2.2 ≤ max_ed))) := by
  cases dists1 with
  | nil => rfl
  | cons a as =>
    cases dists2 with
    | nil => exact absurd rfl (hne (by simp))
    | cons b bs =>
      simp only [collect_real_cell_inds]
      rw [collect_outer_eq_filter max_ed b (a :: as) (b :: bs) hs1 hs2]
      intro d hd
      rcases List.mem_cons.mp hd with h | h
      · rw [h]
      · exact (List.pairwise_cons.mp hs2).1 d h

theorem pruned_loop_is_filtered_cross_product_witness :
    collect_real_cell_inds 2 [⟨1, 0⟩, ⟨0, 1⟩, ⟨2, 3⟩] [⟨0, 1⟩, ⟨1, 1⟩, ⟨2, 2⟩] =
      .ok ((cross_product [⟨1, 0⟩, ⟨0, 1⟩, ⟨2, 3⟩] [⟨0, 1⟩, ⟨1, 1⟩, ⟨2, 2⟩]).filter
        (fun t => decide (t.2.2 ≤ 2))) :=
  pruned_loop_is_filtered_cross_product 2 [⟨1, 0⟩, ⟨0, 1⟩, ⟨2, 3⟩] [⟨0, 1⟩, ⟨1, 1⟩, ⟨2, 2⟩]
    (by decide) (by decide) (by decide)

/-! ### The distance lists -/

theorem fill_distances_loop_eq_catalog (cb_part : Str) (cbs : names_t) :
    fill_distances_loop cb_part cbs 0 [] = catalog_distances cb_part cbs := by
  rw [fill_distances_loop_eq, List.nil_append, catalog_distances]
  apply List.ext_getElem
  · simp
  · intro i h1 h2
    simp only [List.length_map, List.enumFrom_length] at h1
    simp [List.getElem_enumFrom, List.getElem?_eq_getElem h1]

/-- The two results of `fill_distances_to_cb` on fresh vectors: a permutation of the
catalog's distance entries that is ascending in the distance. -/
theorem fill_distances_to_cb_spec (std : StdSort) (cb_part1 cb_part2 : Str)
    (cbs1 cbs2 : names_t) :
    ((fill_distances_to_cb std cb_part1 cb_part2 cbs1 cbs2 [] []).1.Perm
        (catalog_distances cb_part1 cbs1)
      ∧ (fill_distances_to_cb std cb_part1 cb_part2 cbs1 cbs2 [] []).1.Pairwise
        (fun a b => a.value ≤ b.value))
    ∧ ((fill_distances_to_cb std cb_part1 cb_part2 cbs1 cbs2 [] []).2.Perm
        (catalog_distances cb_part2 cbs2)
      ∧ (fill_distances_to_cb std cb_part1 cb_part2 cbs1 cbs2 [] []).2.Pairwise
        (fun a b => a.value ≤ b.value)) := by
  simp only [fill_distances_to_cb, fill_distances_loop_eq_catalog]
  exact ⟨⟨std.perm _ _, std.sorted IndexedValue.key _⟩, ⟨std.perm _ _, std.sorted IndexedValue.key _⟩⟩

/-- The first entry of a list ascending in the distance that is a permutation of `l` carries
the smallest distance of `l`. -/
theorem head_value_le_of_perm (sorted l : i_counter_t) (hperm : sorted.Perm l)
    (hs : sorted.Pairwise (fun a b => a.value ≤ b.value)) (d0 : IndexedValue)
    (rest : i_counter_t) (hhead : sorted = d0 :: rest) :
    ∀ d ∈ l, d0.value ≤ d.value := by
  intro d hd
  have hmem : d ∈ sorted := hperm.symm.subset hd
  rw [hhead] at hmem hs
  rcases List.mem_cons.mp hmem with h | h
  · rw [h]
  · exact (List.pairwise_cons.mp hs).1 d h

/-- C13: for every query fragment pair, every catalog and every admissible `std::sort`,
each of the two lists that `fill_distances_to_cb` fills is ascending in the distance and is
a permutation of the entries `(i, edit_distance(fragment, catalog fragment i))`, one for
every catalog index `i` of its side and nothing else; so a first entry of either list
carries the minimum distance to that side of the catalog. -/
theorem fill_distances_to_cb_sorted_catalog (std : StdSort) (cb_part1 cb_part2 : Str)
    (cbs1 cbs2 : names_t) :
    ((fill_distances_to_cb std cb_part1 cb_part2 cbs1 cbs2 [] []).1.Perm
        (catalog_distances cb_part1 cbs1)
      ∧ (fill_distances_to_cb std cb_part1 cb_part2 cbs1 cbs2 [] []).1.Pairwise
        (fun a b => a.value ≤ b.value)
      ∧ ∀ d0 ∈ (fill_distances_to_cb std cb_part1 cb_part2 cbs1 cbs2 [] []).1.head?,
          ∀ i < cbs1.length, d0.value ≤ (edit_distance cb_part1 (cbs1.getD i []) : Nat))
    ∧ ((fill_distances_to_cb std cb_part1 cb_part2 cbs1 cbs2 [] []).2.Perm
        (catalog_distances cb_part2 cbs2)
      ∧ (fill_distances_to_cb std cb_part1 cb_part2 cbs1 cbs2 [] []).2.Pairwise
        (fun a b => a.value ≤ b.value)
      ∧ ∀ d0 ∈ (fill_distances_to_cb std cb_part1 cb_part2 cbs1 cbs2 [] []).2.head?,
          ∀ i < cbs2.length, d0.value ≤ (edit_distance cb_part2 (cbs2.getD i []) : Nat)) := by
  obtain ⟨⟨hp1, hs1⟩, ⟨hp2, hs2⟩⟩ := fill_distances_to_cb_spec std cb_part1 cb_part2 cbs1 cbs2
  refine ⟨⟨hp1, hs1, ?_⟩, ⟨hp2, hs2, ?_⟩⟩
  · intro d0 hd0 i hi
    obtain ⟨rest, hrest⟩ : ∃ rest,
        (fill_distances_to_cb std cb_part1 cb_part2 cbs1 cbs2 [] []).1 = d0 :: rest := by
      cases hl : (fill_distances_to_cb std cb_part1 cb_part2 cbs1 cbs2 [] []).1 with
      | nil => rw [hl] at hd0; cases hd0
      | cons a as => rw [hl] at hd0; cases hd0; exact ⟨as, rfl⟩
    exact head_value_le_of_perm _ _ hp1 hs1 d0 rest hrest
      (IndexedValue.mk i (edit_distance cb_part1 (cbs1.getD i []) : Nat))
      (List.mem_map.mpr ⟨i, List.mem_range.mpr hi, rfl⟩)
  · intro d0 hd0 i hi
    obtain ⟨rest, hrest⟩ : ∃ rest,
        (fill_distances_to_cb std cb_part1 cb_part2 cbs1 cbs2 [] []).2 = d0 :: rest := by
      cases hl : (fill_distances_to_cb std cb_part1 cb_part2 cbs1 cbs2 [] []).2 with
      | nil => rw [hl] at hd0; cases hd0
      | cons a as => rw [hl] at hd0; cases hd0; exact ⟨as, rfl⟩
    exact head_value_le_of_perm _ _ hp2 hs2 d0 rest hrest
      (IndexedValue.mk i (edit_distance cb_part2 (cbs2.getD i []) : Nat))
      (List.mem_map.mpr ⟨i, List.mem_range.mpr hi, rfl⟩)

theorem fill_distances_to_cb_sorted_catalog_witness :
    ((fill_distances_to_cb insertion_sort "ACT".toList "GG".toList example_cbs1
          example_cbs2_long [] []).1.Perm (catalog_distances "ACT".toList example_cbs1)
      ∧ (fill_distances_to_cb insertion_sort "ACT".toList "GG".toList example_cbs1
          example_cbs2_long [] []).1.Pairwise (fun a b => a.value ≤ b.value)
      ∧ ∀ d0 ∈ (fill_distances_to_cb insertion_sort "ACT".toList "GG".toList example_cbs1
          example_cbs2_long [] []).1.head?,
          ∀ i < example_cbs1.length,
            d0.value ≤ (edit_distance "ACT".toList (example_cbs1.getD i []) : Nat))
    ∧ ((fill_distances_to_cb insertion_sort "ACT".toList "GG".toList example_cbs1
          example_cbs2_long [] []).2.Perm (catalog_distances "GG".toList example_cbs2_long)
      ∧ (fill_distances_to_cb insertion_sort "ACT".toList "GG".toList example_cbs1
          example_cbs2_long [] []).2.Pairwise (fun a b => a.value ≤ b.value)
      ∧ ∀ d0 ∈ (fill_distances_to_cb insertion_sort "ACT".toList "GG".toList example_cbs1
          example_cbs2_long [] []).2.head?,
          ∀ i < example_cbs2_long.length,
            d0.value ≤ (edit_distance "GG".toList (example_cbs2_long.getD i []) : Nat)) :=
  fill_distances_to_cb_sorted_catalog insertion_sort "ACT".toList "GG".toList example_cbs1
    example_cbs2_long

/-- C14 (amended): the distance lists are ordered by distance only. For every admissible
`std::sort`, in each list that `fill_distances_to_cb` fills an entry with a strictly
smaller distance stands before every entry with a larger distance; nothing is said about
the order of two entries at the same distance. -/
theorem fill_distances_to_cb_orders_by_distance (std : StdSort) (cb_part1 cb_part2 : Str)
    (cbs1 cbs2 : names_t) :
    (∀ (i j : Nat) (a b : IndexedValue),
        (fill_distances_to_cb std cb_part1 cb_part2 cbs1 cbs2 [] []).1[i]? = some a →
        (fill_distances_to_cb std cb_part1 cb_part2 cbs1 cbs2 [] []).1[j]? = some b →
        a.value < b.value → i < j)
    ∧ (∀ (i j : Nat) (a b : IndexedValue),
        (fill_distances_to_cb std cb_part1 cb_part2 cbs1 cbs2 [] []).2[i]? = some a →
        (fill_distances_to_cb std cb_part1 cb_part2 cbs1 cbs2 [] []).2[j]? = some b →
        a.value < b.value → i < j) := by
  obtain ⟨⟨_, hs1⟩, ⟨_, hs2⟩⟩ := fill_distances_to_cb_spec std cb_part1 cb_part2 cbs1 cbs2
  have key : ∀ (l : i_counter_t), l.Pairwise (fun a b => a.value ≤ b.value) →
      ∀ (i j : Nat) (a b : IndexedValue), l[i]? = some a → l[j]? = some b →
        a.value < b.value → i < j := by
    intro l hl i j a b ha hb hlt
    by_contra hij
    have hji : j ≤ i := Nat.le_of_not_lt hij
    obtain ⟨hj, hbj⟩ := List.getElem?_eq_some_iff.mp hb
    obtain ⟨hi, hai⟩ := List.getElem?_eq_some_iff.mp ha
    rcases Nat.lt_or_eq_of_le hji with h | h
    · have := List.pairwise_iff_getElem.mp hl j i hj hi h
      rw [hbj, hai] at this
      omega
    · subst h
      rw [hbj] at hai
      subst hai
      omega
  exact ⟨key _ hs1, key _ hs2⟩

theorem fill_distances_to_cb_orders_by_distance_witness :
    (∀ (i j : Nat) (a b : IndexedValue),
        (fill_distances_to_cb libstdcxx_sort "ACT".toList "GG".toList example_cbs1
          example_cbs2_long [] []).1[i]? = some a →
        (fill_distances_to_cb libstdcxx_sort "ACT".toList "GG".toList example_cbs1
          example_cbs2_long [] []).1[j]? = some b →
        a.value < b.value → i < j)
    ∧ (∀ (i j : Nat) (a b : IndexedValue),
        (fill_distances_to_cb libstdcxx_sort "ACT".toList "GG".toList example_cbs1
          example_cbs2_long [] []).2[i]? = some a →
        (fill_distances_to_cb libstdcxx_sort "ACT".toList "GG".toList example_cbs1
          example_cbs2_long [] []).2[j]? = some b →
        a.value < b.value → i < j) :=
  fill_distances_to_cb_orders_by_distance libstdcxx_sort "ACT".toList "GG".toList
    example_cbs1 example_cbs2_long

/-! ### Bounds on the counters of the merge-join -/

theorem umis_loop_le (umis1 umis2 : umis_t) :
    ∀ n, umis_loop umis1 umis2 n ≤ n + min umis1.length umis2.length := by
  refine merge_join_induction
    (fun l1 l2 => ∀ n, umis_loop l1 l2 n ≤ n + min l1.length l2.length) ?_ ?_ ?_ umis1 umis2
  · intro l2 n; simp [umis_loop]
  · intro l1 n; rw [umis_loop_nil_right]; simp
  · intro a l1 b l2 h1 h2 h3 n
    rw [umis_loop_cons_cons]
    have e1 := h1 n
    have e2 := h2 n
    have e3 := h3 (n + 1)
    simp only [List.length_cons] at e1 e2 ⊢
    cases str_compare a.1 b.1 <;> simp only [] <;> omega

theorem umis_loop_ge (umis1 umis2 : umis_t) : ∀ n, n ≤ umis_loop umis1 umis2 n := by
  refine merge_join_induction (fun l1 l2 => ∀ n, n ≤ umis_loop l1 l2 n) ?_ ?_ ?_ umis1 umis2
  · intro l2 n; simp [umis_loop]
  · intro l1 n; rw [umis_loop_nil_right]
  · intro a l1 b l2 h1 h2 h3 n
    rw [umis_loop_cons_cons]
    have e1 := h1 n
    have e2 := h2 n
    have e3 := h3 (n + 1)
    cases str_compare a.1 b.1 <;> simp only [] <;> omega

/-- The outer loop keeps `intersect_size` below both totals. -/
theorem genes_loop_intersect_le (cell1 cell2 : genes_t) :
    ∀ counts : UmigCounts,
      counts.intersect_size ≤ counts.cell1_umigs → counts.intersect_size ≤ counts.cell2_umigs →
      (genes_loop cell1 cell2 counts).intersect_size ≤ (genes_loop cell1 cell2 counts).cell1_umigs
        ∧ (genes_loop cell1 cell2 counts).intersect_size
            ≤ (genes_loop cell1 cell2 counts).cell2_umigs := by
  refine merge_join_induction (fun l1 l2 => ∀ counts : UmigCounts,
      counts.intersect_size ≤ counts.cell1_umigs → counts.intersect_size ≤ counts.cell2_umigs →
      (genes_loop l1 l2 counts).intersect_size ≤ (genes_loop l1 l2 counts).cell1_umigs
        ∧ (genes_loop l1 l2 counts).intersect_size ≤ (genes_loop l1 l2 counts).cell2_umigs)
    ?_ ?_ ?_ cell1 cell2
  · intro l2 counts h1 h2; exact ⟨h1, h2⟩
  · intro l1 counts h1 h2; rw [genes_loop_nil_right]; exact ⟨h1, h2⟩
  · intro a l1 b l2 ih1 ih2 ih3 counts h1 h2
    rw [genes_loop_cons_cons]
    have hle := umis_loop_le a.2 b.2 counts.intersect_size
    cases str_compare a.1 b.1 <;> simp only []
    · exact ih1 _ (by simp only []; omega) (by simp only []; omega)
    · exact ih3 _ (by simp only []; omega) (by simp only []; omega)
    · exact ih2 _ (by simp only []; omega) (by simp only []; omega)

theorem umigs_counts_intersect_le (cell1 cell2 : genes_t) :
    (umigs_counts cell1 cell2).intersect_size ≤ (umigs_counts cell1 cell2).cell1_umigs
      ∧ (umigs_counts cell1 cell2).intersect_size ≤ (umigs_counts cell1 cell2).cell2_umigs :=
  genes_loop_intersect_le cell1 cell2 _ (Nat.le_refl 0) (Nat.le_refl 0)

/-- C19: for every two cells the intersection count of `get_umigs_intersect_fraction` is
at most each of the two totals it accumulates, hence at most the divisor; so when the
divisor is not zero the quotient is a number between 0 and 1, and every value that
`get_umigs_intersect_fraction` returns is `nan` (divisor zero) or such a number. -/
theorem intersect_fraction_between_zero_and_one (col : Collaborators C) (container : C)
    (cell1 cell2 : genes_t) :
    (umigs_counts cell1 cell2).intersect_size ≤ (umigs_counts cell1 cell2).cell1_umigs
      ∧ (umigs_counts cell1 cell2).intersect_size ≤ (umigs_counts cell1 cell2).cell2_umigs
      ∧ ((umigs_counts cell1 cell2).divisor ≠ 0 →
          ∃ q, Double.div_counts col.fp (umigs_counts cell1 cell2).intersect_size
              (umigs_counts cell1 cell2).divisor = .num q ∧ 0 ≤ q ∧ q ≤ 1)
      ∧ ∀ (cell1_ind cell2_ind : Nat) (x : Double),
          get_umigs_intersect_fraction col container cell1_ind cell2_ind = .ok x →
          x = .nan ∨ ∃ q, x = .num q ∧ 0 ≤ q ∧ q ≤ 1 := by
  have hdiv : ∀ c1 c2 : genes_t,
      (umigs_counts c1 c2).intersect_size ≤ (umigs_counts c1 c2).divisor := by
    intro c1 c2
    have := umigs_counts_intersect_le c1 c2
    simp only [UmigCounts.divisor]; omega
  refine ⟨(umigs_counts_intersect_le cell1 cell2).1, (umigs_counts_intersect_le cell1 cell2).2,
    ?_, ?_⟩
  · intro hne
    exact ⟨_, by simp only [Double.div_counts, if_neg hne], col.fp.nonneg _ _,
      col.fp.le_one _ _ (hdiv cell1 cell2)⟩
  · intro cell1_ind cell2_ind x hx
    simp only [get_umigs_intersect_fraction] at hx
    split at hx
    · rename_i c1 c2 _ _
      cases hx
      by_cases hne : (umigs_counts c1 c2).divisor = 0
      · left
        have hzero : (umigs_counts c1 c2).intersect_size = 0 := by
          have := hdiv c1 c2; omega
        simp [Double.div_counts, hne, hzero]
      · right
        exact ⟨_, by simp only [Double.div_counts, if_neg hne], col.fp.nonneg _ _,
          col.fp.le_one _ _ (hdiv c1 c2)⟩
    · cases hx
    · cases hx

theorem intersect_fraction_between_zero_and_one_witness :
    (umigs_counts example_cell_az example_cell_b).intersect_size
        ≤ (umigs_counts example_cell_az example_cell_b).cell1_umigs
      ∧ (umigs_counts example_cell_az example_cell_b).intersect_size
        ≤ (umigs_counts example_cell_az example_cell_b).cell2_umigs
      ∧ ((umigs_counts example_cell_az example_cell_b).divisor ≠ 0 →
          ∃ q, Double.div_counts (simple_collaborators none).fp
              (umigs_counts example_cell_az example_cell_b).intersect_size
              (umigs_counts example_cell_az example_cell_b).divisor = .num q ∧ 0 ≤ q ∧ q ≤ 1)
      ∧ ∀ (cell1_ind cell2_ind : Nat) (x : Double),
          get_umigs_intersect_fraction (simple_collaborators none) example_container4
            cell1_ind cell2_ind = .ok x →
          x = .nan ∨ ∃ q, x = .num q ∧ 0 ≤ q ∧ q ≤ 1 :=
  intersect_fraction_between_zero_and_one (simple_collaborators none) example_container4
    example_cell_az example_cell_b

/-- C16: two cells with one molecule each and a divisor of zero. Cell 0 has its molecule
in gene `b`, cell 1 in gene `a`; the loop adds the size of gene `a` to `cell2_umigs`, the
second map is exhausted, and gene `b` is never added to `cell1_umigs`: the divisor is
`min(0, 1) = 0` and the returned fraction is `0 / 0`. -/
theorem divisor_zero_for_nonempty_cells :
    total_umigs [("b".toList, [("u1".toList, 1)])] = 1
      ∧ total_umigs [("a".toList, [("u1".toList, 1)])] = 1
      ∧ umigs_counts [("b".toList, [("u1".toList, 1)])] [("a".toList, [("u1".toList, 1)])]
        = { intersect_size := 0, cell1_umigs := 0, cell2_umigs := 1 }
      ∧ (umigs_counts [("b".toList, [("u1".toList, 1)])]
          [("a".toList, [("u1".toList, 1)])]).divisor = 0
      ∧ get_umigs_intersect_fraction (simple_collaborators none) example_container_disjoint 0 1
        = .ok .nan := by
  refine ⟨by decide, by decide, by decide, by decide, ?_⟩
  with_unfolding_all decide

/-! ### The merge-join counts the shared pairs -/

theorem char_toNat_inj (a b : Char) (h : a.toNat = b.toNat) : a = b :=
  Char.eq_of_val_eq (UInt32.eq_of_toBitVec_eq (BitVec.eq_of_toNat_eq h))

theorem str_compare_eq_iff (a b : Str) : str_compare a b = .eq ↔ a = b := by
  induction a generalizing b with
  | nil => cases b <;> simp [str_compare]
  | cons x xs ih =>
    cases b with
    | nil => simp [str_compare]
    | cons y ys =>
      simp only [str_compare, List.cons.injEq]
      by_cases h1 : x.toNat < y.toNat
      · simp only [if_pos h1]
        constructor
        · intro h; cases h
        · rintro ⟨rfl, _⟩; omega
      · by_cases h2 : y.toNat < x.toNat
        · simp only [if_neg h1, if_pos h2]
          constructor
          · intro h; cases h
          · rintro ⟨rfl, _⟩; omega
        · simp only [if_neg h1, if_neg h2, ih ys]
          have hxy : x = y := char_toNat_inj x y (by omega)
          simp [hxy]

theorem str_compare_self (a : Str) : str_compare a a = .eq := (str_compare_eq_iff a a).mpr rfl

/-- A key below the first key of an ordered map is not a key of the map. -/
theorem not_mem_keys_of_lt {β : Type} (key : Str) (b : Str × β) (l2 : List (Str × β))
    (hord : keys_ordered (b :: l2)) (hlt : str_compare key b.1 = .lt) :
    key ∉ (b :: l2).map Prod.fst := by
  intro hmem
  simp only [List.map_cons, List.mem_cons, List.mem_map] at hmem
  rcases hmem with h | ⟨c, hc, h⟩
  · rw [h, str_compare_self] at hlt; cases hlt
  · have hbc := (List.pairwise_cons.mp hord).1 c hc
    rw [h] at hbc
    rw [str_compare_swap b.1 key, hbc] at hlt
    cases hlt

/-- The first key of an ordered map is not a key of its tail. -/
theorem head_key_not_mem_tail {β : Type} (a : Str × β) (l1 : List (Str × β))
    (hord : keys_ordered (a :: l1)) : a.1 ∉ l1.map Prod.fst := by
  intro hmem
  obtain ⟨c, hc, h⟩ := List.mem_map.mp hmem
  have hac := (List.pairwise_cons.mp hord).1 c hc
  rw [h, str_compare_self] at hac
  cases hac

/-- The inner loop on two ordered maps adds the number of identifiers of the first map
that are keys of the second. -/
theorem umis_loop_eq_countP (umis1 umis2 : umis_t) :
    keys_ordered umis1 → keys_ordered umis2 → ∀ n,
      umis_loop umis1 umis2 n =
        n + umis1.countP (fun u => decide (u.1 ∈ umis2.map Prod.fst)) := by
  refine merge_join_induction (fun l1 l2 => keys_ordered l1 → keys_ordered l2 → ∀ n,
      umis_loop l1 l2 n = n + l1.countP (fun u => decide (u.1 ∈ l2.map Prod.fst)))
    ?_ ?_ ?_ umis1 umis2
  · intro l2 _ _ n; simp [umis_loop]
  · intro l1 _ _ n; rw [umis_loop_nil_right]; simp
  · intro a l1 b l2 ih1 ih2 ih3 ho1 ho2 n
    have ho1r : keys_ordered l1 := (List.pairwise_cons.mp ho1).2
    have ho2r : keys_ordered l2 := (List.pairwise_cons.mp ho2).2
    rw [umis_loop_cons_cons]
    cases hcmp : str_compare a.1 b.1 <;> simp only []
    · -- the first key is smaller: it is in no later position of the second map
      rw [ih1 ho1r ho2 n, List.countP_cons]
      have hnot := not_mem_keys_of_lt a.1 b l2 ho2 hcmp
      simp only [decide_eq_false hnot]
      simp
    · -- equal keys: one match
      have hab : a.1 = b.1 := (str_compare_eq_iff a.1 b.1).mp hcmp
      rw [ih3 ho1r ho2r (n + 1), List.countP_cons]
      have hin : a.1 ∈ (b :: l2).map Prod.fst := by simp [hab]
      have hcongr : l1.countP (fun u => decide (u.1 ∈ (b :: l2).map Prod.fst))
          = l1.countP (fun u => decide (u.1 ∈ l2.map Prod.fst)) := by
        apply List.countP_congr
        intro u hu
        have hne : u.1 ≠ b.1 := by
          intro h
          have := head_key_not_mem_tail a l1 ho1
          exact this (List.mem_map.mpr ⟨u, hu, by rw [h, hab]⟩)
        simp only [List.map_cons, List.mem_cons, hne, false_or]
      rw [hcongr]
      simp only [decide_eq_true hin, if_true]
      omega
    · -- the second key is smaller: it is no key of the first map
      rw [ih2 ho1 ho2r n]
      congr 1
      apply List.countP_congr
      intro u hu
      have hne : u.1 ≠ b.1 := by
        intro h
        have hgt : str_compare b.1 a.1 = .lt := by rw [str_compare_swap a.1 b.1, hcmp]; rfl
        have := not_mem_keys_of_lt b.1 a l1 ho1 hgt
        exact this (List.mem_map.mpr ⟨u, hu, h⟩)
      simp only [List.map_cons, List.mem_cons, hne, false_or]

theorem mem_umi_pairs (cell : genes_t) (p : Str × Str) :
    p ∈ umi_pairs cell ↔ ∃ gene ∈ cell, p.1 = gene.1 ∧ p.2 ∈ gene.2.map Prod.fst := by
  induction cell with
  | nil => simp [umi_pairs]
  | cons g rest ih =>
    simp only [umi_pairs, List.mem_append, List.mem_map, ih, List.mem_cons]
    constructor
    · rintro (⟨u, hu, rfl⟩ | ⟨gene, hg, h⟩)
      · exact ⟨g, Or.inl rfl, rfl, u, hu, rfl⟩
      · exact ⟨gene, Or.inr hg, h⟩
    · rintro ⟨gene, hg | hg, h1, u, hu, h2⟩
      · subst hg
        exact Or.inl ⟨u, hu, Prod.ext h1.symm h2⟩
      · exact Or.inr ⟨gene, hg, h1, u, hu, h2⟩

/-- A pair whose gene is not the first gene of a cell is in the cell exactly when it is in
the rest of the cell. -/
theorem mem_umi_pairs_cons_of_ne (b : Str × umis_t) (l2 : genes_t) (p : Str × Str)
    (hne : p.1 ≠ b.1) : p ∈ umi_pairs (b :: l2) ↔ p ∈ umi_pairs l2 := by
  rw [mem_umi_pairs, mem_umi_pairs]
  constructor
  · rintro ⟨gene, hg, h1, h2⟩
    rcases List.mem_cons.mp hg with h | h
    · subst h; exact absurd h1 hne
    · exact ⟨gene, h, h1, h2⟩
  · rintro ⟨gene, hg, h1, h2⟩
    exact ⟨gene, List.mem_cons_of_mem _ hg, h1, h2⟩

/-- The shared pairs of a gene that is the first gene of both ordered cells. -/
theorem countP_first_gene (a b : Str × umis_t) (l2 : genes_t) (hab : a.1 = b.1)
    (ho2 : keys_ordered (b :: l2)) :
    (a.2.map (fun umi => (a.1, umi.1))).countP (fun p => decide (p ∈ umi_pairs (b :: l2)))
      = a.2.countP (fun u => decide (u.1 ∈ b.2.map Prod.fst)) := by
  rw [List.countP_map]
  apply List.countP_congr
  intro u _
  have hiff : (a.1, u.1) ∈ umi_pairs (b :: l2) ↔ u.1 ∈ b.2.map Prod.fst := by
    rw [mem_umi_pairs]
    constructor
    · rintro ⟨gene, hg, h1, h2⟩
      rcases List.mem_cons.mp hg with h | h
      · subst h; exact h2
      · exfalso
        have := head_key_not_mem_tail b l2 ho2
        exact this (List.mem_map.mpr ⟨gene, h, by rw [← h1]; exact hab⟩)
    · intro h
      exact ⟨b, List.mem_cons_self _ _, hab, h⟩
  simp only [Function.comp, decide_eq_true_eq, hiff]

/-- The outer loop on two ordered cells adds the number of shared pairs. -/
theorem genes_loop_intersect_eq (cell1 cell2 : genes_t) :
    cell_ordered cell1 → cell_ordered cell2 → ∀ counts : UmigCounts,
      (genes_loop cell1 cell2 counts).intersect_size
        = counts.intersect_size + shared_pairs cell1 cell2 := by
  refine merge_join_induction (fun l1 l2 => cell_ordered l1 → cell_ordered l2 →
      ∀ counts : UmigCounts,
        (genes_loop l1 l2 counts).intersect_size = counts.intersect_size + shared_pairs l1 l2)
    ?_ ?_ ?_ cell1 cell2
  · intro l2 _ _ counts; simp [genes_loop, shared_pairs, umi_pairs]
  · intro l1 _ _ counts
    rw [genes_loop_nil_right]
    simp [shared_pairs, umi_pairs]
  · intro a l1 b l2 ih1 ih2 ih3 ho1 ho2 counts
    have ho1r : cell_ordered l1 :=
      ⟨(List.pairwise_cons.mp ho1.1).2, fun g hg => ho1.2 g (List.mem_cons_of_mem _ hg)⟩
    have ho2r : cell_ordered l2 :=
      ⟨(List.pairwise_cons.mp ho2.1).2, fun g hg => ho2.2 g (List.mem_cons_of_mem _ hg)⟩
    rw [genes_loop_cons_cons]
    cases hcmp : str_compare a.1 b.1 <;> simp only []
    · -- gene `a` is in the first cell only
      rw [ih1 ho1r ho2 _]
      simp only [shared_pairs, umi_pairs, List.countP_append]
      have hnot := not_mem_keys_of_lt a.1 b l2 ho2.1 hcmp
      have hzero : (a.2.map (fun umi => (a.1, umi.1))).countP
          (fun p => decide (p ∈ umi_pairs (b :: l2))) = 0 := by
        rw [List.countP_eq_zero]
        intro p hp
        obtain ⟨u, _, rfl⟩ := List.mem_map.mp hp
        simp only [decide_eq_true_eq]
        intro hmem
        obtain ⟨gene, hg, h1, _⟩ := (mem_umi_pairs (b :: l2) _).mp hmem
        exact hnot (List.mem_map.mpr ⟨gene, hg, h1.symm⟩)
      simp only [umi_pairs] at hzero
      omega
    · -- a shared gene
      have hab : a.1 = b.1 := (str_compare_eq_iff a.1 b.1).mp hcmp
      rw [ih3 ho1r ho2r _]
      simp only []
      rw [umis_loop_eq_countP a.2 b.2 (ho1.2 a (List.mem_cons_self _ _))
        (ho2.2 b (List.mem_cons_self _ _))]
      have hfirst := countP_first_gene a b l2 hab ho2.1
      have hrest : (umi_pairs l1).countP (fun p => decide (p ∈ umi_pairs (b :: l2)))
          = (umi_pairs l1).countP (fun p => decide (p ∈ umi_pairs l2)) := by
        apply List.countP_congr
        intro p hp
        obtain ⟨gene, hg, h1, _⟩ := (mem_umi_pairs l1 p).mp hp
        have hne : p.1 ≠ b.1 := by
          intro h
          have := head_key_not_mem_tail a l1 ho1.1
          exact this (List.mem_map.mpr ⟨gene, hg, by rw [← h1, h, hab]⟩)
        simp only [decide_eq_true_eq, mem_umi_pairs_cons_of_ne b l2 p hne]
      simp only [shared_pairs, List.countP_append] at hfirst hrest ⊢
      rw [show umi_pairs (a :: l1) = a.2.map (fun umi => (a.1, umi.1)) ++ umi_pairs l1 from rfl,
        List.countP_append, hfirst, hrest]
      omega
    · -- gene `b` is in the second cell only
      rw [ih2 ho1 ho2r _]
      simp only [shared_pairs]
      congr 1
      apply List.countP_congr
      intro p hp
      obtain ⟨gene, hg, h1, _⟩ := (mem_umi_pairs (a :: l1) p).mp hp
      have hne : p.1 ≠ b.1 := by
        intro h
        have hgt : str_compare b.1 a.1 = .lt := by rw [str_compare_swap a.1 b.1, hcmp]; rfl
        have := not_mem_keys_of_lt b.1 a l1 ho1.1 hgt
        exact this (List.mem_map.mpr ⟨gene, hg, by rw [← h1, h]⟩)
      simp only [decide_eq_true_eq, mem_umi_pairs_cons_of_ne b l2 p hne]

theorem ne_of_str_compare_lt (a b : Str) (h : str_compare a b = .lt) : a ≠ b := by
  intro hab
  rw [hab, str_compare_self] at h
  cases h

/-- The pairs of an ordered cell are pairwise different. -/
theorem umi_pairs_nodup (cell : genes_t) (ho : cell_ordered cell) : (umi_pairs cell).Nodup := by
  induction cell with
  | nil => simp [umi_pairs]
  | cons g rest ih =>
    have hor : cell_ordered rest :=
      ⟨(List.pairwise_cons.mp ho.1).2, fun x hx => ho.2 x (List.mem_cons_of_mem _ hx)⟩
    simp only [umi_pairs]
    rw [List.nodup_append]
    refine ⟨?_, ih hor, ?_⟩
    · have hg : keys_ordered g.2 := ho.2 g (List.mem_cons_self _ _)
      rw [List.Nodup, List.pairwise_map]
      refine hg.imp ?_
      intro a b h hab
      exact ne_of_str_compare_lt a.1 b.1 h (congrArg Prod.snd hab)
    · intro p hp1 hp2
      obtain ⟨u, _, rfl⟩ := List.mem_map.mp hp1
      obtain ⟨gene, hgene, h1, _⟩ := (mem_umi_pairs rest _).mp hp2
      exact head_key_not_mem_tail g rest ho.1 (List.mem_map.mpr ⟨gene, hgene, h1.symm⟩)

/-- C15: for two cells whose gene maps and molecule-identifier maps are ordered by key, the
intersection count of the two-level merge-join in `get_umigs_intersect_fraction` is the
number of (gene, molecule identifier) pairs of the first cell that are also pairs of the
second cell, the pairs of a cell being pairwise different; no pair of a gene that the
second cell does not have is among the pairs of the second cell, so such a gene adds
nothing. -/
theorem intersect_size_counts_shared_pairs (cell1 cell2 : genes_t)
    (h1 : cell_ordered cell1) (h2 : cell_ordered cell2) :
    (umigs_counts cell1 cell2).intersect_size = shared_pairs cell1 cell2
      ∧ (umi_pairs cell1).Nodup ∧ (umi_pairs cell2).Nodup
      ∧ ∀ gene ∈ cell1, gene.1 ∉ cell2.map Prod.fst →
          ∀ umi ∈ gene.2, (gene.1, umi.1) ∉ umi_pairs cell2 := by
  refine ⟨?_, umi_pairs_nodup cell1 h1, umi_pairs_nodup cell2 h2, ?_⟩
  · have := genes_loop_intersect_eq cell1 cell2 h1 h2
      { intersect_size := 0, cell1_umigs := 0, cell2_umigs := 0 }
    simpa [umigs_counts] using this
  · intro gene _ hnot umi _ hmem
    obtain ⟨g2, hg2, hkey, _⟩ := (mem_umi_pairs cell2 _).mp hmem
    exact hnot (List.mem_map.mpr ⟨g2, hg2, hkey.symm⟩)

theorem intersect_size_counts_shared_pairs_witness :
    (umigs_counts
        [("g1".toList, [("u1".toList, 1), ("u2".toList, 1)]), ("g3".toList, [("u1".toList, 2)])]
        [("g1".toList, [("u2".toList, 1), ("u5".toList, 1)]), ("g2".toList, [("u1".toList, 1)]),
         ("g3".toList, [("u1".toList, 1)])]).intersect_size
      = shared_pairs
        [("g1".toList, [("u1".toList, 1), ("u2".toList, 1)]), ("g3".toList, [("u1".toList, 2)])]
        [("g1".toList, [("u2".toList, 1), ("u5".toList, 1)]), ("g2".toList, [("u1".toList, 1)]),
         ("g3".toList, [("u1".toList, 1)])]
      ∧ (umi_pairs [("g1".toList, [("u1".toList, 1), ("u2".toList, 1)]),
          ("g3".toList, [("u1".toList, 2)])]).Nodup
      ∧ (umi_pairs [("g1".toList, [("u2".toList, 1), ("u5".toList, 1)]),
          ("g2".toList, [("u1".toList, 1)]), ("g3".toList, [("u1".toList, 1)])]).Nodup
      ∧ ∀ gene ∈ [("g1".toList, [("u1".toList, 1), ("u2".toList, 1)]),
            ("g3".toList, [("u1".toList, 2)])],
          gene.1 ∉ [("g1".toList, [("u2".toList, 1), ("u5".toList, 1)]),
            ("g2".toList, [("u1".toList, 1)]), ("g3".toList, [("u1".toList, 1)])].map Prod.fst →
          ∀ umi ∈ gene.2, (gene.1, umi.1) ∉ umi_pairs
            [("g1".toList, [("u2".toList, 1), ("u5".toList, 1)]),
             ("g2".toList, [("u1".toList, 1)]), ("g3".toList, [("u1".toList, 1)])] :=
  intersect_size_counts_shared_pairs _ _
    (by unfold cell_ordered keys_ordered; decide) (by unfold cell_ordered keys_ordered; decide)

/-! ### ValueCounts -/

/-- The condition that a target has not been redirected cannot be dropped: after the
redirects 0 to 1 and 1 to 2, the redirect of 3 to 1 leaves cell 3 tracked to cell 1, which
has itself been redirected. -/
theorem redirect_to_redirected_target_is_stale :
    (run_redirects 4 [(0, 1), (1, 2), (3, 1)]).1 = [2, 2, 2, 1] := by
  decide

/-! ### The two loops of merge -/

/-- The second loop on ids that all index `is_cell_real`: it returns, and appends the ids
marked real, in the order of the enumeration. -/
theorem collect_filtered_eq (is_cell_real : List Bool) (l : List IndexedValue) :
    ∀ (filtered_cells : ids_t) (events : List Event),
      (∀ gc ∈ l, gc.index < is_cell_real.length) →
      collect_filtered is_cell_real l filtered_cells events =
        .ok (filtered_cells ++
              (l.filter (fun gc => is_cell_real.getD gc.index false)).map (fun gc => gc.index),
             events ++ (l.filter (fun gc => is_cell_real.getD gc.index false)).map
              (fun gc => Event.log_debug_add_filtered gc.value gc.index)) := by
  induction l with
  | nil => intro f e _; simp [collect_filtered]
  | cons gc rest ih =>
    intro f e hvalid
    have hgc := hvalid gc (List.mem_cons_self _ _)
    have hrest : ∀ x ∈ rest, x.index < is_cell_real.length :=
      fun x hx => hvalid x (List.mem_cons_of_mem _ hx)
    have hat : vec_at is_cell_real gc.index = .ok (is_cell_real.getD gc.index false) := by
      simp [vec_at, List.getElem?_eq_getElem hgc, List.getD_eq_getElem?_getD]
    simp only [collect_filtered, hat]
    cases hflag : is_cell_real.getD gc.index false
    · simp only []
      rw [ih f e hrest]
      simp only [List.filter_cons, hflag, Bool.false_eq_true, if_false]
    · simp only []
      rw [ih _ _ hrest]
      simp only [List.filter_cons, hflag, if_true, List.map_cons, List.append_assoc,
        List.singleton_append]

/-- One run of the loop body: the outcome of the cell, and what happens to the marks. -/
theorem merge_cell_marks (self : RealBarcodesMergeStrategy) (col : Collaborators C)
    (cbs1 cbs2 : names_t) (st st1 : MergeState C) (genes_count : IndexedValue)
    (h : merge_cell self col cbs1 cbs2 st genes_count = .ok st1) :
    ∃ c, classify self col cbs1 cbs2 st.container genes_count = .ok c
      ∧ ((c = .Real ∧ genes_count.index < st.is_cell_real.length
            ∧ st1.is_cell_real = st.is_cell_real.set genes_count.index true)
          ∨ (c ≠ .Real ∧ st1.is_cell_real = st.is_cell_real)) := by
  simp only [merge_cell] at h
  simp only [classify]
  cases hget : get_real_cb self col st.container genes_count.index cbs1 cbs2 with
  | error e => rw [hget] at h; cases h
  | ok r =>
    obtain ⟨real_cell_ind, cb_events⟩ := r
    rw [hget] at h
    simp only [] at h ⊢
    by_cases h1 : to_size_t real_cell_ind = genes_count.index
    · rw [if_pos h1] at h
      rw [if_pos h1]
      by_cases h2 : genes_count.index < st.is_cell_real.length
      · rw [if_pos h2] at h
        cases h
        exact ⟨.Real, rfl, Or.inl ⟨rfl, h2, rfl⟩⟩
      · rw [if_neg h2] at h; cases h
    · rw [if_neg h1] at h
      rw [if_neg h1]
      by_cases h3 : real_cell_ind < 0
      · rw [if_pos h3] at h
        rw [if_pos h3]
        cases h
        exact ⟨.Excluded, rfl, Or.inr ⟨(by intro e; cases e), rfl⟩⟩
      · rw [if_neg h3] at h
        rw [if_neg h3]
        cases h
        exact ⟨.Merged (to_size_t real_cell_ind), rfl, Or.inr ⟨(by intro e; cases e), rfl⟩⟩

/-- After the first loop a cell is marked real exactly when it was marked before or one of
its visits had the outcome `Real`; the visited ids are those of the enumeration. -/
theorem merge_cells_marks (self : RealBarcodesMergeStrategy) (col : Collaborators C)
    (cbs1 cbs2 : names_t) (l : List IndexedValue) :
    ∀ (st st1 : MergeState C), merge_cells self col cbs1 cbs2 l st = .ok st1 →
      st1.is_cell_real.length = st.is_cell_real.length
      ∧ (pass_classes self col cbs1 cbs2 l st).map Prod.fst = l.map (fun gc => gc.index)
      ∧ ∀ id, st1.is_cell_real.getD id false = true ↔
          (st.is_cell_real.getD id false = true
            ∨ (id, Classification.Real) ∈ pass_classes self col cbs1 cbs2 l st) := by
  induction l with
  | nil =>
    intro st st1 h
    simp only [merge_cells] at h
    cases h
    simp [pass_classes]
  | cons gc rest ih =>
    intro st st1 h
    simp only [merge_cells] at h
    cases hcell : merge_cell self col cbs1 cbs2 st gc with
    | error e => rw [hcell] at h; cases h
    | ok st2 =>
      rw [hcell] at h
      simp only [] at h
      obtain ⟨hlen, hids, hmarks⟩ := ih st2 st1 h
      obtain ⟨c, hclass, hcase⟩ := merge_cell_marks self col cbs1 cbs2 st st2 gc hcell
      have hpc : pass_classes self col cbs1 cbs2 (gc :: rest) st
          = (gc.index, c) :: pass_classes self col cbs1 cbs2 rest st2 := by
        simp only [pass_classes, hclass, hcell]
      rw [hpc]
      rcases hcase with ⟨hc, hidx, hset⟩ | ⟨hc, hsame⟩
      · refine ⟨by rw [hlen, hset, List.length_set], by simp [hids], ?_⟩
        intro id
        rw [hmarks id, hset, hc]
        simp only [List.mem_cons, Prod.mk.injEq, and_true]
        by_cases hid : id = gc.index
        · subst hid
          simp [List.getD_eq_getElem?_getD, List.getElem?_set, hidx]
        · have hne : ¬ (gc.index = id) := fun e => hid e.symm
          simp [List.getD_eq_getElem?_getD, List.getElem?_set, hne, hid]
      · refine ⟨by rw [hlen, hsame], by simp [hids], ?_⟩
        intro id
        rw [hmarks id, hsame]
        simp only [List.mem_cons, Prod.mk.injEq]
        constructor
        · rintro (h1 | h1)
          · exact Or.inl h1
          · exact Or.inr (Or.inr h1)
        · rintro (h1 | ⟨_, h1⟩ | h1)
          · exact Or.inl h1
          · exact absurd h1.symm hc
          · exact Or.inr h1

theorem eq_of_mem_of_nodup_keys {α β : Type} (m : List (α × β))
    (hnodup : (m.map Prod.fst).Nodup) (k : α) (a b : β)
    (ha : (k, a) ∈ m) (hb : (k, b) ∈ m) : a = b := by
  induction m with
  | nil => cases ha
  | cons e rest ih =>
    simp only [List.map_cons, List.nodup_cons] at hnodup
    rcases List.mem_cons.mp ha with h1 | h1 <;> rcases List.mem_cons.mp hb with h2 | h2
    · rw [← h1] at h2; exact (Prod.mk.inj h2).2.symm
    · exfalso; rw [← h1] at hnodup
      exact hnodup.1 (List.mem_map.mpr ⟨(k, b), h2, rfl⟩)
    · exfalso; rw [← h2] at hnodup
      exact hnodup.1 (List.mem_map.mpr ⟨(k, a), h1, rfl⟩)
    · exact ih hnodup.2 h1 h2

/-- C17: a pass with a non-empty catalog whose first loop runs to its end, on a container
that enumerates each cell once and, after the recount, only ids that index `is_cell_real`.
Then `merge` returns; the container is the one after the recount, and `filtered_cells` is
what was passed in followed by the ids that the container enumerates after the recount,
in its descending gene-count order, restricted to those whose visit in the first loop had
the outcome `Real`; an id whose outcome was `Merged` or `Excluded` is not among the
appended ids. -/
theorem merge_collects_real_cells {U : Type} (self : RealBarcodesMergeStrategy)
    (col : Collaborators C) (container : C) (umig_cells_counts : U) (filtered_cells : ids_t)
    (cbs1 cbs2 : names_t) (list_events : List Event) (st : MergeState C)
    (hparse : get_barcodes_list col self._barcodes_filename [] []
      = .ok (cbs1, cbs2, list_events))
    (hne : cbs1.length ≠ 0)
    (hpass : merge_cells self col cbs1 cbs2 (col.cells_genes_counts_sorted container).reverse
      (initial_state col container list_events) = .ok st)
    (hvalid : ∀ gc ∈ col.cells_genes_counts_sorted
        (col.update_cells_genes_counts st.container self.min_genes_after_merge false),
      gc.index < (col.cell_barcodes container).length)
    (hdistinct : ((col.cells_genes_counts_sorted container).map (fun gc => gc.index)).Nodup) :
    ∃ events,
      merge self col container umig_cells_counts filtered_cells =
        .ok { container :=
                col.update_cells_genes_counts st.container self.min_genes_after_merge false
              filtered_cells := filtered_cells ++
                (((col.cells_genes_counts_sorted
                    (col.update_cells_genes_counts st.container self.min_genes_after_merge
                      false)).reverse.map (fun gc => gc.index)).filter
                  (fun id => decide ((id, Classification.Real) ∈
                    pass_classes self col cbs1 cbs2
                      (col.cells_genes_counts_sorted container).reverse
                      (initial_state col container list_events))))
              events := events }
      ∧ ∀ id c,
          (id, c) ∈ pass_classes self col cbs1 cbs2
            (col.cells_genes_counts_sorted container).reverse
            (initial_state col container list_events) →
          c ≠ Classification.Real →
          id ∉ ((col.cells_genes_counts_sorted
                    (col.update_cells_genes_counts st.container self.min_genes_after_merge
                      false)).reverse.map (fun gc => gc.index)).filter
                  (fun id => decide ((id, Classification.Real) ∈
                    pass_classes self col cbs1 cbs2
                      (col.cells_genes_counts_sorted container).reverse
                      (initial_state col container list_events))) := by
  obtain ⟨hlen, hids, hmarks⟩ := merge_cells_marks self col cbs1 cbs2 _ _ _ hpass
  have hlen2 : st.is_cell_real.length = (col.cell_barcodes container).length := by
    rw [hlen]; simp [initial_state]
  have hflag : ∀ id, st.is_cell_real.getD id false = true ↔
      (id, Classification.Real) ∈ pass_classes self col cbs1 cbs2
        (col.cells_genes_counts_sorted container).reverse
        (initial_state col container list_events) := by
    intro id
    rw [hmarks id]
    constructor
    · rintro (h | h)
      · exfalso
        simp only [initial_state, List.getD_eq_getElem?_getD] at h
        by_cases hid : id < (col.cell_barcodes container).length
        · simp [List.getElem?_replicate, hid] at h
        · simp [List.getElem?_eq_none, hid] at h
      · exact h
    · exact Or.inr
  have hvalid2 : ∀ gc ∈ (col.cells_genes_counts_sorted
      (col.update_cells_genes_counts st.container self.min_genes_after_merge false)).reverse,
      gc.index < st.is_cell_real.length := by
    intro gc hgc
    rw [hlen2]
    exact hvalid gc (List.mem_reverse.mp hgc)
  have hfilter : ∀ l : List IndexedValue,
      (l.filter (fun gc => st.is_cell_real.getD gc.index false)).map (fun gc => gc.index)
        = (l.map (fun gc => gc.index)).filter
            (fun id => decide ((id, Classification.Real) ∈ pass_classes self col cbs1 cbs2
              (col.cells_genes_counts_sorted container).reverse
              (initial_state col container list_events))) := by
    intro l
    induction l with
    | nil => rfl
    | cons gc rest ih =>
      simp only [List.filter_cons, List.map_cons]
      by_cases hgc : st.is_cell_real.getD gc.index false = true
      · have := (hflag gc.index).mp hgc
        simp only [hgc, if_true, List.map_cons, decide_eq_true this, ih]
      · have hnot : ¬ ((gc.index, Classification.Real) ∈ pass_classes self col cbs1 cbs2
            (col.cells_genes_counts_sorted container).reverse
            (initial_state col container list_events)) := fun h => hgc ((hflag gc.index).mpr h)
        simp only [hgc, if_false, decide_eq_false hnot, ih, Bool.false_eq_true]
  have hpass2 : merge_cells self col cbs1 cbs2 (col.cells_genes_counts_sorted container).reverse
      { container := container
        is_cell_real := List.replicate (col.cell_barcodes container).length false
        cb_reassigned_to_it := []
        cb_reassign_targets := List.range (col.cell_barcodes container).length
        tag_index := 0
        merges_count := 0
        events := list_events } = .ok st := hpass
  refine ⟨st.events ++ [Event.log_info_merges st.merges_count] ++
      [Event.update_cells_genes_counts self.min_genes_after_merge false] ++
      ((col.cells_genes_counts_sorted
          (col.update_cells_genes_counts st.container self.min_genes_after_merge
            false)).reverse.filter (fun gc => st.is_cell_real.getD gc.index false)).map
        (fun gc => Event.log_debug_add_filtered gc.value gc.index) ++
      [Event.stats_merge st.cb_reassign_targets (col.cell_barcodes
        (col.update_cells_genes_counts st.container self.min_genes_after_merge false))], ?_, ?_⟩
  · simp only [merge, hparse, if_neg hne, hpass2,
      collect_filtered_eq st.is_cell_real _ filtered_cells _ hvalid2, hfilter]
  · intro id c hc hcne hmem
    have hreal := (List.mem_filter.mp hmem).2
    simp only [decide_eq_true_eq] at hreal
    have hnodup : ((pass_classes self col cbs1 cbs2
        (col.cells_genes_counts_sorted container).reverse
        (initial_state col container list_events)).map Prod.fst).Nodup := by
      rw [hids, List.map_reverse]
      exact List.nodup_reverse.mpr hdistinct
    exact hcne (eq_of_mem_of_nodup_keys _ hnodup id c _ hc hreal)

theorem merge_collects_real_cells_witness :
    ∃ events,
      merge example_strategy (simple_collaborators (some example_lines)) example_container ()
          [7] =
        .ok { container :=
                (simple_collaborators (some example_lines)).update_cells_genes_counts
                  example_final_state.container example_strategy.min_genes_after_merge false
              filtered_cells := [7] ++
                ((((simple_collaborators (some example_lines)).cells_genes_counts_sorted
                    ((simple_collaborators (some example_lines)).update_cells_genes_counts
                      example_final_state.container example_strategy.min_genes_after_merge
                      false)).reverse.map (fun gc => gc.index)).filter
                  (fun id => decide ((id, Classification.Real) ∈
                    pass_classes example_strategy (simple_collaborators (some example_lines))
                      example_cbs1 example_cbs2
                      ((simple_collaborators (some example_lines)).cells_genes_counts_sorted
                        example_container).reverse
                      (initial_state (simple_collaborators (some example_lines))
                        example_container [Event.log_warn_bad_format "bad".toList]))))
              events := events }
      ∧ ∀ id c,
          (id, c) ∈ pass_classes example_strategy (simple_collaborators (some example_lines))
            example_cbs1 example_cbs2
            ((simple_collaborators (some example_lines)).cells_genes_counts_sorted
              example_container).reverse
            (initial_state (simple_collaborators (some example_lines)) example_container
              [Event.log_warn_bad_format "bad".toList]) →
          c ≠ Classification.Real →
          id ∉ (((simple_collaborators (some example_lines)).cells_genes_counts_sorted
                    ((simple_collaborators (some example_lines)).update_cells_genes_counts
                      example_final_state.container example_strategy.min_genes_after_merge
                      false)).reverse.map (fun gc => gc.index)).filter
                  (fun id => decide ((id, Classification.Real) ∈
                    pass_classes example_strategy (simple_collaborators (some example_lines))
                      example_cbs1 example_cbs2
                      ((simple_collaborators (some example_lines)).cells_genes_counts_sorted
                        example_container).reverse
                      (initial_state (simple_collaborators (some example_lines))
                        example_container [Event.log_warn_bad_format "bad".toList]))) :=
  merge_collects_real_cells example_strategy (simple_collaborators (some example_lines))
    example_container () [7] example_cbs1 example_cbs2 [Event.log_warn_bad_format "bad".toList]
    example_final_state (by decide) (by decide) (by with_unfolding_all decide)
    (by with_unfolding_all decide) (by decide)

/-- The pass over `example_container`: cell 0 is real, cells 1 and 2 are excluded, and
`merge` appends the id 0 only. -/
theorem example_pass_outcomes :
    pass_classes example_strategy (simple_collaborators (some example_lines))
        example_cbs1 example_cbs2 example_container.counts_sorted.reverse
        (initial_state (simple_collaborators (some example_lines)) example_container
          [Event.log_warn_bad_format "bad".toList])
      = [(0, .Real), (1, .Excluded), (2, .Excluded)]
    ∧ (merge example_strategy (simple_collaborators (some example_lines)) example_container ()
        [7]).toOption.map (fun r => r.filtered_cells) = some [7, 0] := by
  constructor
  · with_unfolding_all decide
  · with_unfolding_all decide

/-! ### Soundness of a redirect -/

theorem to_size_t_to_long_mod (n : Nat) : to_size_t (to_long n) = n % 2 ^ 64 := by
  unfold to_size_t to_long
  split <;> omega

/-- The selection loop without assumptions on the fractions: every neighbour has a
fraction, and the state is either unchanged, with no fraction above the initial maximum,
or a neighbour of the list with its own fraction, above the initial maximum. -/
theorem best_neighbour_loop_sound (frac : Nat → Except Failure Double) (l : ids_t) :
    ∀ (max_frac : Double) (best : Nat) (mx : Double) (b : Nat),
      best_neighbour_loop frac l (max_frac, best) = .ok (mx, b) →
      (∀ n ∈ l, ∃ x, frac n = .ok x)
        ∧ ((mx = max_frac ∧ b = best
              ∧ ∀ n ∈ l, ∀ x, frac n = .ok x → Double.lt max_frac x = false)
            ∨ (b ∈ l ∧ frac b = .ok mx ∧ Double.lt max_frac mx = true)) := by
  induction l with
  | nil =>
    intro max_frac best mx b h
    simp only [best_neighbour_loop] at h
    cases h
    exact ⟨by simp, Or.inl ⟨rfl, rfl, by simp⟩⟩
  | cons n rest ih =>
    intro max_frac best mx b h
    simp only [best_neighbour_loop] at h
    cases hfn : frac n with
    | error e => rw [hfn] at h; cases h
    | ok x =>
      rw [hfn] at h
      simp only [] at h
      by_cases hlt : Double.lt max_frac x = true
      · rw [if_pos hlt] at h
        obtain ⟨hall, hcase⟩ := ih x n mx b h
        refine ⟨?_, Or.inr ?_⟩
        · intro m hm
          rcases List.mem_cons.mp hm with e | e
          · rw [e]; exact ⟨x, hfn⟩
          · exact hall m e
        · rcases hcase with ⟨h1, h2, _⟩ | ⟨h1, h2, h3⟩
          · rw [h1, h2]; exact ⟨List.mem_cons_self _ _, hfn, hlt⟩
          · exact ⟨List.mem_cons_of_mem _ h1, h2, double_lt_trans hlt h3⟩
      · rw [if_neg hlt] at h
        obtain ⟨hall, hcase⟩ := ih max_frac best mx b h
        refine ⟨?_, ?_⟩
        · intro m hm
          rcases List.mem_cons.mp hm with e | e
          · rw [e]; exact ⟨x, hfn⟩
          · exact hall m e
        · rcases hcase with ⟨h1, h2, h3⟩ | ⟨h1, h2, h3⟩
          · refine Or.inl ⟨h1, h2, ?_⟩
            intro m hm y hy
            rcases List.mem_cons.mp hm with e | e
            · rw [e, hfn] at hy
              cases hy
              simpa using hlt
            · exact h3 m e y hy
          · exact Or.inr ⟨List.mem_cons_of_mem _ h1, h2, h3⟩

/-- What `get_best_merge_target` returns: the base cell's own id, or the id of a neighbour
whose fraction with the base cell is not below the threshold. -/
theorem get_best_merge_target_sound (self : RealBarcodesMergeStrategy) (col : Collaborators C)
    (container : C) (base_cell_ind : Nat) (neighbour_cells : ids_t) (target : Int)
    (h : get_best_merge_target self col container base_cell_ind neighbour_cells = .ok target) :
    target = to_long base_cell_ind
      ∨ ∃ best ∈ neighbour_cells, target = to_long best
          ∧ ∃ x, get_umigs_intersect_fraction col container base_cell_ind best = .ok x
              ∧ Double.lt x self._min_merge_fraction = false
              ∧ (x ≠ .nan → self._min_merge_fraction ≠ .nan →
                  Double.le self._min_merge_fraction x = true) := by
  simp only [get_best_merge_target] at h
  cases hbest : best_neighbour col container base_cell_ind neighbour_cells with
  | error e => rw [hbest] at h; cases h
  | ok r =>
    obtain ⟨mx, best⟩ := r
    rw [hbest] at h
    simp only [] at h
    by_cases hlt : Double.lt mx self._min_merge_fraction = true
    · rw [if_pos hlt] at h
      cases h
      exact Or.inl rfl
    · rw [if_neg hlt] at h
      cases h
      have hnlt : Double.lt mx self._min_merge_fraction = false := by simpa using hlt
      right
      cases hl : neighbour_cells with
      | nil => rw [hl] at hbest; simp [best_neighbour] at hbest
      | cons first rest =>
        rw [hl] at hbest
        simp only [best_neighbour] at hbest
        obtain ⟨hall, hcase⟩ := best_neighbour_loop_sound _ _ _ _ _ _ hbest
        rcases hcase with ⟨h1, h2, h3⟩ | ⟨h1, h2, h3⟩
        · obtain ⟨x, hx⟩ := hall first (List.mem_cons_self _ _)
          have hx0 := h3 first (List.mem_cons_self _ _) x hx
          have hxn := get_umigs_intersect_fraction_nonneg col container base_cell_ind first x hx
          refine ⟨best, by rw [h2]; exact List.mem_cons_self _ _, rfl, x, by rw [h2]; exact hx,
            ?_, ?_⟩
          · by_cases hnan : x = .nan
            · rw [hnan]; rfl
            · rw [double_eq_zero_of_not_lt hnan hxn hx0, ← h1]; exact hnlt
          · intro hnan hthr
            rw [double_eq_zero_of_not_lt hnan hxn hx0]
            rw [h1] at hnlt
            exact double_le_of_not_lt (by simp) hthr hnlt
        · refine ⟨best, h1, rfl, mx, h2, hnlt, ?_⟩
          intro _ hthr
          exact double_le_of_not_lt (double_lt_ne_nan_right h3) hthr hnlt

/-- Every id that the scan adds is the observed cell of a scanned tuple. -/
theorem scan_real_cell_inds_sound (m : List (Str × Nat)) (cbs1 cbs2 : names_t) (base_cb : Str)
    (l : List tuple_t) :
    ∀ (prev : Int) (acc : ids_t) (ev : List Event) (ids : ids_t) (events : List Event),
      scan_real_cell_inds m cbs1 cbs2 base_cb l prev acc ev = .ok (ids, events) →
      ∀ id ∈ ids, id ∈ acc ∨ ∃ t ∈ l, tuple_cell m cbs1 cbs2 t = some id := by
  induction l with
  | nil =>
    intro prev acc ev ids events h id hid
    simp only [scan_real_cell_inds] at h
    cases h
    exact Or.inl hid
  | cons t rest ih =>
    intro prev acc ev ids events h id hid
    simp only [scan_real_cell_inds] at h
    by_cases hbreak : t.2.2 > prev ∧ ¬ acc = []
    · rw [if_pos hbreak] at h
      cases h
      exact Or.inl hid
    · rw [if_neg hbreak] at h
      cases h1 : cbs1[t.1]? with
      | none => simp [vec_at, h1] at h
      | some cb1 =>
        cases h2 : cbs2[t.2.1]? with
        | none => simp [vec_at, h1, h2] at h
        | some cb2 =>
          have htc : tuple_cell m cbs1 cbs2 t = map_find m (cb1 ++ cb2) := by
            simp only [tuple_cell, h1, h2]
          simp only [vec_at, h1, h2] at h
          cases hfind : map_find m (cb1 ++ cb2) with
          | none =>
            rw [hfind] at h
            rcases ih _ _ _ _ _ h id hid with h3 | ⟨u, hu, hcell⟩
            · exact Or.inl h3
            · exact Or.inr ⟨u, List.mem_cons_of_mem _ hu, hcell⟩
          | some cell_id =>
            rw [hfind] at h
            rcases ih _ _ _ _ _ h id hid with h3 | ⟨u, hu, hcell⟩
            · rcases List.mem_append.mp h3 with h4 | h4
              · exact Or.inl h4
              · rw [List.mem_singleton.mp h4]
                exact Or.inr ⟨t, List.mem_cons_self _ _, by rw [htc, hfind]⟩
            · exact Or.inr ⟨u, List.mem_cons_of_mem _ hu, hcell⟩

/-- Every neighbour that `get_real_neighbour_cbs` returns for sorted distance lists is the
observed cell that a pair of entries within the bound reconstructs. -/
theorem get_real_neighbour_cbs_sound (self : RealBarcodesMergeStrategy)
    (col : Collaborators C) (container : C) (cbs1 cbs2 : names_t) (base_cb : Str)
    (dists1 dists2 : i_counter_t) (ids : ids_t) (events : List Event)
    (hs1 : dists1.Pairwise (fun a b => a.value ≤ b.value))
    (hs2 : dists2.Pairwise (fun a b => a.value ≤ b.value))
    (h : get_real_neighbour_cbs self col container cbs1 cbs2 base_cb dists1 dists2
      = .ok (ids, events)) :
    ∀ id ∈ ids, ∃ d1 ∈ dists1, ∃ d2 ∈ dists2,
      reconstructs self.MAX_REAL_MERGE_EDIT_DISTANCE (col.cell_ids_by_cb container)
        cbs1 cbs2 d1 d2 id := by
  intro id hid
  simp only [get_real_neighbour_cbs] at h
  have hne : dists1 ≠ [] → dists2 ≠ [] := by
    intro h1 h2
    subst h2
    cases dists1 with
    | nil => exact h1 rfl
    | cons a as => simp [collect_real_cell_inds] at h
  obtain ⟨inds, hinds, hmem⟩ :=
    mem_collect_real_cell_inds self.MAX_REAL_MERGE_EDIT_DISTANCE dists1 dists2 hs1 hs2 hne
  rw [hinds] at h
  simp only [] at h
  rcases scan_real_cell_inds_sound _ _ _ _ _ _ _ _ _ _ h id hid with h1 | ⟨t, ht, hcell⟩
  · cases h1
  · have ht2 : t ∈ inds := (col.std.perm (fun t : tuple_t => t.2.2) inds).subset ht
    obtain ⟨d1, hd1, d2, hd2, hle, rfl⟩ := (hmem t).mp ht2
    exact ⟨d1, hd1, d2, hd2, hle, hcell⟩

/-- The three ways in which `get_real_cb` returns. -/
theorem get_real_cb_cases (self : RealBarcodesMergeStrategy) (col : Collaborators C)
    (container : C) (base_cell_ind : Nat) (cbs1 cbs2 : names_t) (r : Int)
    (events : List Event)
    (h : get_real_cb self col container base_cell_ind cbs1 cbs2 = .ok (r, events)) :
    r = to_long base_cell_ind ∨ r = -1
      ∨ ∃ base_cb cb_part1 cb_part2 neighbour_cells search_events,
          vec_at (col.cell_barcodes container) base_cell_ind = .ok base_cb
          ∧ split_barcode self base_cb = .ok (cb_part1, cb_part2)
          ∧ get_real_neighbour_cbs self col container cbs1 cbs2 base_cb
              (fill_distances_to_cb col.std cb_part1 cb_part2 cbs1 cbs2 [] []).1
              (fill_distances_to_cb col.std cb_part1 cb_part2 cbs1 cbs2 [] []).2
              = .ok (neighbour_cells, search_events)
          ∧ get_best_merge_target self col container base_cell_ind neighbour_cells = .ok r := by
  simp only [get_real_cb] at h
  cases hcb : vec_at (col.cell_barcodes container) base_cell_ind with
  | error e => rw [hcb] at h; cases h
  | ok base_cb =>
    rw [hcb] at h
    simp only [] at h
    cases hsplit : split_barcode self base_cb with
    | error e => rw [hsplit] at h; cases h
    | ok parts =>
      obtain ⟨cb_part1, cb_part2⟩ := parts
      rw [hsplit] at h
      simp only [] at h
      cases hexact : exact_match
          (fill_distances_to_cb col.std cb_part1 cb_part2 cbs1 cbs2 [] []).1
          (fill_distances_to_cb col.std cb_part1 cb_part2 cbs1 cbs2 [] []).2 with
      | error e => rw [hexact] at h; cases h
      | ok flag =>
        rw [hexact] at h
        cases flag with
        | true =>
          simp only [] at h
          cases h
          exact Or.inl rfl
        | false =>
          simp only [] at h
          cases hsearch : get_real_neighbour_cbs self col container cbs1 cbs2 base_cb
              (fill_distances_to_cb col.std cb_part1 cb_part2 cbs1 cbs2 [] []).1
              (fill_distances_to_cb col.std cb_part1 cb_part2 cbs1 cbs2 [] []).2 with
          | error e => rw [hsearch] at h; cases h
          | ok res =>
            obtain ⟨neighbour_cells, search_events⟩ := res
            rw [hsearch] at h
            simp only [] at h
            by_cases hempty : neighbour_cells = []
            · rw [if_pos hempty] at h
              cases h
              exact Or.inr (Or.inl rfl)
            · rw [if_neg hempty] at h
              cases htarget : get_best_merge_target self col container base_cell_ind
                  neighbour_cells with
              | error e => rw [htarget] at h; cases h
              | ok target =>
                rw [htarget] at h
                simp only [] at h
                cases h
                exact Or.inr (Or.inr ⟨base_cb, cb_part1, cb_part2, neighbour_cells,
                  search_events, rfl, hsplit, hsearch, htarget⟩)

/-- An entry of the distances of a catalog carries the index of a catalog fragment and the
edit distance to it. -/
theorem mem_catalog_distances (cb_part : Str) (cbs : names_t) (d : IndexedValue)
    (h : d ∈ catalog_distances cb_part cbs) :
    ∃ cb, cbs[d.index]? = some cb ∧ d.value = ((edit_distance cb_part cb : Nat) : Int) := by
  simp only [catalog_distances, List.mem_map, List.mem_range] at h
  obtain ⟨i, hi, rfl⟩ := h
  refine ⟨cbs[i], ?_, ?_⟩
  · simp [List.getElem?_eq_getElem hi]
  · simp [List.getD_eq_getElem?_getD, List.getElem?_eq_getElem hi]

/-- A successful lookup returns the id of an entry of the map. -/
theorem map_find_mem (m : List (Str × Nat)) (key : Str) (t : Nat)
    (h : map_find m key = some t) : (key, t) ∈ m := by
  simp only [map_find, Option.map_eq_some'] at h
  obtain ⟨kv, hfind, rfl⟩ := h
  have h1 := List.find?_some hfind
  have h2 := List.mem_of_find?_eq_some hfind
  have h3 : kv.1 = key := of_decide_eq_true h1
  rw [← h3]
  exact h2

/-- A redirect in terms of the value that `get_umigs_intersect_fraction` returns. Let the
body of the first loop of `merge` run
for the cell `s = genes_count.index` in any state and redirect it, that is, count a merge.
Then it has called `merge_force(s, t)` for a target `t` with: `t` differs from `s`; there
are a catalog pair `(i, j)` with fragments `cb1 = cbs1[i]`, `cb2 = cbs2[j]` whose edit
distances to the two fragments that `get_real_cb` cuts out of the barcode of `s` sum to at
most `MAX_REAL_MERGE_EDIT_DISTANCE`, and `t` is the id under which the container knows the
barcode `cb1 + cb2`; the value that `get_umigs_intersect_fraction` returns for `s` and `t`
is not below `_min_merge_fraction`, and it is at least `_min_merge_fraction` whenever both
are numbers. The ids are values of `size_t`. -/
theorem merge_redirect_sound (self : RealBarcodesMergeStrategy) (col : Collaborators C)
    (cbs1 cbs2 : names_t) (st st1 : MergeState C) (genes_count : IndexedValue)
    (hindex : genes_count.index < 2 ^ 64)
    (hids : ∀ kv ∈ col.cell_ids_by_cb st.container, kv.2 < 2 ^ 64)
    (hstep : merge_cell self col cbs1 cbs2 st genes_count = .ok st1)
    (hmerged : st1.merges_count ≠ st.merges_count) :
    ∃ (t : Nat) (base_cb cb_part1 cb_part2 cb1 cb2 : Str) (i j : Nat) (x : Double),
      st1.container = (col.merge_force st.container genes_count.index t
          st.cb_reassign_targets st.cb_reassigned_to_it).1
      ∧ st1.events.getLast? = some (Event.merge_force genes_count.index t)
      ∧ t ≠ genes_count.index
      ∧ vec_at (col.cell_barcodes st.container) genes_count.index = .ok base_cb
      ∧ split_barcode self base_cb = .ok (cb_part1, cb_part2)
      ∧ cbs1[i]? = some cb1 ∧ cbs2[j]? = some cb2
      ∧ ((edit_distance cb_part1 cb1 : Nat) : Int) + ((edit_distance cb_part2 cb2 : Nat) : Int)
          ≤ self.MAX_REAL_MERGE_EDIT_DISTANCE
      ∧ map_find (col.cell_ids_by_cb st.container) (cb1 ++ cb2) = some t
      ∧ get_umigs_intersect_fraction col st.container genes_count.index t = .ok x
      ∧ Double.lt x self._min_merge_fraction = false
      ∧ (x ≠ .nan → self._min_merge_fraction ≠ .nan →
          Double.le self._min_merge_fraction x = true) := by
  simp only [merge_cell] at hstep
  cases hcb : get_real_cb self col st.container genes_count.index cbs1 cbs2 with
  | error e => rw [hcb] at hstep; cases hstep
  | ok res =>
    obtain ⟨r, cb_events⟩ := res
    rw [hcb] at hstep
    simp only [] at hstep
    by_cases hsame : to_size_t r = genes_count.index
    · rw [if_pos hsame] at hstep
      by_cases hlen : genes_count.index < st.is_cell_real.length
      · rw [if_pos hlen] at hstep
        cases hstep
        exact absurd rfl hmerged
      · rw [if_neg hlen] at hstep
        cases hstep
    · rw [if_neg hsame] at hstep
      by_cases hneg : r < 0
      · rw [if_pos hneg] at hstep
        cases hstep
        exact absurd rfl hmerged
      · rw [if_neg hneg] at hstep
        cases hstep
        have hmod : genes_count.index % 2 ^ 64 = genes_count.index := Nat.mod_eq_of_lt hindex
        rcases get_real_cb_cases self col st.container genes_count.index cbs1 cbs2 r cb_events
            hcb with h1 | h1 | ⟨base_cb, cb_part1, cb_part2, neighbour_cells, search_events,
              hbase, hsplit, hsearch, htarget⟩
        · exfalso
          apply hsame
          rw [h1, to_size_t_to_long_mod, hmod]
        · exfalso
          apply hneg
          rw [h1]
          decide
        · rcases get_best_merge_target_sound self col st.container genes_count.index
              neighbour_cells r htarget with h2 | ⟨best, hbest, hr, x, hx, hlt, hle⟩
          · exfalso
            apply hsame
            rw [h2, to_size_t_to_long_mod, hmod]
          · obtain ⟨hfill1, hfill2⟩ := fill_distances_to_cb_spec col.std cb_part1 cb_part2
              cbs1 cbs2
            obtain ⟨d1, hd1, d2, hd2, hsum, hcell⟩ :=
              get_real_neighbour_cbs_sound self col st.container cbs1 cbs2 base_cb _ _
                neighbour_cells search_events hfill1.2 hfill2.2 hsearch best hbest
            obtain ⟨cb1, hcb1, hv1⟩ :=
              mem_catalog_distances cb_part1 cbs1 d1 (hfill1.1.subset hd1)
            obtain ⟨cb2, hcb2, hv2⟩ :=
              mem_catalog_distances cb_part2 cbs2 d2 (hfill2.1.subset hd2)
            have hfind : map_find (col.cell_ids_by_cb st.container) (cb1 ++ cb2)
                = some best := by
              simp only [tuple_cell, hcb1, hcb2] at hcell
              exact hcell
            have hlt64 : best < 2 ^ 64 :=
              hids (cb1 ++ cb2, best) (map_find_mem _ _ _ hfind)
            have ht : to_size_t r = best := by
              rw [hr, to_size_t_to_long_mod, Nat.mod_eq_of_lt hlt64]
            rw [ht] at hsame
            rw [ht]
            refine ⟨best, base_cb, cb_part1, cb_part2, cb1, cb2, d1.index, d2.index, x,
              rfl, ?_, hsame, hbase, hsplit, hcb1, hcb2, ?_, hfind, hx, hlt, hle⟩
            · simp
            · rw [← hv1, ← hv2]
              exact hsum

/-- The redirect of cell 1 of `example_container4`: the loop body redirects it
(barcode `ACTAGG`) to cell 3 (barcode `ACA` + `AGG`). -/
theorem merge_redirect_sound_witness :
    merge_cell example_strategy (simple_collaborators none) example_cbs1 example_cbs2_long
        (initial_state (simple_collaborators none) example_container4 []) ⟨1, 1⟩
      = .ok example_redirect_state
    ∧ example_redirect_state.merges_count = 1
    ∧ ∃ (t : Nat) (base_cb cb_part1 cb_part2 cb1 cb2 : Str) (i j : Nat) (x : Double),
      example_redirect_state.container = ((simple_collaborators none).merge_force
          (initial_state (simple_collaborators none) example_container4 []).container
          (IndexedValue.mk 1 1).index t
          (initial_state (simple_collaborators none) example_container4 []).cb_reassign_targets
          (initial_state (simple_collaborators none) example_container4 []).cb_reassigned_to_it).1
      ∧ example_redirect_state.events.getLast?
          = some (Event.merge_force (IndexedValue.mk 1 1).index t)
      ∧ t ≠ (IndexedValue.mk 1 1).index
      ∧ vec_at ((simple_collaborators none).cell_barcodes
          (initial_state (simple_collaborators none) example_container4 []).container)
          (IndexedValue.mk 1 1).index = .ok base_cb
      ∧ split_barcode example_strategy base_cb = .ok (cb_part1, cb_part2)
      ∧ example_cbs1[i]? = some cb1 ∧ example_cbs2_long[j]? = some cb2
      ∧ ((edit_distance cb_part1 cb1 : Nat) : Int) + ((edit_distance cb_part2 cb2 : Nat) : Int)
          ≤ example_strategy.MAX_REAL_MERGE_EDIT_DISTANCE
      ∧ map_find ((simple_collaborators none).cell_ids_by_cb
          (initial_state (simple_collaborators none) example_container4 []).container)
          (cb1 ++ cb2) = some t
      ∧ get_umigs_intersect_fraction (simple_collaborators none)
          (initial_state (simple_collaborators none) example_container4 []).container
          (IndexedValue.mk 1 1).index t = .ok x
      ∧ Double.lt x example_strategy._min_merge_fraction = false
      ∧ (x ≠ .nan → example_strategy._min_merge_fraction ≠ .nan →
          Double.le example_strategy._min_merge_fraction x = true) :=
  ⟨by with_unfolding_all decide, by with_unfolding_all decide,
    merge_redirect_sound example_strategy (simple_collaborators none) example_cbs1
      example_cbs2_long (initial_state (simple_collaborators none) example_container4 [])
      example_redirect_state ⟨1, 1⟩ (by decide) (by decide)
      (by with_unfolding_all decide) (by with_unfolding_all decide)⟩

/-- A redirect for the threshold 0 when the returned value is `0 / 0`. Cell 1 of
`example_container_nan` (barcode `ACTAGG`, one molecule in gene `b`) has the single
neighbour 3 (barcode `ACA` + `AGG`, one molecule in gene `a`); `get_umigs_intersect_fraction`
returns `nan` for them, and the body of the first loop of `merge` redirects cell 1 to
cell 3. -/
theorem redirect_with_nan :
    get_umigs_intersect_fraction (simple_collaborators none) example_container_nan 1 3
        = .ok .nan
      ∧ Double.le example_strategy_zero._min_merge_fraction .nan = false
      ∧ (merge_cell example_strategy_zero (simple_collaborators none) example_cbs1
          example_cbs2_long (initial_state (simple_collaborators none) example_container_nan [])
          ⟨1, 1⟩).toOption.map (fun st => (st.merges_count, st.events.getLast?, st.container.merged))
        = some (1, some (Event.merge_force 1 3), [(1, 3)]) := by
  refine ⟨?_, rfl, ?_⟩
  · with_unfolding_all decide
  · with_unfolding_all decide

/-! ### Counters that wrap -/

/-- C6: the selected neighbour is not the one with the maximum intersection fraction. For
the base cell 1 of `example_container_tie` (`a: u1`, `z: u2..u9`, 9 molecules) the
neighbour search returns cell 3 (`a: u1`, `b: v1..v8`, 9 molecules, one shared) and then
cell 0 (`a: u1`, `z: u2, u3`, 3 molecules, all shared); the intersection fractions are 1/9
and 1. For cell 3 the loop of `get_umigs_intersect_fraction` ends when gene `b` has been
passed, so gene `z` of the base cell is never counted: the counters are 1, 1 and 9 and the
returned value is 1, the same as for cell 0. `get_best_merge_target` keeps the first, cell
3, and `get_real_cb` returns it. -/
theorem selected_neighbour_is_not_maximum :
    cell_ordered example_cell_base ∧ cell_ordered example_cell_one_shared
      ∧ cell_ordered example_cell_all_shared
      ∧ intersect_fraction_spec example_cell_base example_cell_one_shared = 1 / 9
      ∧ intersect_fraction_spec example_cell_base example_cell_all_shared = 1
      ∧ umigs_counts example_cell_base example_cell_one_shared
          = { intersect_size := 1, cell1_umigs := 1, cell2_umigs := 9 }
      ∧ get_umigs_intersect_fraction (simple_collaborators none) example_container_tie 1 3
          = .ok (.num 1)
      ∧ get_umigs_intersect_fraction (simple_collaborators none) example_container_tie 1 0
          = .ok (.num 1)
      ∧ (get_real_neighbour_cbs example_strategy (simple_collaborators none)
          example_container_tie example_cbs1 example_cbs2_long "ACTAGG".toList
          (fill_distances_to_cb insertion_sort "ACT".toList "GG".toList example_cbs1
            example_cbs2_long [] []).1
          (fill_distances_to_cb insertion_sort "ACT".toList "GG".toList example_cbs1
            example_cbs2_long [] []).2).toOption.map Prod.fst = some [3, 0]
      ∧ get_best_merge_target example_strategy (simple_collaborators none)
          example_container_tie 1 [3, 0] = .ok 3
      ∧ (get_real_cb example_strategy (simple_collaborators none) example_container_tie 1
          example_cbs1 example_cbs2_long).toOption.map Prod.fst = some 3 := by
  refine ⟨?_, ?_, ?_, ?_, ?_, ?_, ?_, ?_, ?_, ?_, ?_⟩
  · unfold cell_ordered keys_ordered example_cell_base; decide
  · unfold cell_ordered keys_ordered example_cell_one_shared; decide
  · unfold cell_ordered keys_ordered example_cell_all_shared; decide
  · with_unfolding_all decide
  · with_unfolding_all decide
  · with_unfolding_all decide
  · with_unfolding_all decide
  · with_unfolding_all decide
  · with_unfolding_all decide
  · with_unfolding_all decide
  · with_unfolding_all decide

/-- C7: the gate does not hold back a neighbour whose intersection fraction is below the
threshold. The base cell 1 has the single neighbour 3 and their intersection fraction is
1/9, below the threshold 1/5; the loop of `get_umigs_intersect_fraction` never counts gene
`z` of the base cell, the returned value is 1, and `get_best_merge_target` returns the
neighbour's id 3 and not the base cell's id 1: `merge` does not mark cell 1 real and counts
a merge. -/
theorem merge_target_below_threshold_is_returned :
    intersect_fraction_spec example_cell_base example_cell_one_shared = 1 / 9
      ∧ example_strategy._min_merge_fraction = .num (1 / 5)
      ∧ Double.lt (.num (intersect_fraction_spec example_cell_base example_cell_one_shared))
          example_strategy._min_merge_fraction = true
      ∧ (get_real_neighbour_cbs example_strategy (simple_collaborators none)
          example_container_trailing example_cbs1 example_cbs2_long "ACTAGG".toList
          (fill_distances_to_cb insertion_sort "ACT".toList "GG".toList example_cbs1
            example_cbs2_long [] []).1
          (fill_distances_to_cb insertion_sort "ACT".toList "GG".toList example_cbs1
            example_cbs2_long [] []).2).toOption.map Prod.fst = some [3]
      ∧ best_neighbour (simple_collaborators none) example_container_trailing 1 [3]
          = .ok (.num 1, 3)
      ∧ get_best_merge_target example_strategy (simple_collaborators none)
          example_container_trailing 1 [3] = .ok 3
      ∧ (merge_cell example_strategy (simple_collaborators none) example_cbs1
          example_cbs2_long
          (initial_state (simple_collaborators none) example_container_trailing [])
          ⟨1, 2⟩).toOption.map (fun st => (st.is_cell_real, st.merges_count))
        = some ([false, false, false, false], 1) := by
  refine ⟨?_, rfl, ?_, ?_, ?_, ?_, ?_⟩
  · with_unfolding_all decide
  · with_unfolding_all decide
  · with_unfolding_all decide
  · with_unfolding_all decide
  · with_unfolding_all decide
  · with_unfolding_all decide

/-- C18: a redirect at an intersection fraction below the threshold. For cell 1 of
`example_container_trailing` (barcode `ACTAGG`) the neighbour search returns cell 3 (barcode
`ACA` + `AGG`); the intersection fraction of the two cells is 1/9, below the threshold 1/5,
and the body of the first loop of `merge` calls `merge_force(1, 3)`. -/
theorem merge_redirects_below_threshold :
    intersect_fraction_spec example_cell_base example_cell_one_shared = 1 / 9
      ∧ example_strategy._min_merge_fraction = .num (1 / 5)
      ∧ Double.lt (.num (intersect_fraction_spec example_cell_base example_cell_one_shared))
          example_strategy._min_merge_fraction = true
      ∧ (get_real_cb example_strategy (simple_collaborators none) example_container_trailing 1
          example_cbs1 example_cbs2_long).toOption.map Prod.fst = some 3
      ∧ (merge_cell example_strategy (simple_collaborators none) example_cbs1
          example_cbs2_long
          (initial_state (simple_collaborators none) example_container_trailing [])
          ⟨1, 2⟩).toOption.map
            (fun st => (st.merges_count, st.events.getLast?, st.container.merged))
        = some (1, some (Event.merge_force 1 3), [(1, 3)]) := by
  refine ⟨?_, rfl, ?_, ?_, ?_⟩
  · with_unfolding_all decide
  · with_unfolding_all decide
  · with_unfolding_all decide
  · with_unfolding_all decide

/-- C14, as stated, fails for `std::sort` on more than 16 entries. The 17 fragments of
`example_catalog17` are all at distance 1 from `AAAAAA`; `std::sort` of libstdc++ partitions
a vector of more than 16 elements around a pivot and swaps elements of equal key, and the
sorted list has the catalog indices in the order 8, 16, 15, ..., 9, 0, 7, ..., 1: the
entry of index 8 stands before the entry of index 0. -/
theorem std_sort_ties_counterexample :
    (fill_distances_to_cb libstdcxx_sort "AAAAAA".toList "AAAAAA".toList example_catalog17
        example_catalog17 [] []).2
      = [⟨8, 1⟩, ⟨16, 1⟩, ⟨15, 1⟩, ⟨14, 1⟩, ⟨13, 1⟩, ⟨12, 1⟩, ⟨11, 1⟩, ⟨10, 1⟩, ⟨9, 1⟩,
         ⟨0, 1⟩, ⟨7, 1⟩, ⟨6, 1⟩, ⟨5, 1⟩, ⟨4, 1⟩, ⟨3, 1⟩, ⟨2, 1⟩, ⟨1, 1⟩] := by
  with_unfolding_all decide

/-! ### A redirect to a redirected cell -/

end RealBarcodesMergeStrategy

end Estimation
